import Mathlib

/-!
# UThread: cooperative user threads, mutexes and semaphores

A shallow embedding of `UThread.c` and `SyncObjects.c`.

* Pointers (`HANDLE`, `PUTHREAD`) are addresses, i.e. natural numbers, with `NULL = 0`.
* `ULONG` values are natural numbers (type `Nat`); every arithmetic operation the C code
  performs on them is reduced modulo `2 ^ 32`.
* The intrusive circular lists are Lean lists, head first.
* The process-wide globals of `UThread.c` form the record `Scheduler`; every operation is a
  function on the objects it reads and writes.
* A context switch is modelled by its effect on the globals (`RunningThread`); an operation
  that suspends its caller is modelled up to the suspension point.
* The record `World` gathers the globals with the mutexes and semaphores initialised so far;
  `World.Reachable` is the set of states the runtime reaches from the start of the program.
* The assembly of `ContextSwitch` is modelled on a record of registers and a memory of words
  indexed by their address.
-/

namespace UThread

/-! ## Machine words -/

/-- Number of values of a 32-bit `ULONG`. -/
def ULONG_MAX1 : Nat := 4294967296

/-- Unsigned 32-bit addition (`+=` on a `ULONG`). -/
def ULONG.add (a b : Nat) : Nat := (a + b) % ULONG_MAX1

/-- Unsigned 32-bit subtraction (`-=` on a `ULONG`): the difference modulo `2 ^ 32`. When the
subtrahend is larger the result wraps around. -/
def ULONG.sub (a b : Nat) : Nat :=
  if b % ULONG_MAX1 ≤ a % ULONG_MAX1 then a % ULONG_MAX1 - b % ULONG_MAX1
  else ULONG_MAX1 - (b % ULONG_MAX1 - a % ULONG_MAX1)

/-- A thread handle: the address of the thread descriptor. -/
abbrev HANDLE := Nat

/-- The null pointer. -/
def NULL : HANDLE := 0

/-! ## Intrusive lists (`List.h`) -/

/-- Modelled from the spec: `List.h` is not among the sources. Section 4.6 describes a
circular doubly linked list with a sentinel; initialising the head gives the empty list. -/
def InitializeListHead {α : Type} : List α := []

/-- Modelled from the spec: `List.h` is not among the sources. Section 4.6: "Empty iff
sentinel.next == sentinel". -/
def IsListEmpty {α : Type} (ListHead : List α) : Bool := ListHead.isEmpty

/-- Modelled from the spec: `List.h` is not among the sources. Section 4.6: "All insertions
append at the tail". -/
def InsertTailList {α : Type} (ListHead : List α) (Entry : α) : List α := ListHead ++ [Entry]

/-- Modelled from the spec: `List.h` is not among the sources. Section 4.6: "removals take
from the head". The result is the removed entry together with the remaining list; on an empty
list there is no entry to return. -/
def RemoveHeadList {α : Type} : List α → Option (α × List α)
  | [] => none
  | Entry :: Rest => some (Entry, Rest)

/-! ## Scheduler globals (`UThread.c`) -/

/-- The globals of `UThread.c`: `NumberOfThreads`, `ReadyQueue`, `RunningThread` and
`MainThread`. -/
structure Scheduler where
  NumberOfThreads : Nat
  ReadyQueue : List HANDLE
  RunningThread : HANDLE
  MainThread : HANDLE
  deriving DecidableEq, Repr

/-- Function `SelectNextReadyThread` (UThread.c:129): returns and removes the first thread of
the ready queue; when the queue is empty the main thread is returned. -/
def SelectNextReadyThread (s : Scheduler) : HANDLE × Scheduler :=
  if IsListEmpty s.ReadyQueue then (s.MainThread, s)
  else
    match RemoveHeadList s.ReadyQueue with
    | some (Thread, Rest) => (Thread, { s with ReadyQueue := Rest })
    | none => (s.MainThread, s)

/-- Function `ContextSwitch` (UThread.c:369): the effect on the globals of switching from
`CurrentThread` to `NextThread` (`mov RunningThread, edx`). -/
def ContextSwitch (_CurrentThread NextThread : HANDLE) (s : Scheduler) : Scheduler :=
  { s with RunningThread := NextThread }

/-- Function `InternalExit` (UThread.c:446): the effect on the globals of destroying
`CurrentThread` and switching to `NextThread` (`mov RunningThread, edx`). -/
def InternalExit (_CurrentThread NextThread : HANDLE) (s : Scheduler) : Scheduler :=
  { s with RunningThread := NextThread }

/-- Function `UtSelf` (UThread.c:315): the handle of the executing thread. -/
def UtSelf (s : Scheduler) : HANDLE := s.RunningThread

/-- Function `UtPark` (UThread.c:326): switches to the next ready thread without queueing the
running one. -/
def UtPark (s : Scheduler) : Scheduler :=
  let next := SelectNextReadyThread s
  ContextSwitch s.RunningThread next.1 next.2

/-- Function `UtUnpark` (UThread.c:337): places the thread at the tail of the ready queue. -/
def UtUnpark (ThreadHandle : HANDLE) (s : Scheduler) : Scheduler :=
  { s with ReadyQueue := InsertTailList s.ReadyQueue ThreadHandle }

/-- Function `UtYield` (UThread.c:295): when the ready queue is not empty, queues the running
thread at the tail and switches to the thread at the head. -/
def UtYield (s : Scheduler) : Scheduler :=
  if !IsListEmpty s.ReadyQueue then
    match RemoveHeadList (InsertTailList s.ReadyQueue s.RunningThread) with
    | some (Thread, Rest) => ContextSwitch s.RunningThread Thread { s with ReadyQueue := Rest }
    | none => s
  else s

/-- Function `UtExit` (UThread.c:280): decrements the thread counter and switches to the next
ready thread. -/
def UtExit (s : Scheduler) : Scheduler :=
  let s1 := { s with NumberOfThreads := ULONG.sub s.NumberOfThreads 1 }
  let next := SelectNextReadyThread s1
  InternalExit s1.RunningThread next.1 next.2

/-! ## Synchronizers (`SyncObjects.h`, `SyncObjects.c`) -/

/-- Record `WAIT_BLOCK` (SyncObjects.h:25): the queue node of a blocked thread. -/
structure WAIT_BLOCK where
  Thread : HANDLE
  deriving DecidableEq, Repr

/-- Function `InitializeWaitBlock` (SyncObjects.h:34): the block names the calling thread. -/
def InitializeWaitBlock (s : Scheduler) : WAIT_BLOCK := { Thread := UtSelf s }

/-- Record `UTHREAD_MUTEX` (SyncObjects.h:48): wait list, recursion counter and owner; the
mutex is free when the owner is `NULL`. -/
structure UTHREAD_MUTEX where
  WaitListHead : List WAIT_BLOCK
  RecursionCounter : Nat
  Owner : HANDLE
  deriving DecidableEq, Repr

/-- Function `UtInitializeMutex` (SyncObjects.c:26): empty wait list; when `Owned`, the calling
thread owns the mutex. -/
def UtInitializeMutex (Owned : Bool) (s : Scheduler) : UTHREAD_MUTEX :=
  { WaitListHead := InitializeListHead
    Owner := if Owned then UtSelf s else NULL
    RecursionCounter := if Owned then 1 else 0 }

/-- Function `UtAcquireMutex` (SyncObjects.c:41), up to the point where the caller returns or is
suspended in `UtPark`. The assertion after `UtPark` is evaluated when the caller is resumed. -/
def UtAcquireMutex (Mutex : UTHREAD_MUTEX) (s : Scheduler) : UTHREAD_MUTEX × Scheduler :=
  let Self := UtSelf s
  if Mutex.Owner = Self then
    ({ Mutex with RecursionCounter := ULONG.add Mutex.RecursionCounter 1 }, s)
  else if Mutex.Owner = NULL then
    ({ Mutex with Owner := Self, RecursionCounter := 1 }, s)
  else
    let WaitBlock := InitializeWaitBlock s
    ({ Mutex with WaitListHead := InsertTailList Mutex.WaitListHead WaitBlock }, UtPark s)

/-- The assertion `_ASSERTE(Mutex->Owner == UtSelf())` that opens `UtReleaseMutex`. -/
def UtReleaseMutex.Asserted (Mutex : UTHREAD_MUTEX) (s : Scheduler) : Prop :=
  Mutex.Owner = UtSelf s

instance (Mutex : UTHREAD_MUTEX) (s : Scheduler) : Decidable (UtReleaseMutex.Asserted Mutex s) :=
  inferInstanceAs (Decidable (Mutex.Owner = UtSelf s))

/-- Function `UtReleaseMutex` (SyncObjects.c:87): decrements the counter; when it reaches
zero the mutex becomes free, or is transferred to the first waiter, which is unparked. -/
def UtReleaseMutex (Mutex : UTHREAD_MUTEX) (s : Scheduler) : UTHREAD_MUTEX × Scheduler :=
  let Counter := ULONG.sub Mutex.RecursionCounter 1
  if Counter > 0 then
    ({ Mutex with RecursionCounter := Counter }, s)
  else if IsListEmpty Mutex.WaitListHead then
    ({ Mutex with RecursionCounter := Counter, Owner := NULL }, s)
  else
    match RemoveHeadList Mutex.WaitListHead with
    | some (WaitBlock, Rest) =>
      ({ WaitListHead := Rest, Owner := WaitBlock.Thread, RecursionCounter := 1 },
        UtUnpark WaitBlock.Thread s)
    | none => ({ Mutex with RecursionCounter := Counter, Owner := NULL }, s)

/-- Record `SEMAPHORE_WAIT_BLOCK` (SyncObjects.h:98): a wait block with the number of permits
requested. -/
structure SEMAPHORE_WAIT_BLOCK where
  Header : WAIT_BLOCK
  RequestedPermits : Nat
  deriving DecidableEq, Repr

/-- Function `InitializeSemaphoreWaitBlock` (SyncObjects.h:107). -/
def InitializeSemaphoreWaitBlock (RequestedPermits : Nat) (s : Scheduler) :
    SEMAPHORE_WAIT_BLOCK :=
  { Header := InitializeWaitBlock s, RequestedPermits := RequestedPermits }

/-- Record `UTHREAD_SEMAPHORE` (SyncObjects.h:88): wait list, permits and limit. -/
structure UTHREAD_SEMAPHORE where
  WaitListHead : List SEMAPHORE_WAIT_BLOCK
  Permits : Nat
  Limit : Nat
  deriving DecidableEq, Repr

/-- Function `UtInitializeSemaphore` (SyncObjects.c:136). -/
def UtInitializeSemaphore (Permits Limit : Nat) : UTHREAD_SEMAPHORE :=
  { WaitListHead := InitializeListHead, Permits := Permits, Limit := Limit }

/-- Function `UtAcquireSemaphore` (SyncObjects.c:154), up to the point where the caller returns
or is suspended in `UtPark`. -/
def UtAcquireSemaphore (Semaphore : UTHREAD_SEMAPHORE) (Permits : Nat) (s : Scheduler) :
    UTHREAD_SEMAPHORE × Scheduler :=
  if Semaphore.Permits ≥ Permits then
    ({ Semaphore with Permits := ULONG.sub Semaphore.Permits Permits }, s)
  else
    let WaitBlock := InitializeSemaphoreWaitBlock Permits s
    ({ Semaphore with WaitListHead := InsertTailList Semaphore.WaitListHead WaitBlock },
      UtPark s)

/-- The `while` loop of `UtReleaseSemaphore`, as a function of the permit count, the wait list
and the scheduler globals. Every iteration that does not leave the loop removes the head of the
wait list. -/
def UtReleaseSemaphore.loop (Permits : Nat) :
    List SEMAPHORE_WAIT_BLOCK → Scheduler → Nat × List SEMAPHORE_WAIT_BLOCK × Scheduler
  | [], s => (Permits, [], s)
  | WaitBlock :: Rest, s =>
    if Permits > 0 then
      if Permits < WaitBlock.RequestedPermits then
        (Permits, WaitBlock :: Rest, s)
      else
        UtReleaseSemaphore.loop (ULONG.sub Permits WaitBlock.RequestedPermits) Rest
          (UtUnpark WaitBlock.Header.Thread s)
    else (Permits, WaitBlock :: Rest, s)

/-- Function `UtReleaseSemaphore` (SyncObjects.c:190): adds the permits in 32 bits, clamps a
sum above the limit to the limit, then runs the wake-up loop. -/
def UtReleaseSemaphore (Semaphore : UTHREAD_SEMAPHORE) (Permits : Nat) (s : Scheduler) :
    UTHREAD_SEMAPHORE × Scheduler :=
  let Sum := ULONG.add Semaphore.Permits Permits
  let Clamped := if Sum > Semaphore.Limit then Semaphore.Limit else Sum
  let r := UtReleaseSemaphore.loop Clamped Semaphore.WaitListHead s
  ({ Semaphore with Permits := r.1, WaitListHead := r.2.1 }, r.2.2)

/-! ## Notions used in the statements -/

/-- Total number of permits requested by the wait blocks of a list. -/
def RequestedSum (ws : List SEMAPHORE_WAIT_BLOCK) : Nat :=
  (ws.map fun b => b.RequestedPermits).sum

/-- The threads named by the wait blocks of a semaphore wait list, in order. -/
def WaitingThreads (ws : List SEMAPHORE_WAIT_BLOCK) : List HANDLE :=
  ws.map fun b => b.Header.Thread

/-- The threads named by the wait blocks of a mutex wait list, in order. -/
def MutexWaiters (ws : List WAIT_BLOCK) : List HANDLE := ws.map fun b => b.Thread

/-- Successive calls of `UtReleaseMutex` on one mutex. The `k`-th call is made with the globals
as they are at that time, `ss[k]`; the result lists the mutex and the globals after each
call. -/
def SuccessiveReleases : UTHREAD_MUTEX → List Scheduler → List (UTHREAD_MUTEX × Scheduler)
  | _, [] => []
  | Mutex, s :: ss =>
    UtReleaseMutex Mutex s :: SuccessiveReleases (UtReleaseMutex Mutex s).1 ss

/-- Every call of `SuccessiveReleases` is made by the thread that owns the mutex at that time
(the assertion of `UtReleaseMutex` holds at every call). -/
def ReleasedByOwner : UTHREAD_MUTEX → List Scheduler → Prop
  | _, [] => True
  | Mutex, s :: ss =>
    UtReleaseMutex.Asserted Mutex s ∧ ReleasedByOwner (UtReleaseMutex Mutex s).1 ss

/-- A call on a semaphore: `UtAcquireSemaphore` or `UtReleaseSemaphore` with its argument. -/
inductive SemaphoreCall where
  | acquire (Permits : Nat)
  | release (Permits : Nat)
  deriving DecidableEq, Repr

/-- One call on the semaphore, made by the running thread. -/
def SemaphoreCall.apply :
    SemaphoreCall → UTHREAD_SEMAPHORE × Scheduler → UTHREAD_SEMAPHORE × Scheduler
  | .acquire n, σ => UtAcquireSemaphore σ.1 n σ.2
  | .release n, σ => UtReleaseSemaphore σ.1 n σ.2

/-- A sequence of calls on the semaphore, first call first. -/
def SemaphoreCalls (calls : List SemaphoreCall) (σ : UTHREAD_SEMAPHORE × Scheduler) :
    UTHREAD_SEMAPHORE × Scheduler :=
  calls.foldl (fun σ c => c.apply σ) σ

/-- The invariant of a semaphore: the permits are within the limit, the limit is a 32-bit value,
every queued request is for at least one permit, and the head of the wait list requests more
than the permits available. -/
def SemaphoreInvariant (Semaphore : UTHREAD_SEMAPHORE) : Prop :=
  Semaphore.Permits ≤ Semaphore.Limit ∧ Semaphore.Limit < ULONG_MAX1 ∧
  (∀ b ∈ Semaphore.WaitListHead, 1 ≤ b.RequestedPermits) ∧
  (∀ w rest, Semaphore.WaitListHead = w :: rest → Semaphore.Permits < w.RequestedPermits)

/-! ## Threads sharing one mutex -/

/-- A mutex shared by the threads of the scheduler, with three ghost fields that record what
the threads are doing: `Parked` lists the threads suspended in the `UtPark` call of
`UtAcquireMutex` (on the wait list, or unparked and not yet resumed); `Inside` lists the threads
that have returned from `UtAcquireMutex` and have not since made a `UtReleaseMutex` call that
changed the owner (the acquisitions that a thread has not yet released are counted by the field
`Acquired` of `MutexRegion`); `ResumedAsOwner` stays `true` as long as
every thread resumed from that `UtPark` found `Mutex->Owner == Self` (the assertion of
`UtAcquireMutex`) and `RecursionCounter == 1`. -/
structure MutexSystem where
  Mutex : UTHREAD_MUTEX
  Globals : Scheduler
  Parked : List HANDLE
  Inside : List HANDLE
  ResumedAsOwner : Bool
  deriving DecidableEq, Repr

/-- The running thread continues after a context switch. If it was suspended in the `UtPark`
of `UtAcquireMutex`, `UtPark` returns, the assertion `Mutex->Owner == Self` is evaluated and
`UtAcquireMutex` returns: the thread is recorded in `Inside`. -/
def MutexSystem.Resume (σ : MutexSystem) : MutexSystem :=
  if σ.Globals.RunningThread ∈ σ.Parked then
    { σ with
      Parked := σ.Parked.filter (fun t => t ≠ σ.Globals.RunningThread)
      Inside := σ.Globals.RunningThread :: σ.Inside
      ResumedAsOwner := σ.ResumedAsOwner && decide (σ.Mutex.Owner = UtSelf σ.Globals) &&
        decide (σ.Mutex.RecursionCounter = 1) }
  else σ

/-- The running thread calls `UtAcquireMutex`. When the call returns at once the thread is
recorded in `Inside`; otherwise the thread is parked and the successor continues. -/
def MutexSystem.AcquireMutex (σ : MutexSystem) : MutexSystem :=
  if σ.Mutex.Owner = UtSelf σ.Globals ∨ σ.Mutex.Owner = NULL then
    { σ with
      Mutex := (UtAcquireMutex σ.Mutex σ.Globals).1
      Globals := (UtAcquireMutex σ.Mutex σ.Globals).2
      Inside := if UtSelf σ.Globals ∈ σ.Inside then σ.Inside else UtSelf σ.Globals :: σ.Inside }
  else
    MutexSystem.Resume
      { σ with
        Mutex := (UtAcquireMutex σ.Mutex σ.Globals).1
        Globals := (UtAcquireMutex σ.Mutex σ.Globals).2
        Parked := UtSelf σ.Globals :: σ.Parked }

/-- The running thread calls `UtReleaseMutex`. It is removed from `Inside` when the call
changes the owner. -/
def MutexSystem.ReleaseMutex (σ : MutexSystem) : MutexSystem :=
  { σ with
    Mutex := (UtReleaseMutex σ.Mutex σ.Globals).1
    Globals := (UtReleaseMutex σ.Mutex σ.Globals).2
    Inside :=
      if (UtReleaseMutex σ.Mutex σ.Globals).1.Owner = UtSelf σ.Globals then σ.Inside
      else σ.Inside.filter (fun t => t ≠ UtSelf σ.Globals) }

/-- The running thread calls `UtYield`; when the ready queue is not empty the thread at its
head continues. -/
def MutexSystem.Yield (σ : MutexSystem) : MutexSystem :=
  if IsListEmpty σ.Globals.ReadyQueue then σ
  else MutexSystem.Resume { σ with Globals := UtYield σ.Globals }

/-- The running thread calls `UtExit`; the successor continues. -/
def MutexSystem.Exit (σ : MutexSystem) : MutexSystem :=
  MutexSystem.Resume
    { σ with
      Globals := UtExit σ.Globals
      Inside := σ.Inside.filter (fun t => t ≠ UtSelf σ.Globals) }

/-- A user thread is running: the running thread is neither `NULL` nor the main thread. -/
def MutexSystem.UserThreadRuns (σ : MutexSystem) : Prop :=
  σ.Globals.RunningThread ≠ NULL ∧ σ.Globals.RunningThread ≠ σ.Globals.MainThread

/-- The state in which the threads start to use a mutex just initialised by
`UtInitializeMutex`. When the mutex is created owned, its creator is recorded in `Inside`. -/
def MutexSystem.start (Owned : Bool) (s : Scheduler) : MutexSystem :=
  { Mutex := UtInitializeMutex Owned s
    Globals := s
    Parked := []
    Inside := if Owned then [UtSelf s] else []
    ResumedAsOwner := true }

/-- The scheduler globals are well formed: no thread is twice on the ready queue, and neither
the running thread, nor `NULL`, nor the main thread is on it. -/
def Scheduler.WellFormed (s : Scheduler) : Prop :=
  s.ReadyQueue.Nodup ∧ s.RunningThread ∉ s.ReadyQueue ∧ NULL ∉ s.ReadyQueue ∧
  s.MainThread ∉ s.ReadyQueue

/-- The states reachable from `σ0` when user threads use the mutex only through
`UtAcquireMutex` and `UtReleaseMutex`, the latter called only by the owner, and otherwise call
`UtYield` and `UtExit`. -/
inductive MutexSystem.Reachable (σ0 : MutexSystem) : MutexSystem → Prop where
  | start : MutexSystem.Reachable σ0 σ0
  | acquire {σ : MutexSystem} : MutexSystem.Reachable σ0 σ → σ.UserThreadRuns →
      MutexSystem.Reachable σ0 σ.AcquireMutex
  | release {σ : MutexSystem} : MutexSystem.Reachable σ0 σ → σ.UserThreadRuns →
      UtReleaseMutex.Asserted σ.Mutex σ.Globals → MutexSystem.Reachable σ0 σ.ReleaseMutex
  | yield {σ : MutexSystem} : MutexSystem.Reachable σ0 σ → σ.UserThreadRuns →
      MutexSystem.Reachable σ0 σ.Yield
  | exit {σ : MutexSystem} : MutexSystem.Reachable σ0 σ → σ.UserThreadRuns →
      MutexSystem.Reachable σ0 σ.Exit

/-- The facts that hold of a mutex system right after a context switch, before the thread
switched to continues. -/
structure MutexSystem.Switched (σ : MutexSystem) : Prop where
  ready_nodup : σ.Globals.ReadyQueue.Nodup
  running_not_ready : σ.Globals.RunningThread ∉ σ.Globals.ReadyQueue
  null_not_ready : NULL ∉ σ.Globals.ReadyQueue
  main_not_ready : σ.Globals.MainThread ∉ σ.Globals.ReadyQueue
  waiters_nodup : (MutexWaiters σ.Mutex.WaitListHead).Nodup
  waiter_not_ready : ∀ t ∈ MutexWaiters σ.Mutex.WaitListHead, t ∉ σ.Globals.ReadyQueue
  running_not_waiter : σ.Globals.RunningThread ∉ MutexWaiters σ.Mutex.WaitListHead
  null_not_waiter : NULL ∉ MutexWaiters σ.Mutex.WaitListHead
  main_not_waiter : σ.Globals.MainThread ∉ MutexWaiters σ.Mutex.WaitListHead
  parked_owner : ∀ t ∈ σ.Parked, t ∉ MutexWaiters σ.Mutex.WaitListHead →
    σ.Mutex.Owner = t ∧ σ.Mutex.RecursionCounter = 1
  null_not_parked : NULL ∉ σ.Parked
  inside_owner : ∀ g ∈ σ.Inside, σ.Mutex.Owner = g ∧ g ≠ NULL
  resumed : σ.ResumedAsOwner = true

/-- The invariant of a mutex system between two calls: the facts of `Switched`, and the running
thread is not suspended in `UtAcquireMutex`. -/
def MutexSystem.Invariant (σ : MutexSystem) : Prop :=
  σ.Switched ∧ σ.Globals.RunningThread ∉ σ.Parked

/-- The states reachable from `σ0` as in `MutexSystem.Reachable`, when in addition no thread
calls `UtAcquireMutex` on a mutex that it already holds `2 ^ 32 - 1` times, so that the
statement `Mutex->RecursionCounter += 1` never wraps around. -/
inductive MutexSystem.ReachableUnwrapped (σ0 : MutexSystem) : MutexSystem → Prop where
  | start : MutexSystem.ReachableUnwrapped σ0 σ0
  | acquire {σ : MutexSystem} : MutexSystem.ReachableUnwrapped σ0 σ → σ.UserThreadRuns →
      (σ.Mutex.Owner = UtSelf σ.Globals → σ.Mutex.RecursionCounter + 1 < ULONG_MAX1) →
      MutexSystem.ReachableUnwrapped σ0 σ.AcquireMutex
  | release {σ : MutexSystem} : MutexSystem.ReachableUnwrapped σ0 σ → σ.UserThreadRuns →
      UtReleaseMutex.Asserted σ.Mutex σ.Globals →
      MutexSystem.ReachableUnwrapped σ0 σ.ReleaseMutex
  | yield {σ : MutexSystem} : MutexSystem.ReachableUnwrapped σ0 σ → σ.UserThreadRuns →
      MutexSystem.ReachableUnwrapped σ0 σ.Yield
  | exit {σ : MutexSystem} : MutexSystem.ReachableUnwrapped σ0 σ → σ.UserThreadRuns →
      MutexSystem.ReachableUnwrapped σ0 σ.Exit

/-! ## Thread creation and the scheduler entry point (`UThread.c`) -/

/-- The fixed stack size of a user thread, `STACK_SIZE`. -/
def STACK_SIZE : Nat := 16 * 4096

/-- Size in bytes of `UTHREAD_CONTEXT`: five 32-bit words (`EDI`, `ESI`, `EBX`, `EBP`,
`RetAddr`). -/
def UTHREAD_CONTEXT_SIZE : Nat := 20

/-- Record `UTHREAD` (UThread.c:41) without its list link: start function, argument, address of
the stack block and address of the saved context. -/
structure UTHREAD where
  Function : Nat
  Argument : Nat
  Stack : Nat
  ThreadContext : Nat
  deriving DecidableEq, Repr

/-- The assertion `_ASSERTE(Thread != NULL && Thread->Stack != NULL)` of `UtCreate`. -/
def UtCreate.Asserted (Thread Stack : HANDLE) : Prop := Thread ≠ NULL ∧ Stack ≠ NULL

/-- Function `UtCreate` (UThread.c:194). `Thread` and `Stack` are the addresses returned by the
two calls of `malloc`. The result is the handle returned, the descriptor written at `Thread`, and
the globals after the call. -/
def UtCreate (Function Argument : Nat) (Thread Stack : HANDLE) (s : Scheduler) :
    HANDLE × UTHREAD × Scheduler :=
  (Thread,
    { Function := Function
      Argument := Argument
      Stack := Stack
      ThreadContext := Stack + STACK_SIZE - 4 - UTHREAD_CONTEXT_SIZE },
    UtUnpark Thread { s with NumberOfThreads := ULONG.add s.NumberOfThreads 1 })

/-- The assertion `_ASSERTE(RunningThread == NULL)` that opens `UtRun`. -/
def UtRun.Precondition (s : Scheduler) : Prop := s.RunningThread = NULL

/-- Function `UtRun` (UThread.c:149), up to the point where the caller returns (empty ready
queue) or is switched out. `Proxy` is the address of the local descriptor `Thread`, which
becomes the main thread. -/
def UtRun (Proxy : HANDLE) (s : Scheduler) : Scheduler :=
  if IsListEmpty s.ReadyQueue then s
  else
    let s1 := { s with MainThread := Proxy }
    let next := SelectNextReadyThread s1
    ContextSwitch Proxy next.1 next.2

/-- The two assertions of `UtRun` after the switch: the ready queue is empty and no thread
exists. -/
def UtRun.Asserted (s : Scheduler) : Prop :=
  IsListEmpty s.ReadyQueue = true ∧ s.NumberOfThreads = 0

/-- The end of `UtRun`, executed when the main thread is switched back in:
`RunningThread = NULL`. -/
def UtRun.Resumed (s : Scheduler) : Scheduler := { s with RunningThread := NULL }

/-! ## The runtime with its synchronizers -/

/-- The threads waiting on the mutexes of a list, in order. -/
def MutexListWaiters : List UTHREAD_MUTEX → List HANDLE
  | [] => []
  | Mutex :: Rest => MutexWaiters Mutex.WaitListHead ++ MutexListWaiters Rest

/-- The threads waiting on the semaphores of a list, in order. -/
def SemaphoreListWaiters : List UTHREAD_SEMAPHORE → List HANDLE
  | [] => []
  | Semaphore :: Rest => WaitingThreads Semaphore.WaitListHead ++ SemaphoreListWaiters Rest

/-- The running thread when it is a user thread: neither `NULL` (no scheduler running) nor the
main thread. -/
def Scheduler.RunningUser (s : Scheduler) : List HANDLE :=
  if s.RunningThread ≠ NULL ∧ s.RunningThread ≠ s.MainThread then [s.RunningThread] else []

/-- The runtime: the globals of `UThread.c`, the mutexes and semaphores initialised so far, and
a ghost list `Exited` of the handles of the threads that called `UtExit` and whose address has
not been handed out again, by `UtCreate` to a new thread or by `UtRun` to its main thread. -/
structure World where
  Globals : Scheduler
  Mutexes : List UTHREAD_MUTEX
  Semaphores : List UTHREAD_SEMAPHORE
  Exited : List HANDLE
  deriving DecidableEq, Repr

/-- The state of the runtime when the program starts: the statics of `UThread.c` are zero and
the ready queue is empty. -/
def World.initial : World :=
  { Globals := { NumberOfThreads := 0, ReadyQueue := [], RunningThread := NULL,
                 MainThread := NULL }
    Mutexes := []
    Semaphores := []
    Exited := [] }

/-- The wait blocks of all wait lists, as the list of the threads they name. -/
def World.Waiters (σ : World) : List HANDLE :=
  MutexListWaiters σ.Mutexes ++ SemaphoreListWaiters σ.Semaphores

/-- The threads that exist: on the ready queue, on a wait list, or running. -/
def World.Threads (σ : World) : List HANDLE :=
  σ.Globals.ReadyQueue ++ σ.Waiters ++ σ.Globals.RunningUser

/-- A user thread is running. -/
def World.UserThreadRuns (σ : World) : Prop :=
  σ.Globals.RunningThread ≠ NULL ∧ σ.Globals.RunningThread ≠ σ.Globals.MainThread

/-- The main thread has been switched back in and is about to finish `UtRun`. -/
def World.MainThreadResumed (σ : World) : Prop :=
  σ.Globals.RunningThread ≠ NULL ∧ σ.Globals.RunningThread = σ.Globals.MainThread

instance (σ : World) : Decidable σ.UserThreadRuns :=
  inferInstanceAs (Decidable (σ.Globals.RunningThread ≠ NULL ∧
    σ.Globals.RunningThread ≠ σ.Globals.MainThread))

instance (σ : World) : Decidable σ.MainThreadResumed :=
  inferInstanceAs (Decidable (σ.Globals.RunningThread ≠ NULL ∧
    σ.Globals.RunningThread = σ.Globals.MainThread))

/-- The states of the runtime reachable from the start of the program. The host (no scheduler
running) or a user thread creates threads and initialises synchronizers; the host calls `UtRun`;
user threads call `UtYield`, `UtExit` and the mutex and semaphore operations (`UtReleaseMutex`
only as owner), so a thread parks only inside an acquire, after queueing its wait block; the
main thread, once switched back in, finishes `UtRun`. `malloc` hands out a 32-bit address that
is not `NULL` and not the address of an existing thread or of the main thread. -/
inductive World.Reachable : World → Prop where
  | initial : World.Reachable World.initial
  | create {σ : World} (Function Argument : Nat) (Thread Stack : HANDLE) :
      World.Reachable σ → ¬ σ.MainThreadResumed → Thread ≠ NULL → Thread < ULONG_MAX1 →
      Thread ≠ σ.Globals.MainThread → Thread ∉ σ.Threads →
      World.Reachable
        { σ with Globals := (UtCreate Function Argument Thread Stack σ.Globals).2.2
                 Exited := σ.Exited.filter (fun t => t ≠ Thread) }
  | run {σ : World} (Proxy : HANDLE) :
      World.Reachable σ → UtRun.Precondition σ.Globals → Proxy ≠ NULL → Proxy ∉ σ.Threads →
      World.Reachable
        { σ with Globals := UtRun Proxy σ.Globals
                 Exited := σ.Exited.filter (fun t => t ≠ Proxy) }
  | finish {σ : World} :
      World.Reachable σ → σ.MainThreadResumed →
      World.Reachable { σ with Globals := UtRun.Resumed σ.Globals }
  | yield {σ : World} :
      World.Reachable σ → σ.UserThreadRuns →
      World.Reachable { σ with Globals := UtYield σ.Globals }
  | exit {σ : World} :
      World.Reachable σ → σ.UserThreadRuns →
      World.Reachable { σ with Globals := UtExit σ.Globals
                               Exited := σ.Globals.RunningThread :: σ.Exited }
  | initializeMutex {σ : World} (Owned : Bool) :
      World.Reachable σ → ¬ σ.MainThreadResumed →
      World.Reachable { σ with Mutexes := σ.Mutexes ++ [UtInitializeMutex Owned σ.Globals] }
  | initializeSemaphore {σ : World} (Permits Limit : Nat) :
      World.Reachable σ → ¬ σ.MainThreadResumed →
      World.Reachable
        { σ with Semaphores := σ.Semaphores ++ [UtInitializeSemaphore Permits Limit] }
  | acquireMutex {σ : World} {Before After : List UTHREAD_MUTEX} {Mutex : UTHREAD_MUTEX} :
      World.Reachable σ → σ.UserThreadRuns → σ.Mutexes = Before ++ Mutex :: After →
      World.Reachable
        { σ with Mutexes := Before ++ (UtAcquireMutex Mutex σ.Globals).1 :: After
                 Globals := (UtAcquireMutex Mutex σ.Globals).2 }
  | releaseMutex {σ : World} {Before After : List UTHREAD_MUTEX} {Mutex : UTHREAD_MUTEX} :
      World.Reachable σ → σ.UserThreadRuns → σ.Mutexes = Before ++ Mutex :: After →
      UtReleaseMutex.Asserted Mutex σ.Globals →
      World.Reachable
        { σ with Mutexes := Before ++ (UtReleaseMutex Mutex σ.Globals).1 :: After
                 Globals := (UtReleaseMutex Mutex σ.Globals).2 }
  | acquireSemaphore {σ : World} {Before After : List UTHREAD_SEMAPHORE}
      {Semaphore : UTHREAD_SEMAPHORE} (Permits : Nat) :
      World.Reachable σ → σ.UserThreadRuns → σ.Semaphores = Before ++ Semaphore :: After →
      World.Reachable
        { σ with Semaphores := Before ++ (UtAcquireSemaphore Semaphore Permits σ.Globals).1 :: After
                 Globals := (UtAcquireSemaphore Semaphore Permits σ.Globals).2 }
  | releaseSemaphore {σ : World} {Before After : List UTHREAD_SEMAPHORE}
      {Semaphore : UTHREAD_SEMAPHORE} (Permits : Nat) :
      World.Reachable σ → σ.UserThreadRuns → σ.Semaphores = Before ++ Semaphore :: After →
      World.Reachable
        { σ with Semaphores := Before ++ (UtReleaseSemaphore Semaphore Permits σ.Globals).1 :: After
                 Globals := (UtReleaseSemaphore Semaphore Permits σ.Globals).2 }

/-- The accounting invariant of the scheduler globals `s` against the list `W` of the threads
named by the wait blocks and the ghost list `E` of exited threads: the threads on the ready
queue, on the wait lists and the running user thread are pairwise distinct 32-bit addresses
other than `NULL` and the main thread; `NumberOfThreads` counts them; no exited thread is among
them; and the ready queue is empty whenever the main thread has been switched back in. -/
def Scheduler.Accounted (s : Scheduler) (W E : List HANDLE) : Prop :=
  (s.ReadyQueue ++ W ++ s.RunningUser).Nodup ∧
  (∀ h ∈ s.ReadyQueue ++ W ++ s.RunningUser,
    h ≠ NULL ∧ h ≠ s.MainThread ∧ h < ULONG_MAX1) ∧
  s.NumberOfThreads = (s.ReadyQueue ++ W ++ s.RunningUser).length ∧
  (∀ e ∈ E, e ∉ s.ReadyQueue ++ W ++ s.RunningUser) ∧
  (s.RunningThread ≠ NULL → s.RunningThread = s.MainThread → s.ReadyQueue = [])

/-- The states reachable from `σ0` as in `MutexSystem.Reachable`, when in addition no thread
calls `UtExit` while it owns the mutex. -/
inductive MutexSystem.ReachableHeld (σ0 : MutexSystem) : MutexSystem → Prop where
  | start : MutexSystem.ReachableHeld σ0 σ0
  | acquire {σ : MutexSystem} : MutexSystem.ReachableHeld σ0 σ → σ.UserThreadRuns →
      MutexSystem.ReachableHeld σ0 σ.AcquireMutex
  | release {σ : MutexSystem} : MutexSystem.ReachableHeld σ0 σ → σ.UserThreadRuns →
      UtReleaseMutex.Asserted σ.Mutex σ.Globals →
      MutexSystem.ReachableHeld σ0 σ.ReleaseMutex
  | yield {σ : MutexSystem} : MutexSystem.ReachableHeld σ0 σ → σ.UserThreadRuns →
      MutexSystem.ReachableHeld σ0 σ.Yield
  | exit {σ : MutexSystem} : MutexSystem.ReachableHeld σ0 σ → σ.UserThreadRuns →
      σ.Mutex.Owner ≠ UtSelf σ.Globals → MutexSystem.ReachableHeld σ0 σ.Exit

/-! ## Round trips -/

/-- Successive calls of `UtAcquireMutex` on one mutex by the running thread, `k` of them, with
no other operation in between. -/
def AcquireMutexTimes : Nat → UTHREAD_MUTEX × Scheduler → UTHREAD_MUTEX × Scheduler
  | 0, σ => σ
  | k + 1, σ => AcquireMutexTimes k (UtAcquireMutex σ.1 σ.2)

/-- Successive calls of `UtReleaseMutex` on one mutex by the running thread, `k` of them, with
no other operation in between. The result is `none` when the assertion that opens
`UtReleaseMutex` fails at one of the calls. -/
def ReleaseMutexTimes : Nat → UTHREAD_MUTEX × Scheduler → Option (UTHREAD_MUTEX × Scheduler)
  | 0, σ => some σ
  | k + 1, σ =>
    if UtReleaseMutex.Asserted σ.1 σ.2 then ReleaseMutexTimes k (UtReleaseMutex σ.1 σ.2)
    else none

/-- A call of `UtReleaseSemaphore` immediately followed by a call of `UtAcquireSemaphore` for
the same number of permits. -/
def ReleaseThenAcquire (Semaphore : UTHREAD_SEMAPHORE) (Permits : Nat) (s : Scheduler) :
    UTHREAD_SEMAPHORE × Scheduler :=
  UtAcquireSemaphore (UtReleaseSemaphore Semaphore Permits s).1 Permits
    (UtReleaseSemaphore Semaphore Permits s).2

/-! ## Saved contexts (`UThread.c`) -/

/-- The registers that `ContextSwitch` saves and restores, the stack pointer and the
instruction pointer. -/
structure Registers where
  EDI : Nat
  ESI : Nat
  EBX : Nat
  EBP : Nat
  ESP : Nat
  EIP : Nat
  deriving DecidableEq, Repr

/-- A store of one 32-bit word in the memory, an array of words indexed by the address of the
word. -/
def StoreWord (Memory : Nat → Nat) (Address Value : Nat) : Nat → Nat :=
  fun a => if a = Address then Value else Memory a

/-- Instruction `push`: the stack pointer goes down by 4 (in 32 bits) and the word is stored
where it points. -/
def Push (Value : Nat) (σ : Registers × (Nat → Nat)) : Registers × (Nat → Nat) :=
  ({ σ.1 with ESP := ULONG.sub σ.1.ESP 4 }, StoreWord σ.2 (ULONG.sub σ.1.ESP 4) Value)

/-- Instruction `pop`: the word at the stack pointer, and the stack pointer 4 higher (in 32
bits). -/
def Pop (ESP : Nat) (Memory : Nat → Nat) : Nat × Nat := (Memory ESP, ULONG.add ESP 4)

/-- The switch-out half of `ContextSwitch` (UThread.c:389-398), entered by a `call` that pushes
the return address `RetAddr`: `push ebp`, `push ebx`, `push esi`, `push edi`, and the stack
pointer is saved in `CurrentThread->ThreadContext`. The result is the saved stack pointer and
the memory. -/
def ContextSwitch.SwitchOut (RetAddr : Nat) (r : Registers) (Memory : Nat → Nat) :
    Nat × (Nat → Nat) :=
  let σ0 := Push RetAddr (r, Memory)
  let σ1 := Push σ0.1.EBP σ0
  let σ2 := Push σ1.1.EBX σ1
  let σ3 := Push σ2.1.ESI σ2
  let σ4 := Push σ3.1.EDI σ3
  (σ4.1.ESP, σ4.2)

/-- The switch-in half of `ContextSwitch` (UThread.c:411-423): the stack pointer is loaded from
`NextThread->ThreadContext`, then `pop edi`, `pop esi`, `pop ebx`, `pop ebp` and `ret`, which
pops the instruction pointer. -/
def ContextSwitch.SwitchIn (ThreadContext : Nat) (Memory : Nat → Nat) : Registers :=
  let edi := Pop ThreadContext Memory
  let esi := Pop edi.2 Memory
  let ebx := Pop esi.2 Memory
  let ebp := Pop ebx.2 Memory
  let ret := Pop ebp.2 Memory
  { EDI := edi.1, ESI := esi.1, EBX := ebx.1, EBP := ebp.1, ESP := ret.2, EIP := ret.1 }

/-- The addresses of the five words that the switch-in half of `ContextSwitch` pops from the
context saved at `ThreadContext`: each is 4 higher than the one before, in 32 bits. -/
def ContextSwitch.Frame (ThreadContext : Nat) : List Nat :=
  List.iterate (fun a => ULONG.add a 4) ThreadContext 5

/-- The stack of a new thread as `UtCreate` leaves it (UThread.c:208-263): the `STACK_SIZE`
bytes at `Stack` are zeroed, then the fields of the `UTHREAD_CONTEXT` mapped at
`ThreadContext` are written, `EBX`, `ESI`, `EDI`, `EBP` and `RetAddr` in this order. The fields
lie at the offsets 0 (`EDI`), 4 (`ESI`), 8 (`EBX`), 12 (`EBP`) and 16 (`RetAddr`) of the
record. -/
def UtCreate.InitialStack (Stack InternalStart : Nat) (Memory : Nat → Nat) : Nat → Nat :=
  let ThreadContext := Stack + STACK_SIZE - 4 - UTHREAD_CONTEXT_SIZE
  let Zeroed : Nat → Nat :=
    fun a => if Stack ≤ a ∧ a + 4 ≤ Stack + STACK_SIZE then 0 else Memory a
  let m1 := StoreWord Zeroed (ThreadContext + 8) 0x11111111
  let m2 := StoreWord m1 (ThreadContext + 4) 0x22222222
  let m3 := StoreWord m2 ThreadContext 0x33333333
  let m4 := StoreWord m3 (ThreadContext + 12) 0x00000000
  StoreWord m4 (ThreadContext + 16) InternalStart

/-! ## The test program `Test1` (`Main.c`) -/

/-- The state of the test `Test1`: the globals of the scheduler, the counter `Test1_Count`, and
for every thread `t` the outcomes `Yields t` of the tests `(rand() % 4) == 0` of the iterations
that `t` still has to run, and the number `Written t` of characters that `t` has written. The
ghost list `Completed` records the threads that went through `++Test1_Count`. -/
structure Test1State where
  Globals : Scheduler
  Test1_Count : Nat
  Yields : HANDLE → List Bool
  Written : HANDLE → Nat
  Completed : List HANDLE

/-- One step of the running thread in `Test1_Thread` (Main.c:31-52). Inside the loop the thread
writes its character and calls `UtYield` when the test on `rand()` succeeds. After the loop it
increments `Test1_Count` and calls `UtExit`. -/
def Test1_Thread.step (σ : Test1State) : Test1State :=
  match σ.Yields σ.Globals.RunningThread with
  | [] =>
    { σ with
      Test1_Count := ULONG.add σ.Test1_Count 1
      Completed := σ.Globals.RunningThread :: σ.Completed
      Globals := UtExit σ.Globals }
  | Yield :: Rest =>
    { σ with
      Written := fun t => if t = σ.Globals.RunningThread then σ.Written t + 1 else σ.Written t
      Yields := fun t => if t = σ.Globals.RunningThread then Rest else σ.Yields t
      Globals := if Yield then UtYield σ.Globals else σ.Globals }

/-- The loop of `Test1` that creates the threads (Main.c:65-67): thread number `Index` gets the
argument `'0' + Index`. `Threads` lists the addresses that `malloc` returns for the descriptors
and `Stack t` is the address of the stack of `t`. -/
def Test1.Create (Function : Nat) (Stack : HANDLE → HANDLE) :
    List HANDLE → Nat → Scheduler → Scheduler
  | [], _, s => s
  | Thread :: Rest, Index, s =>
    Test1.Create Function Stack Rest (Index + 1)
      (UtCreate Function (48 + Index) Thread (Stack Thread) s).2.2

/-- The state of `Test1` when `UtRun` has switched to the first thread: `Test1_Count` is 0, the
threads have been created and nothing has been written. -/
def Test1.start (Function : Nat) (Stack : HANDLE → HANDLE) (Proxy : HANDLE)
    (Threads : List HANDLE) (Yields : HANDLE → List Bool) : Test1State :=
  { Globals := UtRun Proxy (Test1.Create Function Stack Threads 0
      { NumberOfThreads := 0, ReadyQueue := [], RunningThread := NULL, MainThread := NULL })
    Test1_Count := 0
    Yields := Yields
    Written := fun _ => 0
    Completed := [] }

/-- The user threads run, at most `n` steps in all, until the main thread is switched back
in. -/
def Test1.run : Nat → Test1State → Test1State
  | 0, σ => σ
  | n + 1, σ =>
    if σ.Globals.RunningThread = σ.Globals.MainThread then σ
    else Test1.run n (Test1_Thread.step σ)

/-- The number of steps that the threads of `Test1` take: for every thread one step per
iteration of its loop and one step to exit. -/
def Test1.Steps (Threads : List HANDLE) (Yields : HANDLE → List Bool) : Nat :=
  (Threads.map fun t => (Yields t).length + 1).sum

/-- The invariant of `Test1` while a user thread runs: the threads that have completed, the
running thread and the threads on the ready queue are the threads created; `NumberOfThreads`
counts the threads that have not exited and `Test1_Count` those that have completed; every
thread has written one character for each iteration it has run; and a thread that has completed
has no iteration left. -/
def Test1.Invariant (Proxy : HANDLE) (Threads : List HANDLE) (Yields : HANDLE → List Bool)
    (σ : Test1State) : Prop :=
  σ.Globals.MainThread = Proxy ∧
  σ.Globals.RunningThread ≠ Proxy ∧
  (∀ t ∈ σ.Globals.ReadyQueue, t ≠ Proxy) ∧
  (σ.Completed ++ σ.Globals.RunningThread :: σ.Globals.ReadyQueue).Perm Threads ∧
  σ.Globals.NumberOfThreads = σ.Globals.ReadyQueue.length + 1 ∧
  σ.Test1_Count = σ.Completed.length ∧
  (∀ t, σ.Written t + (σ.Yields t).length = (Yields t).length) ∧
  (∀ t ∈ σ.Completed, σ.Yields t = [])

/-- The state of `Test1` in which `UtRun` returns: the main thread has been switched back in,
the ready queue is empty, no thread is left, every thread created has completed exactly once
and has written one character for each iteration of its loop. -/
def Test1.Finished (Proxy : HANDLE) (Threads : List HANDLE) (Yields : HANDLE → List Bool)
    (σ : Test1State) : Prop :=
  σ.Globals.MainThread = Proxy ∧
  σ.Globals.RunningThread = Proxy ∧
  σ.Globals.ReadyQueue = [] ∧
  σ.Globals.NumberOfThreads = 0 ∧
  UtRun.Asserted σ.Globals ∧
  σ.Test1_Count = Threads.length ∧
  σ.Completed.Perm Threads ∧
  (∀ t ∈ Threads, σ.Written t = (Yields t).length ∧ σ.Yields t = [])

/-! ## The acquired region of a mutex -/

/-- A mutex system with two more ghost fields. `Acquired t` is the number of calls of
`UtAcquireMutex` by thread `t` that have returned and that `t` has not yet matched by a call of
`UtReleaseMutex`: thread `t` is inside the acquired region when `Acquired t > 0`. `Wrapped`
becomes `true` when the statement `Mutex->RecursionCounter += 1` wraps around. -/
structure MutexRegion where
  System : MutexSystem
  Acquired : HANDLE → Nat
  Wrapped : Bool

/-- One more call of `UtAcquireMutex` by thread `t` has returned. -/
def MutexRegion.Enter (Acquired : HANDLE → Nat) (t : HANDLE) : HANDLE → Nat :=
  fun u => if u = t then Acquired u + 1 else Acquired u

/-- Thread `t` continues after a context switch. When it was suspended in the `UtPark` of
`UtAcquireMutex` (it is in `Parked`), its call of `UtAcquireMutex` returns. -/
def MutexRegion.Resume (Parked : List HANDLE) (t : HANDLE) (Acquired : HANDLE → Nat) :
    HANDLE → Nat :=
  if t ∈ Parked then MutexRegion.Enter Acquired t else Acquired

/-- The running thread calls `UtAcquireMutex`. When the call returns at once it counts for the
caller; otherwise the caller is parked and the successor continues. The counter wraps when the
owner acquires at `RecursionCounter = 2 ^ 32 - 1`. -/
def MutexRegion.AcquireMutex (ρ : MutexRegion) : MutexRegion :=
  { System := ρ.System.AcquireMutex
    Acquired :=
      if ρ.System.Mutex.Owner = UtSelf ρ.System.Globals ∨ ρ.System.Mutex.Owner = NULL then
        MutexRegion.Enter ρ.Acquired (UtSelf ρ.System.Globals)
      else
        MutexRegion.Resume (UtSelf ρ.System.Globals :: ρ.System.Parked)
          (UtAcquireMutex ρ.System.Mutex ρ.System.Globals).2.RunningThread ρ.Acquired
    Wrapped := ρ.Wrapped ||
      decide (ρ.System.Mutex.Owner = UtSelf ρ.System.Globals ∧
        ULONG_MAX1 ≤ ρ.System.Mutex.RecursionCounter + 1) }

/-- The running thread calls `UtReleaseMutex`: one of its acquisitions is released. -/
def MutexRegion.ReleaseMutex (ρ : MutexRegion) : MutexRegion :=
  { ρ with
    System := ρ.System.ReleaseMutex
    Acquired := fun u =>
      if u = UtSelf ρ.System.Globals then ρ.Acquired u - 1 else ρ.Acquired u }

/-- The running thread calls `UtYield`; when the ready queue is not empty the thread at its
head continues. -/
def MutexRegion.Yield (ρ : MutexRegion) : MutexRegion :=
  { ρ with
    System := ρ.System.Yield
    Acquired :=
      if IsListEmpty ρ.System.Globals.ReadyQueue then ρ.Acquired
      else MutexRegion.Resume ρ.System.Parked (UtYield ρ.System.Globals).RunningThread
        ρ.Acquired }

/-- The running thread calls `UtExit`, which releases nothing; the successor continues. -/
def MutexRegion.Exit (ρ : MutexRegion) : MutexRegion :=
  { ρ with
    System := ρ.System.Exit
    Acquired :=
      MutexRegion.Resume ρ.System.Parked (UtExit ρ.System.Globals).RunningThread ρ.Acquired }

/-- The state in which the threads start to use a mutex just initialised by
`UtInitializeMutex`. When the mutex is created owned, its creator holds one acquisition. -/
def MutexRegion.start (Owned : Bool) (s : Scheduler) : MutexRegion :=
  { System := MutexSystem.start Owned s
    Acquired := fun t => if Owned = true ∧ t = UtSelf s then 1 else 0
    Wrapped := false }

/-- The states reachable from `ρ0` when user threads use the mutex only through
`UtAcquireMutex` and `UtReleaseMutex`, the latter called only by the owner, and otherwise call
`UtYield` and `UtExit`. -/
inductive MutexRegion.Reachable (ρ0 : MutexRegion) : MutexRegion → Prop where
  | start : MutexRegion.Reachable ρ0 ρ0
  | acquire {ρ : MutexRegion} : MutexRegion.Reachable ρ0 ρ → ρ.System.UserThreadRuns →
      MutexRegion.Reachable ρ0 ρ.AcquireMutex
  | release {ρ : MutexRegion} : MutexRegion.Reachable ρ0 ρ → ρ.System.UserThreadRuns →
      UtReleaseMutex.Asserted ρ.System.Mutex ρ.System.Globals →
      MutexRegion.Reachable ρ0 ρ.ReleaseMutex
  | yield {ρ : MutexRegion} : MutexRegion.Reachable ρ0 ρ → ρ.System.UserThreadRuns →
      MutexRegion.Reachable ρ0 ρ.Yield
  | exit {ρ : MutexRegion} : MutexRegion.Reachable ρ0 ρ → ρ.System.UserThreadRuns →
      MutexRegion.Reachable ρ0 ρ.Exit

/-- The invariant that ties the acquisitions to the mutex, for a mutex, the list of the threads
suspended in `UtAcquireMutex` and the acquisition counts: only the owner holds acquisitions; an
owner that is still suspended (it was designated by a release and has not been resumed) holds
none; an owner that is not suspended holds as many as the recursion counter says; the counter of
a held mutex is at least 1; the counter is a 32-bit value. -/
def MutexRegion.Counted (Mutex : UTHREAD_MUTEX) (Parked : List HANDLE)
    (Acquired : HANDLE → Nat) : Prop :=
  (∀ t, t ≠ Mutex.Owner → Acquired t = 0) ∧
  (Mutex.Owner ∈ Parked → Acquired Mutex.Owner = 0) ∧
  (Mutex.Owner ∉ Parked → Mutex.Owner ≠ NULL → Acquired Mutex.Owner = Mutex.RecursionCounter) ∧
  (Mutex.Owner ≠ NULL → 1 ≤ Mutex.RecursionCounter) ∧
  Mutex.RecursionCounter < ULONG_MAX1 ∧
  Acquired NULL = 0

/-! ## Basic facts -/

theorem ULONG.sub_of_le {a b : Nat} (hb : b ≤ a) (ha : a < ULONG_MAX1) :
    ULONG.sub a b = a - b := by
  simp only [ULONG.sub, ULONG_MAX1] at *
  split <;> omega

/-- The subtraction `ULONG.sub` is subtraction modulo `2 ^ 32`. -/
theorem ULONG.sub_eq_mod (a b : Nat) :
    ULONG.sub a b = (a + (ULONG_MAX1 - b % ULONG_MAX1)) % ULONG_MAX1 := by
  simp only [ULONG.sub, ULONG_MAX1]
  split <;> omega

theorem ULONG.add_of_lt {a b : Nat} (h : a + b < ULONG_MAX1) : ULONG.add a b = a + b := by
  simp only [ULONG.add, ULONG_MAX1] at *
  omega

theorem ULONG.add_lt (a b : Nat) : ULONG.add a b < ULONG_MAX1 := by
  simp only [ULONG.add, ULONG_MAX1]
  omega

theorem ULONG.sub_lt (a b : Nat) : ULONG.sub a b < ULONG_MAX1 := by
  simp only [ULONG.sub, ULONG_MAX1]
  split <;> omega

theorem SelectNextReadyThread_nil {s : Scheduler} (h : s.ReadyQueue = []) :
    SelectNextReadyThread s = (s.MainThread, s) := by
  simp [SelectNextReadyThread, IsListEmpty, h]

theorem SelectNextReadyThread_cons {s : Scheduler} {t : HANDLE} {rest : List HANDLE}
    (h : s.ReadyQueue = t :: rest) :
    SelectNextReadyThread s = (t, { s with ReadyQueue := rest }) := by
  simp [SelectNextReadyThread, IsListEmpty, RemoveHeadList, h]

/-- The globals after `UtPark`: the successor runs and the ready queue loses its head. -/
theorem UtPark_eq (s : Scheduler) :
    UtPark s = { s with RunningThread := s.ReadyQueue.headD s.MainThread
                        ReadyQueue := s.ReadyQueue.tail } := by
  cases h : s.ReadyQueue with
  | nil => simp [UtPark, SelectNextReadyThread_nil h, ContextSwitch, h]
  | cons t rest => simp [UtPark, SelectNextReadyThread_cons h, ContextSwitch]

theorem UtUnpark_eq (t : HANDLE) (s : Scheduler) :
    UtUnpark t s = { s with ReadyQueue := s.ReadyQueue ++ [t] } := rfl

/-! ## Mutex contracts -/

/-- Claim C1: `UtReleaseMutex` called by the owner of a mutex whose recursion counter is
`r ≥ 1` has exactly three outcomes. If `r > 1` only the counter changes, to `r - 1`. If `r = 1`
and the wait list is empty the mutex becomes free (owner `NULL`, counter `0`) and the globals
are unchanged. If `r = 1` and the wait list is `w :: rest`, the wait list becomes `rest`, the
owner becomes the thread of `w`, the counter becomes `1` and that thread is appended at the
tail of the ready queue. -/
theorem UtReleaseMutex_by_owner (Mutex : UTHREAD_MUTEX) (s : Scheduler) (r : Nat)
    (_hOwner : UtReleaseMutex.Asserted Mutex s) (hr : Mutex.RecursionCounter = r)
    (h1 : 1 ≤ r) (h32 : r < ULONG_MAX1) :
    (1 < r ∨ (r = 1 ∧ Mutex.WaitListHead = []) ∨
      (r = 1 ∧ ∃ w rest, Mutex.WaitListHead = w :: rest)) ∧
    (1 < r → UtReleaseMutex Mutex s = ({ Mutex with RecursionCounter := r - 1 }, s)) ∧
    (r = 1 → Mutex.WaitListHead = [] →
      UtReleaseMutex Mutex s = ({ Mutex with Owner := NULL, RecursionCounter := 0 }, s)) ∧
    (∀ w rest, r = 1 → Mutex.WaitListHead = w :: rest →
      UtReleaseMutex Mutex s =
        ({ WaitListHead := rest, Owner := w.Thread, RecursionCounter := 1 },
          { s with ReadyQueue := s.ReadyQueue ++ [w.Thread] })) := by
  have hsub : ULONG.sub Mutex.RecursionCounter 1 = r - 1 := by
    rw [hr]; exact ULONG.sub_of_le h1 h32
  refine ⟨?_, ?_, ?_, ?_⟩
  · rcases Nat.lt_or_ge 1 r with h | h
    · exact Or.inl h
    · have h' : r = 1 := le_antisymm h h1
      cases hw : Mutex.WaitListHead with
      | nil => exact Or.inr (Or.inl ⟨h', rfl⟩)
      | cons w rest => exact Or.inr (Or.inr ⟨h', w, rest, rfl⟩)
  · intro h
    have hpos : 0 < r - 1 := by omega
    simp [UtReleaseMutex, hsub, hpos]
  · intro h hw
    subst h
    simp [UtReleaseMutex, hsub, hw, IsListEmpty]
  · intro w rest h hw
    subst h
    simp [UtReleaseMutex, hsub, hw, IsListEmpty, RemoveHeadList, UtUnpark, InsertTailList]

/-- The hand-off outcome of C1 on a mutex held once by thread 5 with waiters 7 and 8. -/
theorem UtReleaseMutex_by_owner_witness :
    UtReleaseMutex { WaitListHead := [⟨7⟩, ⟨8⟩], RecursionCounter := 1, Owner := 5 }
        { NumberOfThreads := 4, ReadyQueue := [6], RunningThread := 5, MainThread := 1 } =
      ({ WaitListHead := [⟨8⟩], Owner := 7, RecursionCounter := 1 },
        { NumberOfThreads := 4, ReadyQueue := [6, 7], RunningThread := 5, MainThread := 1 }) :=
  (UtReleaseMutex_by_owner { WaitListHead := [⟨7⟩, ⟨8⟩], RecursionCounter := 1, Owner := 5 }
      { NumberOfThreads := 4, ReadyQueue := [6], RunningThread := 5, MainThread := 1 } 1
      (by decide) rfl (by decide) (by decide)).2.2.2 ⟨7⟩ [⟨8⟩] rfl rfl

/-- Claim C2, as stated, fails when the counter is at its largest value: a recursive
acquisition by the owner (thread 5) at `RecursionCounter = 2^32 - 1` leaves the counter at `0`,
not one higher. -/
theorem UtAcquireMutex_counter_wraps :
    (UtAcquireMutex { WaitListHead := [], RecursionCounter := 4294967295, Owner := 5 }
        { NumberOfThreads := 1, ReadyQueue := [], RunningThread := 5, MainThread := 1 }
      ).1.RecursionCounter = 0 ∧
    (UtAcquireMutex { WaitListHead := [], RecursionCounter := 4294967295, Owner := 5 }
        { NumberOfThreads := 1, ReadyQueue := [], RunningThread := 5, MainThread := 1 }
      ).1.RecursionCounter ≠ 4294967295 + 1 := by
  decide

/-- Claim C2, amended: `UtAcquireMutex` called by the running thread `f` has exactly three
outcomes. If the owner is `f` the counter becomes `(r + 1) mod 2^32` (so it increases by one
whenever `r < 2^32 - 1`) and nothing else changes. If the mutex is free, the owner becomes `f`,
the counter `1`, and nothing else changes. Otherwise owner and counter are unchanged, a wait
block naming `f` is appended at the tail of the wait list and `f` is parked: the head of the
ready queue (the main thread when the queue is empty) becomes the running thread, the ready
queue loses that head and `f` is not queued. In the first two outcomes the globals, hence the
running thread and the ready queue, are unchanged. -/
theorem UtAcquireMutex_outcomes (Mutex : UTHREAD_MUTEX) (s : Scheduler) (f : HANDLE)
    (hSelf : UtSelf s = f) (hf : f ≠ NULL) :
    (Mutex.Owner = f ∨ Mutex.Owner = NULL ∨ (Mutex.Owner ≠ f ∧ Mutex.Owner ≠ NULL)) ∧
    (Mutex.Owner = f →
      UtAcquireMutex Mutex s =
          ({ Mutex with RecursionCounter := (Mutex.RecursionCounter + 1) % 2 ^ 32 }, s) ∧
        (Mutex.RecursionCounter < 2 ^ 32 - 1 →
          (UtAcquireMutex Mutex s).1.RecursionCounter = Mutex.RecursionCounter + 1)) ∧
    (Mutex.Owner = NULL →
      UtAcquireMutex Mutex s = ({ Mutex with Owner := f, RecursionCounter := 1 }, s)) ∧
    (Mutex.Owner ≠ f → Mutex.Owner ≠ NULL →
      UtAcquireMutex Mutex s =
        ({ Mutex with WaitListHead := Mutex.WaitListHead ++ [{ Thread := f }] },
          { s with RunningThread := s.ReadyQueue.headD s.MainThread
                   ReadyQueue := s.ReadyQueue.tail })) := by
  subst hSelf
  refine ⟨?_, ?_, ?_, ?_⟩
  · by_cases h1 : Mutex.Owner = UtSelf s
    · exact Or.inl h1
    · by_cases h2 : Mutex.Owner = NULL
      · exact Or.inr (Or.inl h2)
      · exact Or.inr (Or.inr ⟨h1, h2⟩)
  · intro h
    refine ⟨by simp [UtAcquireMutex, h, ULONG.add, ULONG_MAX1], ?_⟩
    intro hlt
    have hadd : ULONG.add Mutex.RecursionCounter 1 = Mutex.RecursionCounter + 1 :=
      ULONG.add_of_lt (by simp only [ULONG_MAX1]; omega)
    simp [UtAcquireMutex, h, hadd]
  · intro h
    have hne : ¬ NULL = UtSelf s := fun e => hf e.symm
    simp [UtAcquireMutex, hne, h]
  · intro h1 h2
    simp [UtAcquireMutex, h1, h2, UtPark_eq, InsertTailList, InitializeWaitBlock]

/-- The blocking outcome of C2: thread 5 acquires a mutex held by thread 9 while threads 6 and
7 are ready. -/
theorem UtAcquireMutex_outcomes_witness :
    UtAcquireMutex { WaitListHead := [⟨8⟩], RecursionCounter := 2, Owner := 9 }
        { NumberOfThreads := 5, ReadyQueue := [6, 7], RunningThread := 5, MainThread := 1 } =
      ({ WaitListHead := [⟨8⟩, ⟨5⟩], RecursionCounter := 2, Owner := 9 },
        { NumberOfThreads := 5, ReadyQueue := [7], RunningThread := 6, MainThread := 1 }) :=
  (UtAcquireMutex_outcomes { WaitListHead := [⟨8⟩], RecursionCounter := 2, Owner := 9 }
      { NumberOfThreads := 5, ReadyQueue := [6, 7], RunningThread := 5, MainThread := 1 } 5
      rfl (by decide)).2.2.2 (by decide) (by decide)

/-! ## Semaphore contracts -/

theorem RequestedSum_take_succ (w : SEMAPHORE_WAIT_BLOCK) (rest : List SEMAPHORE_WAIT_BLOCK)
    (k : Nat) :
    RequestedSum ((w :: rest).take (k + 1)) = w.RequestedPermits + RequestedSum (rest.take k) := by
  simp [RequestedSum]

/-- The loop of `UtReleaseSemaphore` removes the first `k` wait blocks, for some `k`, and
appends their threads to the ready queue in order; nothing else in the globals changes. -/
theorem UtReleaseSemaphore.loop_shape (ws : List SEMAPHORE_WAIT_BLOCK) :
    ∀ (c : Nat) (s : Scheduler), ∃ k, k ≤ ws.length ∧
      (UtReleaseSemaphore.loop c ws s).2.1 = ws.drop k ∧
      (UtReleaseSemaphore.loop c ws s).2.2 =
        { s with ReadyQueue := s.ReadyQueue ++ WaitingThreads (ws.take k) } := by
  induction ws with
  | nil => intro c s; exact ⟨0, le_refl _, by simp [UtReleaseSemaphore.loop, WaitingThreads]⟩
  | cons w rest ih =>
    intro c s
    by_cases hc : c > 0
    · by_cases hlt : c < w.RequestedPermits
      · exact ⟨0, Nat.zero_le _, by simp [UtReleaseSemaphore.loop, hc, hlt, WaitingThreads]⟩
      · obtain ⟨k, hk, h1, h2⟩ := ih (ULONG.sub c w.RequestedPermits) (UtUnpark w.Header.Thread s)
        refine ⟨k + 1, by simpa using hk, ?_, ?_⟩
        · simp [UtReleaseSemaphore.loop, hc, hlt, h1]
        · simp only [UtUnpark_eq] at h2
          simp [UtReleaseSemaphore.loop, hc, hlt, h2, UtUnpark_eq, WaitingThreads]
    · exact ⟨0, Nat.zero_le _, by simp [UtReleaseSemaphore.loop, hc, WaitingThreads]⟩

/-- With `c` permits available (a 32-bit value) and every queued request at least one, the loop
of `UtReleaseSemaphore` wakes exactly the longest initial segment of the wait list whose
requests sum to at most `c`. -/
theorem UtReleaseSemaphore.loop_longest (ws : List SEMAPHORE_WAIT_BLOCK) :
    ∀ (c : Nat) (s : Scheduler), c < ULONG_MAX1 → (∀ b ∈ ws, 1 ≤ b.RequestedPermits) →
      ∃ k, k ≤ ws.length ∧ RequestedSum (ws.take k) ≤ c ∧
        (∀ j, j ≤ ws.length → RequestedSum (ws.take j) ≤ c → j ≤ k) ∧
        UtReleaseSemaphore.loop c ws s =
          (c - RequestedSum (ws.take k), ws.drop k,
            { s with ReadyQueue := s.ReadyQueue ++ WaitingThreads (ws.take k) }) := by
  induction ws with
  | nil =>
    intro c s _ _
    refine ⟨0, le_refl _, by simp [RequestedSum], ?_, ?_⟩
    · intro j hj _; simpa using hj
    · simp [UtReleaseSemaphore.loop, RequestedSum, WaitingThreads]
  | cons w rest ih =>
    intro c s hc hreq
    have hw : 1 ≤ w.RequestedPermits := hreq w (List.mem_cons_self _ _)
    have hrest : ∀ b ∈ rest, 1 ≤ b.RequestedPermits :=
      fun b hb => hreq b (List.mem_cons_of_mem _ hb)
    have hstop : c < w.RequestedPermits →
        ∀ j, j ≤ (w :: rest).length → RequestedSum ((w :: rest).take j) ≤ c → j ≤ 0 := by
      intro hlt j _ hsum
      cases j with
      | zero => exact le_refl _
      | succ j => rw [RequestedSum_take_succ] at hsum; omega
    by_cases hpos : c > 0
    · by_cases hlt : c < w.RequestedPermits
      · refine ⟨0, Nat.zero_le _, by simp [RequestedSum], hstop hlt, ?_⟩
        simp [UtReleaseSemaphore.loop, hpos, hlt, RequestedSum, WaitingThreads]
      · have hle : w.RequestedPermits ≤ c := Nat.le_of_not_lt hlt
        have hsub : ULONG.sub c w.RequestedPermits = c - w.RequestedPermits :=
          ULONG.sub_of_le hle hc
        obtain ⟨k, hk, hsum, hmax, heq⟩ :=
          ih (c - w.RequestedPermits) (UtUnpark w.Header.Thread s)
            (lt_of_le_of_lt (Nat.sub_le _ _) hc) hrest
        refine ⟨k + 1, by simpa using hk, ?_, ?_, ?_⟩
        · rw [RequestedSum_take_succ]; omega
        · intro j hj hj2
          cases j with
          | zero => exact Nat.zero_le _
          | succ j =>
            rw [RequestedSum_take_succ] at hj2
            have := hmax j (by simpa using hj) (by omega)
            omega
        · rw [RequestedSum_take_succ]
          simp only [UtUnpark_eq] at heq
          simp [UtReleaseSemaphore.loop, hpos, hlt, hsub, heq, UtUnpark_eq, WaitingThreads,
            Nat.sub_sub]
    · have h0 : c = 0 := by omega
      refine ⟨0, Nat.zero_le _, by simp [RequestedSum], hstop (by omega), ?_⟩
      simp [UtReleaseSemaphore.loop, hpos, RequestedSum, WaitingThreads]

/-- When the 32-bit sum `Permits + n` does not wrap, `UtReleaseSemaphore` computes
`c = min (Permits + n) Limit` and wakes exactly the longest initial segment of the wait list
whose requests sum to at most `c`: the wait list keeps the rest, `c` minus the woken requests
remains, and the woken threads join the tail of the ready queue in wait-list order. -/
theorem UtReleaseSemaphore_wakes_longest (Semaphore : UTHREAD_SEMAPHORE) (n : Nat)
    (s : Scheduler) (hL : Semaphore.Limit < ULONG_MAX1)
    (hsum : Semaphore.Permits + n < ULONG_MAX1)
    (hreq : ∀ b ∈ Semaphore.WaitListHead, 1 ≤ b.RequestedPermits) :
    ∃ k, k ≤ Semaphore.WaitListHead.length ∧
      RequestedSum (Semaphore.WaitListHead.take k) ≤ min (Semaphore.Permits + n) Semaphore.Limit ∧
      (∀ j, j ≤ Semaphore.WaitListHead.length →
        RequestedSum (Semaphore.WaitListHead.take j) ≤
          min (Semaphore.Permits + n) Semaphore.Limit → j ≤ k) ∧
      UtReleaseSemaphore Semaphore n s =
        ({ Semaphore with
            Permits := min (Semaphore.Permits + n) Semaphore.Limit -
              RequestedSum (Semaphore.WaitListHead.take k)
            WaitListHead := Semaphore.WaitListHead.drop k },
          { s with ReadyQueue := s.ReadyQueue ++ WaitingThreads (Semaphore.WaitListHead.take k) })
    := by
  have hadd : ULONG.add Semaphore.Permits n = Semaphore.Permits + n := ULONG.add_of_lt hsum
  have hclamp : (if Semaphore.Permits + n > Semaphore.Limit then Semaphore.Limit
      else Semaphore.Permits + n) = min (Semaphore.Permits + n) Semaphore.Limit := by
    split <;> omega
  have hc : min (Semaphore.Permits + n) Semaphore.Limit < ULONG_MAX1 :=
    lt_of_le_of_lt (Nat.min_le_right _ _) hL
  obtain ⟨k, hk, hle, hmax, heq⟩ :=
    UtReleaseSemaphore.loop_longest Semaphore.WaitListHead _ s hc hreq
  refine ⟨k, hk, hle, hmax, ?_⟩
  simp only [UtReleaseSemaphore, hadd, hclamp, heq]

/-- Claim C4 at a release whose 32-bit sum wraps. A semaphore is initialised with 2 permits and
limit 10; thread 7 asks for 3 permits and is queued, and thread 6 runs. Thread 6 then calls
`UtReleaseSemaphore` with `n = 2^32 - 1`: the code computes `2 + n` modulo `2^32`, which is 1;
thread 7 is not woken and 1 permit remains, although the request of thread 7 is within
`min (2 + n) 10 = 10`. -/
theorem UtReleaseSemaphore_wrap_strands_waiter :
    SemaphoreCalls [.acquire 3]
        (UtInitializeSemaphore 2 10,
          { NumberOfThreads := 2, ReadyQueue := [6], RunningThread := 7, MainThread := 1 }) =
      ({ WaitListHead := [⟨⟨7⟩, 3⟩], Permits := 2, Limit := 10 },
        { NumberOfThreads := 2, ReadyQueue := [], RunningThread := 6, MainThread := 1 }) ∧
    UtReleaseSemaphore { WaitListHead := [⟨⟨7⟩, 3⟩], Permits := 2, Limit := 10 } 4294967295
        { NumberOfThreads := 2, ReadyQueue := [], RunningThread := 6, MainThread := 1 } =
      ({ WaitListHead := [⟨⟨7⟩, 3⟩], Permits := 1, Limit := 10 },
        { NumberOfThreads := 2, ReadyQueue := [], RunningThread := 6, MainThread := 1 }) ∧
    SemaphoreCalls [.acquire 3, .release 4294967295]
        (UtInitializeSemaphore 2 10,
          { NumberOfThreads := 2, ReadyQueue := [6], RunningThread := 7, MainThread := 1 }) =
      ({ WaitListHead := [⟨⟨7⟩, 3⟩], Permits := 1, Limit := 10 },
        { NumberOfThreads := 2, ReadyQueue := [], RunningThread := 6, MainThread := 1 }) ∧
    RequestedSum [⟨⟨7⟩, 3⟩] ≤ min (2 + 4294967295) 10 := by
  decide

/-- Claim C5 at a release whose 32-bit sum wraps: with 5 permits, limit 10 and an empty wait
list, `UtReleaseSemaphore` with `n = 2^32 - 3` leaves 2 permits, whereas
`min (5 + n) 10 = 10`. -/
theorem UtReleaseSemaphore_wrap_loses_permits :
    (UtReleaseSemaphore { WaitListHead := [], Permits := 5, Limit := 10 } 4294967293
        { NumberOfThreads := 1, ReadyQueue := [], RunningThread := 6, MainThread := 1 }
      ).1.Permits = 2 ∧
    min (5 + 4294967293) 10 = 10 := by
  decide

/-- With an empty wait list and a 32-bit sum that does not wrap, `UtReleaseSemaphore` leaves
`min (Permits + n) Limit` permits and changes nothing else. -/
theorem UtReleaseSemaphore_clamps (Semaphore : UTHREAD_SEMAPHORE) (n : Nat) (s : Scheduler)
    (hw : Semaphore.WaitListHead = []) (hsum : Semaphore.Permits + n < ULONG_MAX1) :
    UtReleaseSemaphore Semaphore n s =
      ({ Semaphore with Permits := min (Semaphore.Permits + n) Semaphore.Limit }, s) := by
  have hadd : ULONG.add Semaphore.Permits n = Semaphore.Permits + n := ULONG.add_of_lt hsum
  have hclamp : (if Semaphore.Permits + n > Semaphore.Limit then Semaphore.Limit
      else Semaphore.Permits + n) = min (Semaphore.Permits + n) Semaphore.Limit := by
    split <;> omega
  cases Semaphore with
  | mk wl p l =>
    simp only at hw hadd hclamp
    subst hw
    simp [UtReleaseSemaphore, hadd, hclamp, UtReleaseSemaphore.loop]

/-- Claim C6: `UtAcquireSemaphore` for `n` permits by the running thread `f`. If
`Permits ≥ n`, the permits decrease by exactly `n`, the wait list and the globals (running
thread, ready queue) are unchanged. Otherwise the permits are unchanged, a wait block naming `f`
and requesting `n` is appended at the tail of the wait list, and `f` is parked: the head of the
ready queue (the main thread when the queue is empty) becomes the running thread, the ready
queue loses that head, and `f`, not being queued before, is not on the ready queue. -/
theorem UtAcquireSemaphore_outcomes (Semaphore : UTHREAD_SEMAPHORE) (n : Nat) (s : Scheduler)
    (f : HANDLE) (hSelf : UtSelf s = f) (hP : Semaphore.Permits < ULONG_MAX1) :
    (n ≤ Semaphore.Permits →
      UtAcquireSemaphore Semaphore n s =
        ({ Semaphore with Permits := Semaphore.Permits - n }, s)) ∧
    (Semaphore.Permits < n →
      UtAcquireSemaphore Semaphore n s =
          ({ Semaphore with
              WaitListHead := Semaphore.WaitListHead ++
                [{ Header := { Thread := f }, RequestedPermits := n }] },
            { s with RunningThread := s.ReadyQueue.headD s.MainThread
                     ReadyQueue := s.ReadyQueue.tail }) ∧
        (f ∉ s.ReadyQueue → f ∉ (UtAcquireSemaphore Semaphore n s).2.ReadyQueue)) := by
  subst hSelf
  constructor
  · intro h
    simp [UtAcquireSemaphore, h, ULONG.sub_of_le h hP]
  · intro h
    have hn : ¬ Semaphore.Permits ≥ n := Nat.not_le.mpr h
    have heq : UtAcquireSemaphore Semaphore n s =
        ({ Semaphore with
            WaitListHead := Semaphore.WaitListHead ++
              [{ Header := { Thread := UtSelf s }, RequestedPermits := n }] },
          { s with RunningThread := s.ReadyQueue.headD s.MainThread
                   ReadyQueue := s.ReadyQueue.tail }) := by
      simp [UtAcquireSemaphore, hn, UtPark_eq, InsertTailList, InitializeSemaphoreWaitBlock,
        InitializeWaitBlock]
    refine ⟨heq, ?_⟩
    intro hnot hmem
    rw [heq] at hmem
    exact hnot (List.mem_of_mem_tail hmem)

/-- Both outcomes of C6 for thread 5: three of four permits are taken at once; a request for
nine permits queues thread 5 and lets thread 6 run. -/
theorem UtAcquireSemaphore_outcomes_witness :
    UtAcquireSemaphore { WaitListHead := [], Permits := 4, Limit := 10 } 3
        { NumberOfThreads := 3, ReadyQueue := [6, 7], RunningThread := 5, MainThread := 1 } =
      ({ WaitListHead := [], Permits := 1, Limit := 10 },
        { NumberOfThreads := 3, ReadyQueue := [6, 7], RunningThread := 5, MainThread := 1 }) ∧
    UtAcquireSemaphore { WaitListHead := [], Permits := 4, Limit := 10 } 9
        { NumberOfThreads := 3, ReadyQueue := [6, 7], RunningThread := 5, MainThread := 1 } =
      ({ WaitListHead := [⟨⟨5⟩, 9⟩], Permits := 4, Limit := 10 },
        { NumberOfThreads := 3, ReadyQueue := [7], RunningThread := 6, MainThread := 1 }) :=
  ⟨(UtAcquireSemaphore_outcomes { WaitListHead := [], Permits := 4, Limit := 10 } 3
      { NumberOfThreads := 3, ReadyQueue := [6, 7], RunningThread := 5, MainThread := 1 } 5
      rfl (by decide)).1 (by decide),
   ((UtAcquireSemaphore_outcomes { WaitListHead := [], Permits := 4, Limit := 10 } 9
      { NumberOfThreads := 3, ReadyQueue := [6, 7], RunningThread := 5, MainThread := 1 } 5
      rfl (by decide)).2 (by decide)).1⟩

/-- Claim C8, as stated, fails: from 0 permits, limit 10, with thread 7 queued for 10 permits
and thread 8 queued for 1, two releases of 5 wake thread 7 only. Thread 8 stays on the wait
list and is not on the ready queue. -/
theorem UtReleaseSemaphore_head_of_line_leaves_second :
    UtReleaseSemaphore
        (UtReleaseSemaphore { WaitListHead := [⟨⟨7⟩, 10⟩, ⟨⟨8⟩, 1⟩], Permits := 0, Limit := 10 } 5
          { NumberOfThreads := 3, ReadyQueue := [], RunningThread := 6, MainThread := 1 }).1 5
        (UtReleaseSemaphore { WaitListHead := [⟨⟨7⟩, 10⟩, ⟨⟨8⟩, 1⟩], Permits := 0, Limit := 10 } 5
          { NumberOfThreads := 3, ReadyQueue := [], RunningThread := 6, MainThread := 1 }).2 =
      ({ WaitListHead := [⟨⟨8⟩, 1⟩], Permits := 0, Limit := 10 },
        { NumberOfThreads := 3, ReadyQueue := [7], RunningThread := 6, MainThread := 1 }) ∧
    (UtReleaseSemaphore
        (UtReleaseSemaphore { WaitListHead := [⟨⟨7⟩, 10⟩, ⟨⟨8⟩, 1⟩], Permits := 0, Limit := 10 } 5
          { NumberOfThreads := 3, ReadyQueue := [], RunningThread := 6, MainThread := 1 }).1 5
        (UtReleaseSemaphore { WaitListHead := [⟨⟨7⟩, 10⟩, ⟨⟨8⟩, 1⟩], Permits := 0, Limit := 10 } 5
          { NumberOfThreads := 3, ReadyQueue := [], RunningThread := 6, MainThread := 1 }).2
      ).1.WaitListHead ≠ [] := by
  decide

/-- Claim C8, amended: for a semaphore with 0 permits and limit at least 10 whose wait list is
`[A requesting 10, B requesting 1]`, `UtReleaseSemaphore` with 5 wakes neither waiter and leaves
5 permits; a second `UtReleaseSemaphore` with 5 wakes `A` only: `A` is appended to the ready
queue, `B` remains alone on the wait list and 0 permits remain. -/
theorem UtReleaseSemaphore_head_of_line (Limit : Nat) (A B : HANDLE) (s : Scheduler)
    (hL : 10 ≤ Limit) :
    UtReleaseSemaphore { WaitListHead := [⟨⟨A⟩, 10⟩, ⟨⟨B⟩, 1⟩], Permits := 0, Limit := Limit } 5 s =
      ({ WaitListHead := [⟨⟨A⟩, 10⟩, ⟨⟨B⟩, 1⟩], Permits := 5, Limit := Limit }, s) ∧
    UtReleaseSemaphore { WaitListHead := [⟨⟨A⟩, 10⟩, ⟨⟨B⟩, 1⟩], Permits := 5, Limit := Limit } 5 s =
      ({ WaitListHead := [⟨⟨B⟩, 1⟩], Permits := 0, Limit := Limit },
        { s with ReadyQueue := s.ReadyQueue ++ [A] }) := by
  have h5 : ¬ 5 > Limit := by omega
  have h10 : ¬ 10 > Limit := by omega
  have a05 : ULONG.add 0 5 = 5 := ULONG.add_of_lt (by simp only [ULONG_MAX1]; omega)
  have a55 : ULONG.add 5 5 = 10 := ULONG.add_of_lt (by simp only [ULONG_MAX1]; omega)
  have s10 : ULONG.sub 10 10 = 0 :=
    ULONG.sub_of_le (le_refl _) (by simp only [ULONG_MAX1]; omega)
  constructor
  · simp [UtReleaseSemaphore, UtReleaseSemaphore.loop, a05, h5]
  · simp [UtReleaseSemaphore, UtReleaseSemaphore.loop, a55, s10, h10, UtUnpark_eq]

/-- The scenario of C8 with limit 10, `A = 7`, `B = 8` and thread 6 running. -/
theorem UtReleaseSemaphore_head_of_line_witness :
    UtReleaseSemaphore { WaitListHead := [⟨⟨7⟩, 10⟩, ⟨⟨8⟩, 1⟩], Permits := 5, Limit := 10 } 5
        { NumberOfThreads := 3, ReadyQueue := [], RunningThread := 6, MainThread := 1 } =
      ({ WaitListHead := [⟨⟨8⟩, 1⟩], Permits := 0, Limit := 10 },
        { NumberOfThreads := 3, ReadyQueue := [] ++ [7], RunningThread := 6, MainThread := 1 }) :=
  (UtReleaseSemaphore_head_of_line 10 7 8
    { NumberOfThreads := 3, ReadyQueue := [], RunningThread := 6, MainThread := 1 }
    (by decide)).2

/-! ## FIFO hand-off of the mutex -/

theorem UtReleaseMutex_handoff (Mutex : UTHREAD_MUTEX) (s : Scheduler) (w : WAIT_BLOCK)
    (rest : List WAIT_BLOCK) (hr : Mutex.RecursionCounter = 1)
    (hw : Mutex.WaitListHead = w :: rest) :
    UtReleaseMutex Mutex s =
      ({ WaitListHead := rest, Owner := w.Thread, RecursionCounter := 1 },
        { s with ReadyQueue := s.ReadyQueue ++ [w.Thread] }) := by
  have hsub : ULONG.sub 1 1 = 0 := ULONG.sub_of_le (le_refl _) (by simp only [ULONG_MAX1]; omega)
  simp [UtReleaseMutex, hr, hsub, hw, IsListEmpty, RemoveHeadList, UtUnpark_eq]

/-- Claim C9: on a mutex held with recursion 1 whose wait list is `[w1, ..., wn]`, `n`
successive final releases, each made by the owner of that moment, make the owner `w1`, then
`w2`, ..., then `wn` in wait-list order; the `k`-th release appends `wk` at the tail of the
ready queue of that moment and changes nothing else in the globals, the counter is 1 after
every release, and the wait list is empty at the end. -/
theorem SuccessiveReleases_fifo (ss : List Scheduler) :
    ∀ (Mutex : UTHREAD_MUTEX), Mutex.RecursionCounter = 1 →
      ss.length = Mutex.WaitListHead.length → ReleasedByOwner Mutex ss →
      (SuccessiveReleases Mutex ss).map (fun r => r.1.Owner) = MutexWaiters Mutex.WaitListHead ∧
      (SuccessiveReleases Mutex ss).map (fun r => r.2) =
        List.zipWith (fun s w => { s with ReadyQueue := s.ReadyQueue ++ [w.Thread] })
          ss Mutex.WaitListHead ∧
      (∀ r ∈ SuccessiveReleases Mutex ss, r.1.RecursionCounter = 1) ∧
      (∀ r, (SuccessiveReleases Mutex ss).getLast? = some r → r.1.WaitListHead = []) := by
  induction ss with
  | nil =>
    intro Mutex _ hlen _
    have hnil : Mutex.WaitListHead = [] := List.length_eq_zero.mp hlen.symm
    simp [SuccessiveReleases, MutexWaiters, hnil]
  | cons s ss ih =>
    intro Mutex hr hlen hown
    cases hw : Mutex.WaitListHead with
    | nil => simp [hw] at hlen
    | cons w rest =>
      have hstep := UtReleaseMutex_handoff Mutex s w rest hr hw
      have hlen' : ss.length = rest.length := by simpa [hw] using hlen
      obtain ⟨i1, i2, i3, i4⟩ :=
        ih { WaitListHead := rest, Owner := w.Thread, RecursionCounter := 1 } rfl hlen'
          (by simpa [ReleasedByOwner, hstep] using hown.2)
      refine ⟨?_, ?_, ?_, ?_⟩
      · simp [SuccessiveReleases, hstep, i1, MutexWaiters]
      · simp [SuccessiveReleases, hstep, i2]
      · intro r hmem
        simp only [SuccessiveReleases, hstep, List.mem_cons] at hmem
        rcases hmem with h | h
        · rw [h]
        · exact i3 r h
      · intro r hlast
        simp only [SuccessiveReleases, hstep] at hlast
        cases hrec : SuccessiveReleases
            { WaitListHead := rest, Owner := w.Thread, RecursionCounter := 1 } ss with
        | nil =>
          have hss : ss = [] := by
            cases ss with
            | nil => rfl
            | cons s2 ss2 => simp [SuccessiveReleases] at hrec
          have hrest : rest = [] := by
            apply List.length_eq_zero.mp; rw [← hlen', hss]; rfl
          rw [hrec] at hlast
          simp at hlast
          rw [← hlast, hrest]
        | cons r2 rs =>
          rw [hrec, List.getLast?_cons_cons] at hlast
          exact i4 r (by rw [hrec]; exact hlast)

/-- The hand-off of C9 with waiters 7 then 8 behind owner 5: thread 5 releases while thread 6
is ready, then thread 7 releases while thread 8 is ready. -/
theorem SuccessiveReleases_fifo_witness :
    (SuccessiveReleases { WaitListHead := [⟨7⟩, ⟨8⟩], RecursionCounter := 1, Owner := 5 }
        [{ NumberOfThreads := 4, ReadyQueue := [6], RunningThread := 5, MainThread := 1 },
         { NumberOfThreads := 3, ReadyQueue := [8], RunningThread := 7, MainThread := 1 }]
      ).map (fun r => r.1.Owner) = [7, 8] :=
  (SuccessiveReleases_fifo
    [{ NumberOfThreads := 4, ReadyQueue := [6], RunningThread := 5, MainThread := 1 },
     { NumberOfThreads := 3, ReadyQueue := [8], RunningThread := 7, MainThread := 1 }]
    { WaitListHead := [⟨7⟩, ⟨8⟩], RecursionCounter := 1, Owner := 5 } rfl rfl
    ⟨rfl, rfl, trivial⟩).1

/-! ## Semaphore invariant and queue order -/

theorem UtReleaseSemaphore.loop_invariant (ws : List SEMAPHORE_WAIT_BLOCK) :
    ∀ (c : Nat) (s : Scheduler), c < ULONG_MAX1 → (∀ b ∈ ws, 1 ≤ b.RequestedPermits) →
      (UtReleaseSemaphore.loop c ws s).1 ≤ c ∧
      (∀ b ∈ (UtReleaseSemaphore.loop c ws s).2.1, 1 ≤ b.RequestedPermits) ∧
      (∀ w rest, (UtReleaseSemaphore.loop c ws s).2.1 = w :: rest →
        (UtReleaseSemaphore.loop c ws s).1 < w.RequestedPermits) := by
  induction ws with
  | nil => intro c s _ _; simp [UtReleaseSemaphore.loop]
  | cons w rest ih =>
    intro c s hc hreq
    have hw : 1 ≤ w.RequestedPermits := hreq w (List.mem_cons_self _ _)
    have hrest : ∀ b ∈ rest, 1 ≤ b.RequestedPermits :=
      fun b hb => hreq b (List.mem_cons_of_mem _ hb)
    by_cases hpos : c > 0
    · by_cases hlt : c < w.RequestedPermits
      · simp only [UtReleaseSemaphore.loop, hpos, hlt, if_true]
        refine ⟨le_refl _, hreq, ?_⟩
        intro w2 rest2 h
        cases h; exact hlt
      · have hle : w.RequestedPermits ≤ c := Nat.le_of_not_lt hlt
        have hsub : ULONG.sub c w.RequestedPermits = c - w.RequestedPermits :=
          ULONG.sub_of_le hle hc
        obtain ⟨i1, i2, i3⟩ := ih (c - w.RequestedPermits) (UtUnpark w.Header.Thread s)
          (lt_of_le_of_lt (Nat.sub_le _ _) hc) hrest
        simp only [UtReleaseSemaphore.loop, hpos, hlt, if_true, if_false, hsub]
        exact ⟨le_trans i1 (Nat.sub_le _ _), i2, i3⟩
    · simp only [UtReleaseSemaphore.loop, hpos, if_false]
      refine ⟨le_refl _, hreq, ?_⟩
      intro w2 rest2 h
      cases h; omega

theorem UtInitializeSemaphore_invariant (p L : Nat) (hp : p ≤ L) (hL : L < ULONG_MAX1) :
    SemaphoreInvariant (UtInitializeSemaphore p L) := by
  simp [SemaphoreInvariant, UtInitializeSemaphore, InitializeListHead, hp, hL]

theorem UtAcquireSemaphore_invariant (Semaphore : UTHREAD_SEMAPHORE) (n : Nat) (s : Scheduler)
    (h : SemaphoreInvariant Semaphore) :
    SemaphoreInvariant (UtAcquireSemaphore Semaphore n s).1 ∧
    (UtAcquireSemaphore Semaphore n s).1.Limit = Semaphore.Limit := by
  obtain ⟨h1, h2, h3, h4⟩ := h
  by_cases hn : Semaphore.Permits ≥ n
  · have hsub : ULONG.sub Semaphore.Permits n = Semaphore.Permits - n :=
      ULONG.sub_of_le hn (lt_of_le_of_lt h1 h2)
    simp only [UtAcquireSemaphore, hn, if_true, hsub, SemaphoreInvariant]
    refine ⟨⟨le_trans (Nat.sub_le _ _) h1, h2, h3, ?_⟩, trivial⟩
    intro w rest hw
    exact lt_of_le_of_lt (Nat.sub_le _ _) (h4 w rest hw)
  · simp only [UtAcquireSemaphore, hn, if_false, SemaphoreInvariant, InsertTailList,
      InitializeSemaphoreWaitBlock]
    refine ⟨⟨h1, h2, ?_, ?_⟩, trivial⟩
    · intro b hb
      rcases List.mem_append.mp hb with hb | hb
      · exact h3 b hb
      · simp only [List.mem_singleton] at hb
        subst hb
        show 1 ≤ n
        omega
    · intro w rest hw
      cases hws : Semaphore.WaitListHead with
      | nil =>
        rw [hws] at hw
        simp only [List.nil_append, List.cons.injEq] at hw
        rw [← hw.1]
        show Semaphore.Permits < n
        omega
      | cons w0 rest0 =>
        rw [hws] at hw
        simp only [List.cons_append, List.cons.injEq] at hw
        rw [← hw.1]
        exact h4 w0 rest0 hws

theorem UtReleaseSemaphore_invariant (Semaphore : UTHREAD_SEMAPHORE) (n : Nat) (s : Scheduler)
    (h : SemaphoreInvariant Semaphore) :
    SemaphoreInvariant (UtReleaseSemaphore Semaphore n s).1 ∧
    (UtReleaseSemaphore Semaphore n s).1.Limit = Semaphore.Limit := by
  obtain ⟨_, h2, h3, _⟩ := h
  have hc : (if ULONG.add Semaphore.Permits n > Semaphore.Limit then Semaphore.Limit
      else ULONG.add Semaphore.Permits n) ≤ Semaphore.Limit := by
    split <;> omega
  obtain ⟨i1, i2, i3⟩ := UtReleaseSemaphore.loop_invariant Semaphore.WaitListHead _ s
    (lt_of_le_of_lt hc h2) h3
  exact ⟨⟨le_trans i1 hc, h2, i2, i3⟩, rfl⟩

theorem SemaphoreCalls_invariant (calls : List SemaphoreCall) :
    ∀ σ : UTHREAD_SEMAPHORE × Scheduler, SemaphoreInvariant σ.1 →
      SemaphoreInvariant (SemaphoreCalls calls σ).1 ∧
      (SemaphoreCalls calls σ).1.Limit = σ.1.Limit := by
  induction calls with
  | nil => intro σ h; exact ⟨h, rfl⟩
  | cons c calls ih =>
    intro σ h
    have hstep : SemaphoreInvariant (c.apply σ).1 ∧ (c.apply σ).1.Limit = σ.1.Limit := by
      cases c with
      | acquire n => exact UtAcquireSemaphore_invariant σ.1 n σ.2 h
      | release n => exact UtReleaseSemaphore_invariant σ.1 n σ.2 h
    obtain ⟨j1, j2⟩ := ih (c.apply σ) hstep.1
    exact ⟨j1, j2.trans hstep.2⟩

/-- Claim C10: starting from `UtInitializeSemaphore` with `Permits ≤ Limit`, after every
sequence of `UtAcquireSemaphore` and `UtReleaseSemaphore` calls the permits satisfy
`0 ≤ Permits ≤ Limit` (the limit being the initial one), and whenever the wait list is not
empty the permits are strictly fewer than the head waiter requests. -/
theorem Semaphore_invariant (p L : Nat) (s0 : Scheduler) (calls : List SemaphoreCall)
    (hp : p ≤ L) (hL : L < ULONG_MAX1) :
    0 ≤ (SemaphoreCalls calls (UtInitializeSemaphore p L, s0)).1.Permits ∧
    (SemaphoreCalls calls (UtInitializeSemaphore p L, s0)).1.Permits ≤
      (SemaphoreCalls calls (UtInitializeSemaphore p L, s0)).1.Limit ∧
    (SemaphoreCalls calls (UtInitializeSemaphore p L, s0)).1.Limit = L ∧
    (∀ w rest, (SemaphoreCalls calls (UtInitializeSemaphore p L, s0)).1.WaitListHead = w :: rest →
      (SemaphoreCalls calls (UtInitializeSemaphore p L, s0)).1.Permits < w.RequestedPermits) := by
  obtain ⟨⟨h1, _, _, h4⟩, hlim⟩ :=
    SemaphoreCalls_invariant calls (UtInitializeSemaphore p L, s0)
      (UtInitializeSemaphore_invariant p L hp hL)
  exact ⟨Nat.zero_le _, h1, hlim, h4⟩

/-- The invariant of C10 after thread 5 queues for 10 permits, thread 6 releases 5, takes 1
and queues for 7: 4 permits remain, fewer than the 10 requested at the head. -/
theorem Semaphore_invariant_witness :
    (SemaphoreCalls [.acquire 10, .release 5, .acquire 1, .acquire 7]
        (UtInitializeSemaphore 0 10,
          { NumberOfThreads := 2, ReadyQueue := [6], RunningThread := 5, MainThread := 1 })
      ).1.Permits ≤ 10 ∧
    (SemaphoreCalls [.acquire 10, .release 5, .acquire 1, .acquire 7]
        (UtInitializeSemaphore 0 10,
          { NumberOfThreads := 2, ReadyQueue := [6], RunningThread := 5, MainThread := 1 })
      ).1 = { WaitListHead := [⟨⟨5⟩, 10⟩, ⟨⟨6⟩, 7⟩], Permits := 4, Limit := 10 } :=
  ⟨(Semaphore_invariant 0 10
      { NumberOfThreads := 2, ReadyQueue := [6], RunningThread := 5, MainThread := 1 }
      [.acquire 10, .release 5, .acquire 1, .acquire 7] (by decide) (by decide)).2.1.trans
      (Semaphore_invariant 0 10
        { NumberOfThreads := 2, ReadyQueue := [6], RunningThread := 5, MainThread := 1 }
        [.acquire 10, .release 5, .acquire 1, .acquire 7] (by decide) (by decide)).2.2.1.le,
    by decide⟩

/-- Claim C7, as stated, fails. From a semaphore initialised with 0 permits and limit 10,
thread 5 asks for 10 permits and is queued; thread 6 releases 5 permits, which leaves thread 5
queued; thread 6 then asks for 1 permit and is granted it at once (4 permits remain, thread 6
keeps running) while thread 5, queued earlier, is still on the wait list. -/
theorem UtAcquireSemaphore_overtakes_waiter :
    SemaphoreCalls [.acquire 10, .release 5]
        (UtInitializeSemaphore 0 10,
          { NumberOfThreads := 2, ReadyQueue := [6], RunningThread := 5, MainThread := 1 }) =
      ({ WaitListHead := [⟨⟨5⟩, 10⟩], Permits := 5, Limit := 10 },
        { NumberOfThreads := 2, ReadyQueue := [], RunningThread := 6, MainThread := 1 }) ∧
    SemaphoreCalls [.acquire 10, .release 5, .acquire 1]
        (UtInitializeSemaphore 0 10,
          { NumberOfThreads := 2, ReadyQueue := [6], RunningThread := 5, MainThread := 1 }) =
      ({ WaitListHead := [⟨⟨5⟩, 10⟩], Permits := 4, Limit := 10 },
        { NumberOfThreads := 2, ReadyQueue := [], RunningThread := 6, MainThread := 1 }) := by
  decide

/-- Claim C7, amended: FIFO order among queued waiters. In every semaphore state,
`UtReleaseSemaphore` wakes an initial segment of the wait list, in wait-list order, and leaves
the rest queued in the same order, so no waiter is woken while one queued earlier stays queued;
`UtAcquireSemaphore` wakes nobody and either leaves the wait list as it is (the request is
granted at once, whether or not other threads are queued) or queues its caller behind all
earlier waiters. -/
theorem Semaphore_waiters_fifo (Semaphore : UTHREAD_SEMAPHORE) (n : Nat) (s : Scheduler) :
    (∃ k, k ≤ Semaphore.WaitListHead.length ∧
      (UtReleaseSemaphore Semaphore n s).1.WaitListHead = Semaphore.WaitListHead.drop k ∧
      (UtReleaseSemaphore Semaphore n s).2 =
        { s with ReadyQueue := s.ReadyQueue ++ WaitingThreads (Semaphore.WaitListHead.take k) }) ∧
    ((n ≤ Semaphore.Permits ∧
        (UtAcquireSemaphore Semaphore n s).1.WaitListHead = Semaphore.WaitListHead ∧
        (UtAcquireSemaphore Semaphore n s).2 = s) ∨
      (Semaphore.Permits < n ∧
        (UtAcquireSemaphore Semaphore n s).1.WaitListHead =
          Semaphore.WaitListHead ++ [{ Header := { Thread := UtSelf s }, RequestedPermits := n }] ∧
        (UtAcquireSemaphore Semaphore n s).2.ReadyQueue = s.ReadyQueue.tail)) := by
  constructor
  · obtain ⟨k, hk, h1, h2⟩ := UtReleaseSemaphore.loop_shape Semaphore.WaitListHead
      (if ULONG.add Semaphore.Permits n > Semaphore.Limit then Semaphore.Limit
        else ULONG.add Semaphore.Permits n) s
    exact ⟨k, hk, h1, h2⟩
  · by_cases hn : Semaphore.Permits ≥ n
    · exact Or.inl ⟨hn, by simp [UtAcquireSemaphore, hn]⟩
    · refine Or.inr ⟨Nat.not_le.mp hn, ?_⟩
      simp [UtAcquireSemaphore, hn, UtPark_eq, InsertTailList, InitializeSemaphoreWaitBlock,
        InitializeWaitBlock]

/-! ## Mutual exclusion by hand-off -/

theorem UtYield_cons {s : Scheduler} {h : HANDLE} {t : List HANDLE}
    (hq : s.ReadyQueue = h :: t) :
    UtYield s = { s with RunningThread := h, ReadyQueue := t ++ [s.RunningThread] } := by
  unfold UtYield
  rw [hq]
  rfl

theorem UtYield_nil {s : Scheduler} (hq : s.ReadyQueue = []) : UtYield s = s := by
  unfold UtYield
  rw [hq]
  rfl

/-- The globals after `UtExit`: one thread fewer, the successor runs and the ready queue loses
its head. -/
theorem UtExit_eq (s : Scheduler) :
    UtExit s = { s with NumberOfThreads := ULONG.sub s.NumberOfThreads 1
                        RunningThread := s.ReadyQueue.headD s.MainThread
                        ReadyQueue := s.ReadyQueue.tail } := by
  cases s with
  | mk n q r m => cases q <;> rfl

theorem MutexWaiters_append (ws : List WAIT_BLOCK) (t : HANDLE) :
    MutexWaiters (ws ++ [{ Thread := t }]) = MutexWaiters ws ++ [t] := by
  simp [MutexWaiters]

/-- After a switch to the successor the ready queue is still free of duplicates and the new
running thread is not on it. -/
theorem successor_not_ready {q : List HANDLE} (main : HANDLE) (hq : q.Nodup) :
    q.headD main ∉ q.tail := by
  cases q with
  | nil => simp
  | cons h t => simpa using (List.nodup_cons.mp hq).1

theorem successor_mem {q : List HANDLE} (main : HANDLE) :
    q.headD main = main ∨ q.headD main ∈ q := by
  cases q with
  | nil => exact Or.inl rfl
  | cons h t => exact Or.inr (by simp)

/-- When the thread switched to continues, the invariant holds: a thread resumed from the
`UtPark` of `UtAcquireMutex` owns the mutex with recursion 1. -/
theorem MutexSystem.Resume_invariant {τ : MutexSystem} (h : τ.Switched) :
    τ.Resume.Invariant := by
  by_cases hp : τ.Globals.RunningThread ∈ τ.Parked
  · have hown := h.parked_owner _ hp h.running_not_waiter
    have hnull : τ.Globals.RunningThread ≠ NULL := fun e => h.null_not_parked (e ▸ hp)
    simp only [MutexSystem.Resume, hp, if_true, MutexSystem.Invariant]
    refine ⟨⟨h.ready_nodup, h.running_not_ready, h.null_not_ready, h.main_not_ready,
      h.waiters_nodup, h.waiter_not_ready, h.running_not_waiter, h.null_not_waiter,
      h.main_not_waiter, ?_, ?_, ?_, ?_⟩, ?_⟩
    · intro t ht
      exact h.parked_owner t (List.mem_filter.mp ht).1
    · intro hn
      exact h.null_not_parked (List.mem_filter.mp hn).1
    · intro g hg
      rcases List.mem_cons.mp hg with hg | hg
      · subst hg; exact ⟨hown.1, hnull⟩
      · exact h.inside_owner g hg
    · simp [h.resumed, hown.1, hown.2, UtSelf]
    · intro hm
      simpa using (List.mem_filter.mp hm).2
  · simp only [MutexSystem.Resume, hp, if_false]
    exact ⟨h, hp⟩

theorem MutexSystem.start_invariant (Owned : Bool) (s : Scheduler) (hwf : s.WellFormed)
    (hOwned : Owned = true → s.RunningThread ≠ NULL) :
    (MutexSystem.start Owned s).Invariant := by
  obtain ⟨h1, h2, h3, h4⟩ := hwf
  refine ⟨⟨h1, h2, h3, h4, ?_, ?_, ?_, ?_, ?_, ?_, ?_, ?_, rfl⟩, ?_⟩
  all_goals
    first
      | (simp [MutexSystem.start, UtInitializeMutex, InitializeListHead, MutexWaiters]; done)
      | skip
  intro g hg
  cases Owned with
  | false => simp [MutexSystem.start] at hg
  | true =>
    simp only [MutexSystem.start, if_true, List.mem_singleton] at hg
    subst hg
    exact ⟨by simp [MutexSystem.start, UtInitializeMutex], hOwned rfl⟩

theorem UtAcquireMutex_owner {Mutex : UTHREAD_MUTEX} {s : Scheduler}
    (h : Mutex.Owner = s.RunningThread) :
    UtAcquireMutex Mutex s =
      ({ Mutex with RecursionCounter := ULONG.add Mutex.RecursionCounter 1 }, s) := by
  unfold UtAcquireMutex UtSelf
  dsimp only
  rw [if_pos h]

theorem UtAcquireMutex_free {Mutex : UTHREAD_MUTEX} {s : Scheduler}
    (h1 : Mutex.Owner ≠ s.RunningThread) (h2 : Mutex.Owner = NULL) :
    UtAcquireMutex Mutex s =
      ({ Mutex with Owner := s.RunningThread, RecursionCounter := 1 }, s) := by
  unfold UtAcquireMutex UtSelf
  dsimp only
  rw [if_neg h1, if_pos h2]

theorem UtAcquireMutex_held {Mutex : UTHREAD_MUTEX} {s : Scheduler}
    (h1 : Mutex.Owner ≠ s.RunningThread) (h2 : Mutex.Owner ≠ NULL) :
    UtAcquireMutex Mutex s =
      ({ Mutex with WaitListHead := Mutex.WaitListHead ++ [{ Thread := s.RunningThread }] },
        UtPark s) := by
  unfold UtAcquireMutex UtSelf InsertTailList InitializeWaitBlock UtSelf
  dsimp only
  rw [if_neg h1, if_neg h2]

theorem UtReleaseMutex_nested {Mutex : UTHREAD_MUTEX} {s : Scheduler}
    (h : ULONG.sub Mutex.RecursionCounter 1 > 0) :
    UtReleaseMutex Mutex s =
      ({ Mutex with RecursionCounter := ULONG.sub Mutex.RecursionCounter 1 }, s) := by
  unfold UtReleaseMutex
  dsimp only
  rw [if_pos h]

theorem UtReleaseMutex_free {Mutex : UTHREAD_MUTEX} {s : Scheduler}
    (h : ¬ ULONG.sub Mutex.RecursionCounter 1 > 0) (hw : Mutex.WaitListHead = []) :
    UtReleaseMutex Mutex s =
      ({ Mutex with RecursionCounter := ULONG.sub Mutex.RecursionCounter 1, Owner := NULL },
        s) := by
  unfold UtReleaseMutex
  dsimp only
  rw [if_neg h, hw]
  rfl

theorem UtReleaseMutex_transfer {Mutex : UTHREAD_MUTEX} {s : Scheduler} {w : WAIT_BLOCK}
    {rest : List WAIT_BLOCK} (h : ¬ ULONG.sub Mutex.RecursionCounter 1 > 0)
    (hw : Mutex.WaitListHead = w :: rest) :
    UtReleaseMutex Mutex s =
      ({ WaitListHead := rest, Owner := w.Thread, RecursionCounter := 1 },
        { s with ReadyQueue := s.ReadyQueue ++ [w.Thread] }) := by
  unfold UtReleaseMutex
  dsimp only
  rw [if_neg h, hw]
  rfl

theorem mem_of_mem_entered {f g : HANDLE} {l : List HANDLE}
    (h : g ∈ (if f ∈ l then l else f :: l)) : g = f ∨ g ∈ l := by
  split at h
  · exact Or.inr h
  · exact List.mem_cons.mp h

theorem MutexSystem.AcquireMutex_invariant {σ : MutexSystem} (hinv : σ.Invariant)
    (hu : σ.UserThreadRuns) : σ.AcquireMutex.Invariant := by
  obtain ⟨h, hrp⟩ := hinv
  obtain ⟨hnn, hnm⟩ := hu
  unfold MutexSystem.AcquireMutex UtSelf
  by_cases hO : σ.Mutex.Owner = σ.Globals.RunningThread
  · have hwait : ∀ t ∈ σ.Parked, t ∈ MutexWaiters σ.Mutex.WaitListHead := by
      intro t ht
      by_contra hw
      have e : σ.Globals.RunningThread = t := hO.symm.trans (h.parked_owner t ht hw).1
      exact hrp (e ▸ ht)
    rw [if_pos (Or.inl hO), UtAcquireMutex_owner hO]
    refine ⟨⟨h.ready_nodup, h.running_not_ready, h.null_not_ready, h.main_not_ready,
      h.waiters_nodup, h.waiter_not_ready, h.running_not_waiter, h.null_not_waiter,
      h.main_not_waiter, ?_, h.null_not_parked, ?_, h.resumed⟩, hrp⟩
    · intro t ht hw
      exact absurd (hwait t ht) hw
    · intro g hg
      show σ.Mutex.Owner = g ∧ g ≠ NULL
      rcases mem_of_mem_entered hg with e | hg
      · rw [e]; exact ⟨hO, hnn⟩
      · exact h.inside_owner g hg
  · by_cases hN : σ.Mutex.Owner = NULL
    · rw [if_pos (Or.inr hN), UtAcquireMutex_free hO hN]
      refine ⟨⟨h.ready_nodup, h.running_not_ready, h.null_not_ready, h.main_not_ready,
        h.waiters_nodup, h.waiter_not_ready, h.running_not_waiter, h.null_not_waiter,
        h.main_not_waiter, ?_, h.null_not_parked, ?_, h.resumed⟩, hrp⟩
      · intro t ht hw
        have e : NULL = t := hN.symm.trans (h.parked_owner t ht hw).1
        exact absurd (e ▸ ht) h.null_not_parked
      · intro g hg
        show σ.Globals.RunningThread = g ∧ g ≠ NULL
        rcases mem_of_mem_entered hg with e | hg
        · rw [e]; exact ⟨rfl, hnn⟩
        · exact absurd (hN.symm.trans (h.inside_owner g hg).1).symm (h.inside_owner g hg).2
    · have hcond : ¬ (σ.Mutex.Owner = σ.Globals.RunningThread ∨ σ.Mutex.Owner = NULL) := by
        rintro (e | e)
        · exact hO e
        · exact hN e
      rw [if_neg hcond, UtAcquireMutex_held hO hN]
      apply MutexSystem.Resume_invariant
      have hsucc := successor_mem (q := σ.Globals.ReadyQueue) σ.Globals.MainThread
      refine ⟨?_, ?_, ?_, ?_, ?_, ?_, ?_, ?_, ?_, ?_, ?_, h.inside_owner, h.resumed⟩
      · rw [UtPark_eq]; exact h.ready_nodup.sublist (List.tail_sublist _)
      · rw [UtPark_eq]; exact successor_not_ready _ h.ready_nodup
      · rw [UtPark_eq]; exact fun hm => h.null_not_ready (List.mem_of_mem_tail hm)
      · rw [UtPark_eq]; exact fun hm => h.main_not_ready (List.mem_of_mem_tail hm)
      · show (MutexWaiters
          (σ.Mutex.WaitListHead ++ [{ Thread := σ.Globals.RunningThread }])).Nodup
        rw [MutexWaiters_append]
        exact List.Nodup.append h.waiters_nodup (List.nodup_singleton _)
          (by
            intro a ha hb
            rw [List.mem_singleton] at hb
            exact h.running_not_waiter (hb ▸ ha))
      · rw [UtPark_eq]
        show ∀ t ∈ MutexWaiters
            (σ.Mutex.WaitListHead ++ [{ Thread := σ.Globals.RunningThread }]),
          t ∉ σ.Globals.ReadyQueue.tail
        rw [MutexWaiters_append]
        intro t ht hm
        rcases List.mem_append.mp ht with ht | ht
        · exact h.waiter_not_ready t ht (List.mem_of_mem_tail hm)
        · rw [List.mem_singleton] at ht
          exact h.running_not_ready (ht ▸ List.mem_of_mem_tail hm)
      · rw [UtPark_eq]
        show σ.Globals.ReadyQueue.headD σ.Globals.MainThread ∉
          MutexWaiters (σ.Mutex.WaitListHead ++ [{ Thread := σ.Globals.RunningThread }])
        rw [MutexWaiters_append]
        intro hm
        rcases List.mem_append.mp hm with hm | hm
        · rcases hsucc with e | e
          · exact h.main_not_waiter (e ▸ hm)
          · exact h.waiter_not_ready _ hm e
        · rw [List.mem_singleton] at hm
          rcases hsucc with e | e
          · exact hnm (hm.symm.trans e)
          · exact h.running_not_ready (hm ▸ e)
      · show NULL ∉
          MutexWaiters (σ.Mutex.WaitListHead ++ [{ Thread := σ.Globals.RunningThread }])
        rw [MutexWaiters_append]
        intro hm
        rcases List.mem_append.mp hm with hm | hm
        · exact h.null_not_waiter hm
        · rw [List.mem_singleton] at hm
          exact hnn hm.symm
      · rw [UtPark_eq]
        show σ.Globals.MainThread ∉
          MutexWaiters (σ.Mutex.WaitListHead ++ [{ Thread := σ.Globals.RunningThread }])
        rw [MutexWaiters_append]
        intro hm
        rcases List.mem_append.mp hm with hm | hm
        · exact h.main_not_waiter hm
        · rw [List.mem_singleton] at hm
          exact hnm hm.symm
      · show ∀ t ∈ σ.Globals.RunningThread :: σ.Parked,
          t ∉ MutexWaiters (σ.Mutex.WaitListHead ++ [{ Thread := σ.Globals.RunningThread }]) →
            σ.Mutex.Owner = t ∧ σ.Mutex.RecursionCounter = 1
        rw [MutexWaiters_append]
        intro t ht hw
        rcases List.mem_cons.mp ht with e | ht
        · exact absurd (List.mem_append_right _ (List.mem_singleton.mpr e)) hw
        · exact h.parked_owner t ht (fun hm => hw (List.mem_append_left _ hm))
      · show NULL ∉ σ.Globals.RunningThread :: σ.Parked
        intro hm
        rcases List.mem_cons.mp hm with e | hm
        · exact hnn e.symm
        · exact h.null_not_parked hm

theorem MutexSystem.ReleaseMutex_nested_eq {σ : MutexSystem}
    (hc : ULONG.sub σ.Mutex.RecursionCounter 1 > 0)
    (hO : σ.Mutex.Owner = σ.Globals.RunningThread) :
    σ.ReleaseMutex =
      { σ with Mutex := { σ.Mutex with
                          RecursionCounter := ULONG.sub σ.Mutex.RecursionCounter 1 } } := by
  unfold MutexSystem.ReleaseMutex UtSelf
  rw [UtReleaseMutex_nested hc]
  dsimp only
  rw [if_pos hO]

theorem MutexSystem.ReleaseMutex_free_eq {σ : MutexSystem}
    (hc : ¬ ULONG.sub σ.Mutex.RecursionCounter 1 > 0) (hw : σ.Mutex.WaitListHead = [])
    (hn : σ.Globals.RunningThread ≠ NULL) :
    σ.ReleaseMutex =
      { σ with
        Mutex := { σ.Mutex with
                   RecursionCounter := ULONG.sub σ.Mutex.RecursionCounter 1, Owner := NULL }
        Inside := σ.Inside.filter (fun t => t ≠ σ.Globals.RunningThread) } := by
  unfold MutexSystem.ReleaseMutex UtSelf
  rw [UtReleaseMutex_free hc hw]
  dsimp only
  rw [if_neg (fun e : NULL = σ.Globals.RunningThread => hn e.symm)]

theorem MutexSystem.ReleaseMutex_transfer_eq {σ : MutexSystem} {w : WAIT_BLOCK}
    {rest : List WAIT_BLOCK}
    (hc : ¬ ULONG.sub σ.Mutex.RecursionCounter 1 > 0) (hw : σ.Mutex.WaitListHead = w :: rest)
    (hn : w.Thread ≠ σ.Globals.RunningThread) :
    σ.ReleaseMutex =
      { σ with
        Mutex := { WaitListHead := rest, Owner := w.Thread, RecursionCounter := 1 }
        Globals := { σ.Globals with ReadyQueue := σ.Globals.ReadyQueue ++ [w.Thread] }
        Inside := σ.Inside.filter (fun t => t ≠ σ.Globals.RunningThread) } := by
  unfold MutexSystem.ReleaseMutex UtSelf
  rw [UtReleaseMutex_transfer hc hw]
  dsimp only
  rw [if_neg hn]

/-- While the owner runs, every thread suspended in `UtAcquireMutex` is still on the wait list
and the owner is the only thread recorded in `Inside`. -/
theorem MutexSystem.Invariant.owner_runs {σ : MutexSystem} (hinv : σ.Invariant)
    (hO : σ.Mutex.Owner = σ.Globals.RunningThread) :
    (∀ t ∈ σ.Parked, t ∈ MutexWaiters σ.Mutex.WaitListHead) ∧
    (∀ g ∈ σ.Inside.filter (fun t => t ≠ σ.Globals.RunningThread), False) := by
  obtain ⟨h, hrp⟩ := hinv
  constructor
  · intro t ht
    by_contra hw
    have e : σ.Globals.RunningThread = t := hO.symm.trans (h.parked_owner t ht hw).1
    exact hrp (e ▸ ht)
  · intro g hg
    obtain ⟨hg1, hg2⟩ := List.mem_filter.mp hg
    have e : σ.Globals.RunningThread = g := hO.symm.trans (h.inside_owner g hg1).1
    simp [e] at hg2

theorem MutexSystem.release_nested_invariant {σ : MutexSystem} (c : Nat) (hinv : σ.Invariant)
    (hO : σ.Mutex.Owner = σ.Globals.RunningThread) :
    MutexSystem.Invariant { σ with Mutex := { σ.Mutex with RecursionCounter := c } } := by
  obtain ⟨hwait, _⟩ := hinv.owner_runs hO
  obtain ⟨h, hrp⟩ := hinv
  refine ⟨⟨h.ready_nodup, h.running_not_ready, h.null_not_ready, h.main_not_ready,
    h.waiters_nodup, h.waiter_not_ready, h.running_not_waiter, h.null_not_waiter,
    h.main_not_waiter, ?_, h.null_not_parked, h.inside_owner, h.resumed⟩, hrp⟩
  intro t ht hw
  exact absurd (hwait t ht) hw

theorem MutexSystem.release_free_invariant {σ : MutexSystem} (c : Nat) (hinv : σ.Invariant)
    (hO : σ.Mutex.Owner = σ.Globals.RunningThread) :
    MutexSystem.Invariant
      { σ with
        Mutex := { σ.Mutex with RecursionCounter := c, Owner := NULL }
        Inside := σ.Inside.filter (fun t => t ≠ σ.Globals.RunningThread) } := by
  obtain ⟨hwait, hleft⟩ := hinv.owner_runs hO
  obtain ⟨h, hrp⟩ := hinv
  refine ⟨⟨h.ready_nodup, h.running_not_ready, h.null_not_ready, h.main_not_ready,
    h.waiters_nodup, h.waiter_not_ready, h.running_not_waiter, h.null_not_waiter,
    h.main_not_waiter, ?_, h.null_not_parked, ?_, h.resumed⟩, hrp⟩
  · intro t ht hw2
    exact absurd (hwait t ht) hw2
  · intro g hg
    exact absurd (hleft g hg) not_false

theorem MutexSystem.release_transfer_invariant {σ : MutexSystem} {w : WAIT_BLOCK}
    {rest : List WAIT_BLOCK} (hinv : σ.Invariant)
    (hO : σ.Mutex.Owner = σ.Globals.RunningThread) (hw : σ.Mutex.WaitListHead = w :: rest) :
    MutexSystem.Invariant
      { σ with
        Mutex := { WaitListHead := rest, Owner := w.Thread, RecursionCounter := 1 }
        Globals := { σ.Globals with ReadyQueue := σ.Globals.ReadyQueue ++ [w.Thread] }
        Inside := σ.Inside.filter (fun t => t ≠ σ.Globals.RunningThread) } := by
  obtain ⟨hwait, hleft⟩ := hinv.owner_runs hO
  obtain ⟨h, hrp⟩ := hinv
  have hW : MutexWaiters σ.Mutex.WaitListHead = w.Thread :: MutexWaiters rest := by
    rw [hw]; rfl
  have hnd := List.nodup_cons.mp (hW ▸ h.waiters_nodup)
  have hwmem : w.Thread ∈ MutexWaiters σ.Mutex.WaitListHead := by
    rw [hW]; exact List.mem_cons_self _ _
  have hsub : ∀ t ∈ MutexWaiters rest, t ∈ MutexWaiters σ.Mutex.WaitListHead := by
    intro t ht; rw [hW]; exact List.mem_cons_of_mem _ ht
  have hwr : w.Thread ≠ σ.Globals.RunningThread :=
    fun e => h.running_not_waiter (e ▸ hwmem)
  refine ⟨⟨?_, ?_, ?_, ?_, hnd.2, ?_, ?_, ?_, ?_, ?_, h.null_not_parked, ?_, h.resumed⟩,
    hrp⟩
  · exact List.Nodup.append h.ready_nodup (List.nodup_singleton _)
      (by
        intro a ha hb
        rw [List.mem_singleton] at hb
        exact h.waiter_not_ready _ hwmem (hb ▸ ha))
  · intro hm
    rcases List.mem_append.mp hm with hm | hm
    · exact h.running_not_ready hm
    · rw [List.mem_singleton] at hm
      exact hwr hm.symm
  · intro hm
    rcases List.mem_append.mp hm with hm | hm
    · exact h.null_not_ready hm
    · rw [List.mem_singleton] at hm
      exact h.null_not_waiter (hm ▸ hwmem)
  · intro hm
    rcases List.mem_append.mp hm with hm | hm
    · exact h.main_not_ready hm
    · rw [List.mem_singleton] at hm
      exact h.main_not_waiter (hm ▸ hwmem)
  · intro t ht hm
    rcases List.mem_append.mp hm with hm | hm
    · exact h.waiter_not_ready t (hsub t ht) hm
    · rw [List.mem_singleton] at hm
      exact hnd.1 (hm ▸ ht)
  · exact fun hm => h.running_not_waiter (hsub _ hm)
  · exact fun hm => h.null_not_waiter (hsub _ hm)
  · exact fun hm => h.main_not_waiter (hsub _ hm)
  · intro t ht hnr
    have hm := hwait t ht
    rw [hW] at hm
    rcases List.mem_cons.mp hm with e | hm
    · exact ⟨e.symm, rfl⟩
    · exact absurd hm hnr
  · intro g hg
    exact absurd (hleft g hg) not_false

theorem MutexSystem.ReleaseMutex_invariant {σ : MutexSystem} (hinv : σ.Invariant)
    (hu : σ.UserThreadRuns) (hA : UtReleaseMutex.Asserted σ.Mutex σ.Globals) :
    σ.ReleaseMutex.Invariant := by
  have hO : σ.Mutex.Owner = σ.Globals.RunningThread := hA
  by_cases hc : ULONG.sub σ.Mutex.RecursionCounter 1 > 0
  · rw [MutexSystem.ReleaseMutex_nested_eq hc hO]
    exact MutexSystem.release_nested_invariant _ hinv hO
  · cases hw : σ.Mutex.WaitListHead with
    | nil =>
      rw [MutexSystem.ReleaseMutex_free_eq hc hw hu.1]
      exact MutexSystem.release_free_invariant _ hinv hO
    | cons w rest =>
      have hwr : w.Thread ≠ σ.Globals.RunningThread := by
        intro e
        apply hinv.1.running_not_waiter
        rw [hw, ← e]
        exact List.mem_cons_self _ _
      rw [MutexSystem.ReleaseMutex_transfer_eq hc hw hwr]
      exact MutexSystem.release_transfer_invariant hinv hO hw

theorem MutexSystem.Yield_invariant {σ : MutexSystem} (hinv : σ.Invariant)
    (hu : σ.UserThreadRuns) : σ.Yield.Invariant := by
  obtain ⟨h, hrp⟩ := hinv
  obtain ⟨hnn, hnm⟩ := hu
  unfold MutexSystem.Yield
  cases hq : σ.Globals.ReadyQueue with
  | nil =>
    rw [show IsListEmpty ([] : List HANDLE) = true from rfl, if_pos rfl]
    exact ⟨h, hrp⟩
  | cons a t =>
    rw [show IsListEmpty (a :: t) = false from rfl, if_neg (by simp)]
    apply MutexSystem.Resume_invariant
    have hnd := List.nodup_cons.mp (hq ▸ h.ready_nodup)
    have hmem : ∀ x ∈ t, x ∈ σ.Globals.ReadyQueue := by
      intro x hx; rw [hq]; exact List.mem_cons_of_mem _ hx
    have hamem : a ∈ σ.Globals.ReadyQueue := by rw [hq]; exact List.mem_cons_self _ _
    rw [UtYield_cons hq]
    refine ⟨?_, ?_, ?_, ?_, h.waiters_nodup, ?_, ?_, h.null_not_waiter, h.main_not_waiter,
      h.parked_owner, h.null_not_parked, h.inside_owner, h.resumed⟩
    · exact List.Nodup.append hnd.2 (List.nodup_singleton _)
        (by
          intro x hx hb
          rw [List.mem_singleton] at hb
          exact h.running_not_ready (hb ▸ hmem x hx))
    · intro hm
      rcases List.mem_append.mp hm with hm | hm
      · exact hnd.1 hm
      · rw [List.mem_singleton] at hm
        exact h.running_not_ready (hm ▸ hamem)
    · intro hm
      rcases List.mem_append.mp hm with hm | hm
      · exact h.null_not_ready (hmem _ hm)
      · rw [List.mem_singleton] at hm
        exact hnn hm.symm
    · intro hm
      rcases List.mem_append.mp hm with hm | hm
      · exact h.main_not_ready (hmem _ hm)
      · rw [List.mem_singleton] at hm
        exact hnm hm.symm
    · intro x hx hm
      rcases List.mem_append.mp hm with hm | hm
      · exact h.waiter_not_ready x hx (hmem _ hm)
      · rw [List.mem_singleton] at hm
        exact h.running_not_waiter (hm ▸ hx)
    · exact fun hm => h.waiter_not_ready a hm hamem

theorem MutexSystem.Exit_invariant {σ : MutexSystem} (hinv : σ.Invariant) :
    σ.Exit.Invariant := by
  obtain ⟨h, _⟩ := hinv
  unfold MutexSystem.Exit
  apply MutexSystem.Resume_invariant
  have hsucc := successor_mem (q := σ.Globals.ReadyQueue) σ.Globals.MainThread
  rw [UtExit_eq]
  refine ⟨?_, ?_, ?_, ?_, h.waiters_nodup, ?_, ?_, h.null_not_waiter, h.main_not_waiter,
    h.parked_owner, h.null_not_parked, ?_, h.resumed⟩
  · exact h.ready_nodup.sublist (List.tail_sublist _)
  · exact successor_not_ready _ h.ready_nodup
  · exact fun hm => h.null_not_ready (List.mem_of_mem_tail hm)
  · exact fun hm => h.main_not_ready (List.mem_of_mem_tail hm)
  · exact fun t ht hm => h.waiter_not_ready t ht (List.mem_of_mem_tail hm)
  · intro hm
    rcases hsucc with e | e
    · exact h.main_not_waiter (e ▸ hm)
    · exact h.waiter_not_ready _ hm e
  · intro g hg
    exact h.inside_owner g (List.mem_filter.mp hg).1

theorem MutexSystem.Reachable.invariant {σ0 σ : MutexSystem} (h0 : σ0.Invariant)
    (h : MutexSystem.Reachable σ0 σ) : σ.Invariant := by
  induction h with
  | start => exact h0
  | acquire _ hu ih => exact MutexSystem.AcquireMutex_invariant ih hu
  | release _ hu hA ih => exact MutexSystem.ReleaseMutex_invariant ih hu hA
  | yield _ hu ih => exact MutexSystem.Yield_invariant ih hu
  | exit _ _ ih => exact MutexSystem.Exit_invariant ih

/-! ## Invariants of the mutex fields -/

theorem MutexSystem.ReachableUnwrapped.reachable {σ0 σ : MutexSystem}
    (h : MutexSystem.ReachableUnwrapped σ0 σ) : MutexSystem.Reachable σ0 σ := by
  induction h with
  | start => exact .start
  | acquire _ hu _ ih => exact .acquire ih hu
  | release _ hu hA ih => exact .release ih hu hA
  | yield _ hu ih => exact .yield ih hu
  | exit _ hu ih => exact .exit ih hu

theorem MutexSystem.Resume_Mutex (τ : MutexSystem) : τ.Resume.Mutex = τ.Mutex := by
  unfold MutexSystem.Resume
  split <;> rfl

theorem MutexSystem.AcquireMutex_Mutex (σ : MutexSystem) :
    σ.AcquireMutex.Mutex = (UtAcquireMutex σ.Mutex σ.Globals).1 := by
  unfold MutexSystem.AcquireMutex
  split
  · rfl
  · rw [MutexSystem.Resume_Mutex]

theorem MutexSystem.ReleaseMutex_Mutex (σ : MutexSystem) :
    σ.ReleaseMutex.Mutex = (UtReleaseMutex σ.Mutex σ.Globals).1 := rfl

theorem MutexSystem.Yield_Mutex (σ : MutexSystem) : σ.Yield.Mutex = σ.Mutex := by
  unfold MutexSystem.Yield
  split
  · rfl
  · rw [MutexSystem.Resume_Mutex]

theorem MutexSystem.Exit_Mutex (σ : MutexSystem) : σ.Exit.Mutex = σ.Mutex := by
  unfold MutexSystem.Exit
  rw [MutexSystem.Resume_Mutex]

/-- A free mutex has recursion counter 0 and an empty wait list, in every reachable state. -/
theorem MutexSystem.Reachable.free_mutex {Owned : Bool} {s : Scheduler} {σ : MutexSystem}
    (hwf : s.WellFormed) (hOwned : Owned = true → s.RunningThread ≠ NULL)
    (h : MutexSystem.Reachable (MutexSystem.start Owned s) σ) :
    σ.Mutex.Owner = NULL → σ.Mutex.RecursionCounter = 0 ∧ σ.Mutex.WaitListHead = [] := by
  induction h with
  | start =>
    intro hO
    cases Owned with
    | false => exact ⟨rfl, rfl⟩
    | true => exact absurd hO (hOwned rfl)
  | @acquire σ hr hu ih =>
    rw [MutexSystem.AcquireMutex_Mutex]
    by_cases hO : σ.Mutex.Owner = σ.Globals.RunningThread
    · rw [UtAcquireMutex_owner hO]
      intro e
      exact absurd (hO.symm.trans e) hu.1
    · by_cases hN : σ.Mutex.Owner = NULL
      · rw [UtAcquireMutex_free hO hN]
        intro e
        exact absurd e hu.1
      · rw [UtAcquireMutex_held hO hN]
        intro e
        exact absurd e hN
  | @release σ hr hu hA ih =>
    have hinv := hr.invariant (MutexSystem.start_invariant Owned s hwf hOwned)
    have hO : σ.Mutex.Owner = σ.Globals.RunningThread := hA
    rw [MutexSystem.ReleaseMutex_Mutex]
    by_cases hc : ULONG.sub σ.Mutex.RecursionCounter 1 > 0
    · rw [UtReleaseMutex_nested hc]
      intro e
      exact absurd (hO.symm.trans e) hu.1
    · cases hw : σ.Mutex.WaitListHead with
      | nil =>
        rw [UtReleaseMutex_free hc hw]
        intro _
        exact ⟨by show ULONG.sub σ.Mutex.RecursionCounter 1 = 0; omega, hw⟩
      | cons w rest =>
        rw [UtReleaseMutex_transfer hc hw]
        intro e
        exfalso
        apply hinv.1.null_not_waiter
        rw [hw]
        have e' : w.Thread = NULL := e
        rw [← e']
        exact List.mem_cons_self _ _
  | yield _ _ ih => rw [MutexSystem.Yield_Mutex]; exact ih
  | exit _ _ ih => rw [MutexSystem.Exit_Mutex]; exact ih

/-- A held mutex has a recursion counter of at least 1, as long as the counter has not wrapped
around. -/
theorem MutexSystem.ReachableUnwrapped.held_mutex {Owned : Bool} {s : Scheduler}
    {σ : MutexSystem} (h : MutexSystem.ReachableUnwrapped (MutexSystem.start Owned s) σ) :
    σ.Mutex.Owner ≠ NULL → σ.Mutex.RecursionCounter ≥ 1 := by
  induction h with
  | start =>
    intro hO
    cases Owned with
    | false => exact absurd rfl hO
    | true => exact Nat.le_refl 1
  | @acquire σ hr hu hb ih =>
    rw [MutexSystem.AcquireMutex_Mutex]
    by_cases hO : σ.Mutex.Owner = σ.Globals.RunningThread
    · rw [UtAcquireMutex_owner hO]
      intro _
      show ULONG.add σ.Mutex.RecursionCounter 1 ≥ 1
      rw [ULONG.add_of_lt (hb hO)]
      omega
    · by_cases hN : σ.Mutex.Owner = NULL
      · rw [UtAcquireMutex_free hO hN]
        intro _
        exact Nat.le_refl 1
      · rw [UtAcquireMutex_held hO hN]
        exact ih
  | @release σ hr hu hA ih =>
    rw [MutexSystem.ReleaseMutex_Mutex]
    by_cases hc : ULONG.sub σ.Mutex.RecursionCounter 1 > 0
    · rw [UtReleaseMutex_nested hc]
      intro _
      exact hc
    · cases hw : σ.Mutex.WaitListHead with
      | nil =>
        rw [UtReleaseMutex_free hc hw]
        intro e
        exact absurd rfl e
      | cons w rest =>
        rw [UtReleaseMutex_transfer hc hw]
        intro _
        exact Nat.le_refl 1
  | yield _ _ ih => rw [MutexSystem.Yield_Mutex]; exact ih
  | exit _ _ ih => rw [MutexSystem.Exit_Mutex]; exact ih

/-- Thread 5, alone in the scheduler, takes a free mutex and then takes it again `k` times:
the state is reachable and the recursion counter is `1 + k` modulo `2 ^ 32`. -/
theorem MutexSystem.Reachable.recursive_acquires (k : Nat) :
    MutexSystem.Reachable
      (MutexSystem.start false
        { NumberOfThreads := 1, ReadyQueue := [], RunningThread := 5, MainThread := 1 })
      { Mutex := { WaitListHead := [], RecursionCounter := (1 + k) % ULONG_MAX1, Owner := 5 }
        Globals := { NumberOfThreads := 1, ReadyQueue := [], RunningThread := 5, MainThread := 1 }
        Parked := []
        Inside := [5]
        ResumedAsOwner := true } := by
  induction k with
  | zero =>
    exact MutexSystem.Reachable.acquire MutexSystem.Reachable.start
      (by unfold MutexSystem.UserThreadRuns; decide)
  | succ k ih =>
    have hstep := MutexSystem.Reachable.acquire ih
      ⟨by show (5 : HANDLE) ≠ NULL; decide, by show (5 : HANDLE) ≠ 1; decide⟩
    have e : MutexSystem.AcquireMutex
        { Mutex := { WaitListHead := [], RecursionCounter := (1 + k) % ULONG_MAX1, Owner := 5 }
          Globals :=
            { NumberOfThreads := 1, ReadyQueue := [], RunningThread := 5, MainThread := 1 }
          Parked := []
          Inside := [5]
          ResumedAsOwner := true } =
        { Mutex :=
            { WaitListHead := [], RecursionCounter := (1 + (k + 1)) % ULONG_MAX1, Owner := 5 }
          Globals :=
            { NumberOfThreads := 1, ReadyQueue := [], RunningThread := 5, MainThread := 1 }
          Parked := []
          Inside := [5]
          ResumedAsOwner := true } := by
      have hc : ULONG.add ((1 + k) % ULONG_MAX1) 1 = (1 + (k + 1)) % ULONG_MAX1 := by
        simp only [ULONG.add, ULONG_MAX1]
        omega
      rw [← hc]
      rfl
    rw [e] at hstep
    exact hstep

/-- Claim C11, as stated, fails: the recursion counter is a 32-bit value that
`UtAcquireMutex` increments without a bound. After thread 5 has taken a free mutex and then
taken it again `2 ^ 32 - 1` times, the mutex is owned by thread 5 and its recursion counter
is 0. -/
theorem Mutex_counter_zero_while_owned :
    ∃ σ : MutexSystem,
      MutexSystem.Reachable
        (MutexSystem.start false
          { NumberOfThreads := 1, ReadyQueue := [], RunningThread := 5, MainThread := 1 }) σ ∧
      σ.Mutex.Owner = 5 ∧ σ.Mutex.Owner ≠ NULL ∧ σ.Mutex.RecursionCounter = 0 :=
  ⟨_, MutexSystem.Reachable.recursive_acquires 4294967295, rfl, by decide, by
    show (1 + 4294967295) % ULONG_MAX1 = 0
    norm_num [ULONG_MAX1]⟩

/-- Claim C11, amended: for a mutex initialised by `UtInitializeMutex` (as owned only by a
running thread) and then used by user threads through `UtAcquireMutex` and `UtReleaseMutex`
(release only by the owner), in every reachable state a recursion counter of at least 1 implies
that the mutex has an owner; and as long as no thread has re-acquired the mutex while holding it
`2 ^ 32 - 1` times, the recursion counter is at least 1 if and only if the owner is not `NULL`,
that is, the counter is 0 if and only if the mutex is free. -/
theorem Mutex_counter_invariant (Owned : Bool) (s : Scheduler) (σ : MutexSystem)
    (hwf : s.WellFormed) (hOwned : Owned = true → s.RunningThread ≠ NULL) :
    (MutexSystem.Reachable (MutexSystem.start Owned s) σ →
      (σ.Mutex.RecursionCounter ≥ 1 → σ.Mutex.Owner ≠ NULL)) ∧
    (MutexSystem.ReachableUnwrapped (MutexSystem.start Owned s) σ →
      (σ.Mutex.RecursionCounter ≥ 1 ↔ σ.Mutex.Owner ≠ NULL) ∧
      (σ.Mutex.RecursionCounter = 0 ↔ σ.Mutex.Owner = NULL)) := by
  have key : MutexSystem.Reachable (MutexSystem.start Owned s) σ →
      (σ.Mutex.RecursionCounter ≥ 1 → σ.Mutex.Owner ≠ NULL) := by
    intro h hc hO
    have := (h.free_mutex hwf hOwned hO).1
    omega
  refine ⟨key, ?_⟩
  intro h
  have h1 := key h.reachable
  have h2 := h.held_mutex
  refine ⟨⟨h1, h2⟩, ?_, ?_⟩
  · intro hc
    by_contra hO
    have := h2 hO
    omega
  · intro hO
    exact (h.reachable.free_mutex hwf hOwned hO).1

/-- The amended C11 after thread 5 has taken a free mutex once: the counter is 1 and the owner
is thread 5. -/
theorem Mutex_counter_invariant_witness :
    ((MutexSystem.start false
        { NumberOfThreads := 1, ReadyQueue := [], RunningThread := 5, MainThread := 1 }
      ).AcquireMutex.Mutex.RecursionCounter ≥ 1 ↔
    (MutexSystem.start false
        { NumberOfThreads := 1, ReadyQueue := [], RunningThread := 5, MainThread := 1 }
      ).AcquireMutex.Mutex.Owner ≠ NULL) :=
  ((Mutex_counter_invariant false
    { NumberOfThreads := 1, ReadyQueue := [], RunningThread := 5, MainThread := 1 }
    (MutexSystem.start false
      { NumberOfThreads := 1, ReadyQueue := [], RunningThread := 5, MainThread := 1 }
      ).AcquireMutex
    (by unfold Scheduler.WellFormed; decide) (by decide)).2
    (MutexSystem.ReachableUnwrapped.acquire MutexSystem.ReachableUnwrapped.start
      (by unfold MutexSystem.UserThreadRuns; decide) (by decide))).1

/-- Claim C12, as stated, fails: a mutex that is held while no thread waits for it has an empty
wait list, an owner and a recursion counter of 1. This is the state after thread 5 has taken a
free mutex. -/
theorem Mutex_held_without_waiters :
    ∃ σ : MutexSystem,
      MutexSystem.Reachable
        (MutexSystem.start false
          { NumberOfThreads := 1, ReadyQueue := [], RunningThread := 5, MainThread := 1 }) σ ∧
      σ.Mutex.WaitListHead = [] ∧ σ.Mutex.Owner ≠ NULL ∧ σ.Mutex.RecursionCounter ≠ 0 :=
  ⟨_, MutexSystem.Reachable.acquire MutexSystem.Reachable.start
      (by unfold MutexSystem.UserThreadRuns; decide), rfl, by decide, by decide⟩

/-- Claim C12, amended: for a mutex initialised by `UtInitializeMutex` (as owned only by a
running thread) and then used by user threads through `UtAcquireMutex` and `UtReleaseMutex`
(release only by the owner), in every reachable state a free mutex (`Owner = NULL`) has
recursion counter 0 and an empty wait list, hence a non-empty wait list implies that the mutex
is held; and as long as no thread has re-acquired the mutex while holding it `2 ^ 32 - 1` times,
`Owner = NULL` and `RecursionCounter = 0` are equivalent. An empty wait list implies neither of
them. -/
theorem Mutex_free_invariant (Owned : Bool) (s : Scheduler) (σ : MutexSystem)
    (hwf : s.WellFormed) (hOwned : Owned = true → s.RunningThread ≠ NULL) :
    (MutexSystem.Reachable (MutexSystem.start Owned s) σ →
      (σ.Mutex.Owner = NULL → σ.Mutex.RecursionCounter = 0 ∧ σ.Mutex.WaitListHead = []) ∧
      (σ.Mutex.WaitListHead ≠ [] → σ.Mutex.Owner ≠ NULL)) ∧
    (MutexSystem.ReachableUnwrapped (MutexSystem.start Owned s) σ →
      (σ.Mutex.Owner = NULL ↔ σ.Mutex.RecursionCounter = 0) ∧
      (σ.Mutex.RecursionCounter = 0 → σ.Mutex.WaitListHead = [])) := by
  constructor
  · intro h
    exact ⟨h.free_mutex hwf hOwned, fun hw hO => hw (h.free_mutex hwf hOwned hO).2⟩
  · intro h
    have hfree := h.reachable.free_mutex hwf hOwned
    have hO : σ.Mutex.RecursionCounter = 0 → σ.Mutex.Owner = NULL := by
      intro hc
      by_contra hO
      have := h.held_mutex hO
      omega
    exact ⟨⟨fun e => (hfree e).1, hO⟩, fun hc => (hfree (hO hc)).2⟩

/-- The amended C12 at the start, with a mutex initialised free by thread 5: the owner is
`NULL`, the counter is 0 and the wait list is empty. -/
theorem Mutex_free_invariant_witness :
    (UtInitializeMutex false
        { NumberOfThreads := 1, ReadyQueue := [], RunningThread := 5, MainThread := 1 }
      ).RecursionCounter = 0 ∧
    (UtInitializeMutex false
        { NumberOfThreads := 1, ReadyQueue := [], RunningThread := 5, MainThread := 1 }
      ).WaitListHead = [] :=
  ((Mutex_free_invariant false
    { NumberOfThreads := 1, ReadyQueue := [], RunningThread := 5, MainThread := 1 }
    (MutexSystem.start false
      { NumberOfThreads := 1, ReadyQueue := [], RunningThread := 5, MainThread := 1 })
    (by unfold Scheduler.WellFormed; decide) (by decide)).1
    MutexSystem.Reachable.start).1 rfl

/-! ## The accounting invariant of the runtime -/

/-- Pairwise distinct non-null 32-bit addresses are fewer than `2 ^ 32`. -/
theorem length_lt_of_addresses {l : List HANDLE} (hnd : l.Nodup)
    (hb : ∀ h ∈ l, h ≠ NULL ∧ h < ULONG_MAX1) : l.length < ULONG_MAX1 := by
  have hsub : l.toFinset ⊆ Finset.Ico 1 ULONG_MAX1 := by
    intro x hx
    have := hb x (List.mem_toFinset.mp hx)
    simp only [Finset.mem_Ico]
    refine ⟨Nat.pos_of_ne_zero this.1, this.2⟩
  have hcard := Finset.card_le_card hsub
  rw [List.toFinset_card_of_nodup hnd, Nat.card_Ico] at hcard
  simp only [ULONG_MAX1] at hcard ⊢
  omega

theorem Scheduler.RunningUser_of_user {s : Scheduler} (h1 : s.RunningThread ≠ NULL)
    (h2 : s.RunningThread ≠ s.MainThread) : s.RunningUser = [s.RunningThread] := by
  simp [Scheduler.RunningUser, h1, h2]

theorem Scheduler.RunningUser_of_null {s : Scheduler} (h1 : s.RunningThread = NULL) :
    s.RunningUser = [] := by
  simp [Scheduler.RunningUser, h1]

theorem Scheduler.RunningUser_of_main {s : Scheduler} (h1 : s.RunningThread = s.MainThread) :
    s.RunningUser = [] := by
  simp [Scheduler.RunningUser, h1]

theorem Scheduler.Accounted.of_perm {s s' : Scheduler} {W W' E : List HANDLE}
    (h : s.Accounted W E)
    (hp : (s'.ReadyQueue ++ W' ++ s'.RunningUser).Perm (s.ReadyQueue ++ W ++ s.RunningUser))
    (hm : s'.MainThread = s.MainThread) (hn : s'.NumberOfThreads = s.NumberOfThreads)
    (hx : s'.RunningThread ≠ NULL → s'.RunningThread = s'.MainThread → s'.ReadyQueue = []) :
    s'.Accounted W' E := by
  obtain ⟨h1, h2, h3, h4, _⟩ := h
  refine ⟨hp.nodup_iff.mpr h1, ?_, ?_, ?_, hx⟩
  · intro x hx'
    rw [hm]
    exact h2 x (hp.mem_iff.mp hx')
  · rw [hn, h3, hp.length_eq]
  · intro e he hmem
    exact h4 e he (hp.mem_iff.mp hmem)

theorem Scheduler.Accounted.initial :
    World.initial.Globals.Accounted World.initial.Waiters World.initial.Exited := by
  refine ⟨?_, ?_, ?_, ?_, ?_⟩ <;>
    simp [World.initial, World.Waiters, MutexListWaiters, SemaphoreListWaiters,
      Scheduler.RunningUser, NULL]

theorem Scheduler.Accounted.create {s : Scheduler} {W E : List HANDLE}
    (Function Argument : Nat) (Thread Stack : HANDLE) (h : s.Accounted W E)
    (hr : ¬ (s.RunningThread ≠ NULL ∧ s.RunningThread = s.MainThread))
    (hn : Thread ≠ NULL) (h32 : Thread < ULONG_MAX1) (hm : Thread ≠ s.MainThread)
    (hf : Thread ∉ s.ReadyQueue ++ W ++ s.RunningUser) :
    (UtCreate Function Argument Thread Stack s).2.2.Accounted W
        (E.filter (fun t => t ≠ Thread)) ∧
      (UtCreate Function Argument Thread Stack s).2.2.NumberOfThreads =
        s.NumberOfThreads + 1 := by
  obtain ⟨h1, h2, h3, h4, _⟩ := h
  have hRU : (UtCreate Function Argument Thread Stack s).2.2.RunningUser = s.RunningUser := rfl
  have hp : ((s.ReadyQueue ++ [Thread]) ++ W ++ s.RunningUser).Perm
      (Thread :: (s.ReadyQueue ++ W ++ s.RunningUser)) := by
    rw [List.perm_iff_count]
    intro a
    simp only [List.count_append, List.count_cons, List.count_nil]
    omega
  have hnd : ((s.ReadyQueue ++ [Thread]) ++ W ++ s.RunningUser).Nodup :=
    hp.nodup_iff.mpr (List.nodup_cons.mpr ⟨hf, h1⟩)
  have hel : ∀ x ∈ (s.ReadyQueue ++ [Thread]) ++ W ++ s.RunningUser,
      x ≠ NULL ∧ x ≠ s.MainThread ∧ x < ULONG_MAX1 := by
    intro x hx
    rcases List.mem_cons.mp (hp.mem_iff.mp hx) with e | hx
    · rw [e]; exact ⟨hn, hm, h32⟩
    · exact h2 x hx
  have hlen := length_lt_of_addresses hnd (fun x hx => ⟨(hel x hx).1, (hel x hx).2.2⟩)
  have hlen' : ((s.ReadyQueue ++ [Thread]) ++ W ++ s.RunningUser).length =
      s.NumberOfThreads + 1 := by
    rw [hp.length_eq, List.length_cons, h3]
  have hadd : ULONG.add s.NumberOfThreads 1 = s.NumberOfThreads + 1 :=
    ULONG.add_of_lt (by omega)
  have hN : (UtCreate Function Argument Thread Stack s).2.2.NumberOfThreads =
      s.NumberOfThreads + 1 := hadd
  refine ⟨⟨hnd, hel, ?_, ?_, ?_⟩, hN⟩
  · rw [hN]; exact hlen'.symm
  · intro e he hmem
    obtain ⟨he1, he2⟩ := List.mem_filter.mp he
    rcases List.mem_cons.mp (hp.mem_iff.mp hmem) with e' | hmem
    · simp [e'] at he2
    · exact h4 e he1 hmem
  · intro ha hb
    exact absurd ⟨ha, hb⟩ hr

theorem UtRun_nil {Proxy : HANDLE} {s : Scheduler} (hq : s.ReadyQueue = []) :
    UtRun Proxy s = s := by
  unfold UtRun
  rw [hq]
  rfl

theorem UtRun_cons {Proxy : HANDLE} {s : Scheduler} {h : HANDLE} {t : List HANDLE}
    (hq : s.ReadyQueue = h :: t) :
    UtRun Proxy s = { s with MainThread := Proxy, RunningThread := h, ReadyQueue := t } := by
  unfold UtRun
  rw [hq]
  rfl

theorem Scheduler.Accounted.run {s : Scheduler} {W E : List HANDLE} (Proxy : HANDLE)
    (h : s.Accounted W E) (hpre : UtRun.Precondition s)
    (hf : Proxy ∉ s.ReadyQueue ++ W ++ s.RunningUser) :
    (UtRun Proxy s).Accounted W E := by
  cases hq : s.ReadyQueue with
  | nil => rw [UtRun_nil hq]; exact h
  | cons a t =>
    obtain ⟨h1, h2, h3, h4, _⟩ := h
    have hRU : s.RunningUser = [] := Scheduler.RunningUser_of_null hpre
    rw [hRU, hq] at h1 h2 h3 h4 hf
    have ha := h2 a (by simp)
    have haP : a ≠ Proxy := by
      intro e
      apply hf
      rw [← e]
      simp
    rw [UtRun_cons hq]
    have hRU' : ({ s with MainThread := Proxy, RunningThread := a, ReadyQueue := t } :
        Scheduler).RunningUser = [a] := Scheduler.RunningUser_of_user ha.1 haP
    have hp : (t ++ W ++ [a]).Perm ((a :: t) ++ W ++ []) := by
      rw [List.perm_iff_count]
      intro x
      simp only [List.count_append, List.count_cons, List.count_nil]
      omega
    refine ⟨?_, ?_, ?_, ?_, ?_⟩
    · rw [hRU']; exact hp.nodup_iff.mpr h1
    · rw [hRU']
      intro x hx
      have hx' := hp.mem_iff.mp hx
      refine ⟨(h2 x hx').1, ?_, (h2 x hx').2.2⟩
      intro e
      have e' : x = Proxy := e
      exact hf (e' ▸ hx')
    · rw [hRU']
      show s.NumberOfThreads = _
      rw [h3, hp.length_eq]
    · rw [hRU']
      intro e he hmem
      exact h4 e he (hp.mem_iff.mp hmem)
    · intro _ hb
      exact absurd hb haP

theorem Scheduler.Accounted.finish {s : Scheduler} {W E : List HANDLE}
    (h : s.Accounted W E) (hr : s.RunningThread ≠ NULL ∧ s.RunningThread = s.MainThread) :
    (UtRun.Resumed s).Accounted W E := by
  have hRU : s.RunningUser = [] := Scheduler.RunningUser_of_main hr.2
  have hRU' : (UtRun.Resumed s).RunningUser = [] := Scheduler.RunningUser_of_null rfl
  refine h.of_perm ?_ rfl rfl ?_
  · rw [hRU, hRU']
    exact List.Perm.refl _
  · intro ha
    exact absurd rfl ha

theorem Scheduler.Accounted.yield {s : Scheduler} {W E : List HANDLE}
    (h : s.Accounted W E) (hu : s.RunningThread ≠ NULL ∧ s.RunningThread ≠ s.MainThread) :
    (UtYield s).Accounted W E := by
  cases hq : s.ReadyQueue with
  | nil => rw [UtYield_nil hq]; exact h
  | cons a t =>
    have ha := h.2.1 a (by rw [hq]; simp)
    have hRU : s.RunningUser = [s.RunningThread] := Scheduler.RunningUser_of_user hu.1 hu.2
    rw [UtYield_cons hq]
    have hRU' : ({ s with RunningThread := a, ReadyQueue := t ++ [s.RunningThread] } :
        Scheduler).RunningUser = [a] := Scheduler.RunningUser_of_user ha.1 ha.2.1
    refine h.of_perm ?_ rfl rfl ?_
    · rw [hRU, hRU', hq]
      show ((t ++ [s.RunningThread]) ++ W ++ [a]).Perm ((a :: t) ++ W ++ [s.RunningThread])
      rw [List.perm_iff_count]
      intro x
      simp only [List.count_append, List.count_cons, List.count_nil]
      omega
    · intro _ hb
      exact absurd hb ha.2.1

/-- The running user thread stops running and the successor runs: the threads other than the
running one are the same before and after. -/
theorem Scheduler.successor_perm {s s' : Scheduler} {W : List HANDLE}
    (hnull : ∀ h ∈ s.ReadyQueue, h ≠ NULL ∧ h ≠ s.MainThread)
    (hm : s'.MainThread = s.MainThread)
    (hr : s'.RunningThread = s.ReadyQueue.headD s.MainThread)
    (hq : s'.ReadyQueue = s.ReadyQueue.tail) :
    (s'.ReadyQueue ++ W ++ s'.RunningUser).Perm (s.ReadyQueue ++ W) ∧
    (s'.RunningThread ≠ NULL → s'.RunningThread = s'.MainThread → s'.ReadyQueue = []) := by
  cases hrq : s.ReadyQueue with
  | nil =>
    rw [hrq] at hr hq
    have hRU : s'.RunningUser = [] := Scheduler.RunningUser_of_main (by rw [hr, hm]; rfl)
    rw [hRU, hq]
    exact ⟨by simp, fun _ _ => rfl⟩
  | cons a t =>
    rw [hrq] at hr hq
    have ha := hnull a (by rw [hrq]; simp)
    have hra : s'.RunningThread = a := hr
    have hRU : s'.RunningUser = [a] := by
      rw [← hra]
      exact Scheduler.RunningUser_of_user (by rw [hra]; exact ha.1) (by rw [hra, hm]; exact ha.2)
    rw [hRU, hq]
    constructor
    · show (t ++ W ++ [a]).Perm ((a :: t) ++ W)
      rw [List.perm_iff_count]
      intro x
      simp only [List.count_append, List.count_cons, List.count_nil]
      omega
    · intro _ hb
      rw [hra, hm] at hb
      exact absurd hb ha.2

theorem Scheduler.Accounted.exit {s : Scheduler} {W E : List HANDLE}
    (h : s.Accounted W E) (hu : s.RunningThread ≠ NULL ∧ s.RunningThread ≠ s.MainThread) :
    (UtExit s).Accounted W (s.RunningThread :: E) ∧
      (UtExit s).NumberOfThreads + 1 = s.NumberOfThreads := by
  obtain ⟨h1, h2, h3, h4, _⟩ := h
  have hRU : s.RunningUser = [s.RunningThread] := Scheduler.RunningUser_of_user hu.1 hu.2
  rw [hRU] at h1 h2 h3 h4
  have hlt := length_lt_of_addresses h1 (fun x hx => ⟨(h2 x hx).1, (h2 x hx).2.2⟩)
  have hsucc := @Scheduler.successor_perm s (UtExit s) W
    (fun x hx => ⟨(h2 x (by simp [hx])).1, (h2 x (by simp [hx])).2.1⟩)
    (by rw [UtExit_eq]) (by rw [UtExit_eq]) (by rw [UtExit_eq])
  obtain ⟨hp, hx⟩ := hsucc
  have hN : (UtExit s).NumberOfThreads = s.NumberOfThreads - 1 := by
    rw [UtExit_eq]
    exact ULONG.sub_of_le (by rw [h3]; simp; omega) (by rw [h3]; exact hlt)
  have hpos : 1 ≤ s.NumberOfThreads := by rw [h3]; simp; omega
  have hnd : (s.ReadyQueue ++ W).Nodup := by
    have := h1
    rw [List.nodup_append] at this
    exact this.1
  have hrun : s.RunningThread ∉ s.ReadyQueue ++ W := by
    intro hm
    have := h1
    rw [List.nodup_append] at this
    exact this.2.2 hm (List.mem_singleton_self _)
  refine ⟨⟨hp.nodup_iff.mpr hnd, ?_, ?_, ?_, hx⟩, by omega⟩
  · intro x hx'
    have hm : (UtExit s).MainThread = s.MainThread := by rw [UtExit_eq]
    rw [hm]
    exact h2 x (List.mem_append_left _ (hp.mem_iff.mp hx'))
  · rw [hN, h3, hp.length_eq]
    simp
  · intro e he hmem
    have hmem' := hp.mem_iff.mp hmem
    rcases List.mem_cons.mp he with e' | he
    · exact hrun (e' ▸ hmem')
    · exact h4 e he (List.mem_append_left _ hmem')

theorem Scheduler.Accounted.park {s : Scheduler} {W W' E : List HANDLE}
    (h : s.Accounted W E) (hu : s.RunningThread ≠ NULL ∧ s.RunningThread ≠ s.MainThread)
    (hW : W'.Perm (s.RunningThread :: W)) :
    (UtPark s).Accounted W' E := by
  have hRU : s.RunningUser = [s.RunningThread] := Scheduler.RunningUser_of_user hu.1 hu.2
  have hsucc := @Scheduler.successor_perm s (UtPark s) W'
    (fun x hx => ⟨(h.2.1 x (by simp [hx])).1, (h.2.1 x (by simp [hx])).2.1⟩)
    (by rw [UtPark_eq]) (by rw [UtPark_eq]) (by rw [UtPark_eq])
  obtain ⟨hp, hx⟩ := hsucc
  refine h.of_perm ?_ (by rw [UtPark_eq]) (by rw [UtPark_eq]) hx
  rw [hRU]
  refine hp.trans ?_
  rw [List.perm_iff_count]
  intro x
  have := (List.perm_iff_count.mp hW) x
  simp only [List.count_append, List.count_cons, List.count_nil] at this ⊢
  omega

theorem Scheduler.Accounted.wake {s : Scheduler} {W W' E Woken : List HANDLE}
    (h : s.Accounted W E) (hu : s.RunningThread ≠ NULL ∧ s.RunningThread ≠ s.MainThread)
    (hW : W.Perm (Woken ++ W')) :
    ({ s with ReadyQueue := s.ReadyQueue ++ Woken } : Scheduler).Accounted W' E := by
  refine h.of_perm ?_ rfl rfl ?_
  · show ((s.ReadyQueue ++ Woken) ++ W' ++ s.RunningUser).Perm _
    rw [List.perm_iff_count]
    intro x
    have := (List.perm_iff_count.mp hW) x
    simp only [List.count_append, List.count_cons, List.count_nil] at this ⊢
    omega
  · intro _ hb
    exact absurd hb hu.2

theorem Scheduler.Accounted.same {s : Scheduler} {W W' E : List HANDLE}
    (h : s.Accounted W E) (hW : W'.Perm W) : s.Accounted W' E := by
  refine h.of_perm ?_ rfl rfl h.2.2.2.2
  rw [List.perm_iff_count]
  intro x
  have := (List.perm_iff_count.mp hW) x
  simp only [List.count_append, List.count_cons, List.count_nil] at this ⊢
  omega

theorem Scheduler.Accounted.forget {s : Scheduler} {W E E' : List HANDLE}
    (h : s.Accounted W E) (hE : ∀ e ∈ E', e ∈ E) : s.Accounted W E' :=
  ⟨h.1, h.2.1, h.2.2.1, fun e he => h.2.2.2.1 e (hE e he), h.2.2.2.2⟩

theorem MutexListWaiters_append (l1 l2 : List UTHREAD_MUTEX) :
    MutexListWaiters (l1 ++ l2) = MutexListWaiters l1 ++ MutexListWaiters l2 := by
  induction l1 with
  | nil => rfl
  | cons m l1 ih => simp [MutexListWaiters, ih]

theorem SemaphoreListWaiters_append (l1 l2 : List UTHREAD_SEMAPHORE) :
    SemaphoreListWaiters (l1 ++ l2) = SemaphoreListWaiters l1 ++ SemaphoreListWaiters l2 := by
  induction l1 with
  | nil => rfl
  | cons m l1 ih => simp [SemaphoreListWaiters, ih]

/-- The effect of `UtAcquireMutex` called by a user thread: either it returns at once, and
neither the wait list nor the globals change, or the caller is appended to the wait list and
parked. -/
theorem UtAcquireMutex_effect (Mutex : UTHREAD_MUTEX) (s : Scheduler) :
    (MutexWaiters (UtAcquireMutex Mutex s).1.WaitListHead = MutexWaiters Mutex.WaitListHead ∧
      (UtAcquireMutex Mutex s).2 = s) ∨
    (MutexWaiters (UtAcquireMutex Mutex s).1.WaitListHead =
        MutexWaiters Mutex.WaitListHead ++ [s.RunningThread] ∧
      (UtAcquireMutex Mutex s).2 = UtPark s) := by
  by_cases hO : Mutex.Owner = s.RunningThread
  · rw [UtAcquireMutex_owner hO]; exact Or.inl ⟨rfl, rfl⟩
  · by_cases hN : Mutex.Owner = NULL
    · rw [UtAcquireMutex_free hO hN]; exact Or.inl ⟨rfl, rfl⟩
    · rw [UtAcquireMutex_held hO hN]
      exact Or.inr ⟨MutexWaiters_append _ _, rfl⟩

/-- The effect of `UtReleaseMutex`: the threads woken (none or the first waiter) leave the
wait list and join the tail of the ready queue; nothing else in the globals changes. -/
theorem UtReleaseMutex_effect (Mutex : UTHREAD_MUTEX) (s : Scheduler) :
    ∃ Woken, MutexWaiters Mutex.WaitListHead =
        Woken ++ MutexWaiters (UtReleaseMutex Mutex s).1.WaitListHead ∧
      (UtReleaseMutex Mutex s).2 = { s with ReadyQueue := s.ReadyQueue ++ Woken } := by
  by_cases hc : ULONG.sub Mutex.RecursionCounter 1 > 0
  · rw [UtReleaseMutex_nested hc]; exact ⟨[], rfl, by simp⟩
  · cases hw : Mutex.WaitListHead with
    | nil => rw [UtReleaseMutex_free hc hw]; exact ⟨[], by simp [hw], by simp⟩
    | cons w rest =>
      rw [UtReleaseMutex_transfer hc hw]
      exact ⟨[w.Thread], rfl, rfl⟩

theorem WaitingThreads_append (l1 l2 : List SEMAPHORE_WAIT_BLOCK) :
    WaitingThreads (l1 ++ l2) = WaitingThreads l1 ++ WaitingThreads l2 := by
  simp [WaitingThreads]

/-- The effect of `UtAcquireSemaphore`: either it returns at once, and neither the wait list nor
the globals change, or the caller is appended to the wait list and parked. -/
theorem UtAcquireSemaphore_effect (Semaphore : UTHREAD_SEMAPHORE) (n : Nat) (s : Scheduler) :
    (WaitingThreads (UtAcquireSemaphore Semaphore n s).1.WaitListHead =
        WaitingThreads Semaphore.WaitListHead ∧
      (UtAcquireSemaphore Semaphore n s).2 = s) ∨
    (WaitingThreads (UtAcquireSemaphore Semaphore n s).1.WaitListHead =
        WaitingThreads Semaphore.WaitListHead ++ [s.RunningThread] ∧
      (UtAcquireSemaphore Semaphore n s).2 = UtPark s) := by
  unfold UtAcquireSemaphore
  by_cases hn : Semaphore.Permits ≥ n
  · rw [if_pos hn]; exact Or.inl ⟨rfl, rfl⟩
  · rw [if_neg hn]
    exact Or.inr ⟨WaitingThreads_append _ _, rfl⟩

/-- The effect of `UtReleaseSemaphore`: the threads woken leave the wait list and join the tail
of the ready queue; nothing else in the globals changes. -/
theorem UtReleaseSemaphore_effect (Semaphore : UTHREAD_SEMAPHORE) (n : Nat) (s : Scheduler) :
    ∃ Woken, WaitingThreads Semaphore.WaitListHead =
        Woken ++ WaitingThreads (UtReleaseSemaphore Semaphore n s).1.WaitListHead ∧
      (UtReleaseSemaphore Semaphore n s).2 = { s with ReadyQueue := s.ReadyQueue ++ Woken } := by
  obtain ⟨k, _, h1, h2⟩ := UtReleaseSemaphore.loop_shape Semaphore.WaitListHead
    (if ULONG.add Semaphore.Permits n > Semaphore.Limit then Semaphore.Limit
      else ULONG.add Semaphore.Permits n) s
  refine ⟨WaitingThreads (Semaphore.WaitListHead.take k), ?_, h2⟩
  show _ = _ ++ WaitingThreads (UtReleaseSemaphore.loop _ Semaphore.WaitListHead s).2.1
  rw [h1, ← WaitingThreads_append, List.take_append_drop]

theorem Scheduler.Accounted.acquire {s s' : Scheduler} {A B w w' E : List HANDLE}
    (h : s.Accounted (A ++ (w ++ B)) E)
    (hu : s.RunningThread ≠ NULL ∧ s.RunningThread ≠ s.MainThread)
    (heff : (w' = w ∧ s' = s) ∨ (w' = w ++ [s.RunningThread] ∧ s' = UtPark s)) :
    s'.Accounted (A ++ (w' ++ B)) E := by
  rcases heff with ⟨e1, e2⟩ | ⟨e1, e2⟩
  · rw [e1, e2]; exact h
  · rw [e1, e2]
    refine h.park hu ?_
    rw [List.perm_iff_count]
    intro x
    simp only [List.count_append, List.count_cons, List.count_nil]
    omega

theorem Scheduler.Accounted.release {s s' : Scheduler} {A B w w' E : List HANDLE}
    (h : s.Accounted (A ++ (w ++ B)) E)
    (hu : s.RunningThread ≠ NULL ∧ s.RunningThread ≠ s.MainThread)
    (heff : ∃ Woken, w = Woken ++ w' ∧ s' = { s with ReadyQueue := s.ReadyQueue ++ Woken }) :
    s'.Accounted (A ++ (w' ++ B)) E := by
  obtain ⟨Woken, e1, e2⟩ := heff
  rw [e2]
  refine h.wake hu ?_
  rw [e1, List.perm_iff_count]
  intro x
  simp only [List.count_append, List.count_cons, List.count_nil]
  omega

/-- The accounting invariant holds in every reachable state of the runtime. -/
theorem World.Reachable.accounted {σ : World} (h : World.Reachable σ) :
    σ.Globals.Accounted σ.Waiters σ.Exited := by
  induction h with
  | initial => exact Scheduler.Accounted.initial
  | create Function Argument Thread Stack _ hr hn h32 hm hf ih =>
    exact (ih.create Function Argument Thread Stack hr hn h32 hm hf).1
  | run Proxy _ hpre _ hf ih =>
    exact (ih.run Proxy hpre hf).forget (fun e he => List.mem_of_mem_filter he)
  | finish _ hr ih => exact ih.finish hr
  | yield _ hu ih => exact ih.yield hu
  | exit _ hu ih => exact (ih.exit hu).1
  | @initializeMutex σ Owned _ _ ih =>
    have e : World.Waiters { σ with Mutexes := σ.Mutexes ++ [UtInitializeMutex Owned σ.Globals] }
        = σ.Waiters := by
      simp [World.Waiters, MutexListWaiters_append, MutexListWaiters, UtInitializeMutex,
        InitializeListHead, MutexWaiters]
    show Scheduler.Accounted σ.Globals (World.Waiters _) σ.Exited
    rw [e]; exact ih
  | @initializeSemaphore σ Permits Limit _ _ ih =>
    have e : World.Waiters
        { σ with Semaphores := σ.Semaphores ++ [UtInitializeSemaphore Permits Limit] }
        = σ.Waiters := by
      simp [World.Waiters, SemaphoreListWaiters_append, SemaphoreListWaiters,
        UtInitializeSemaphore, InitializeListHead, WaitingThreads]
    show Scheduler.Accounted σ.Globals (World.Waiters _) σ.Exited
    rw [e]; exact ih
  | @acquireMutex σ Before After Mutex _ hu hdec ih =>
    have e0 : σ.Waiters = MutexListWaiters Before ++
        (MutexWaiters Mutex.WaitListHead ++
          (MutexListWaiters After ++ SemaphoreListWaiters σ.Semaphores)) := by
      simp [World.Waiters, hdec, MutexListWaiters_append, MutexListWaiters]
    rw [e0] at ih
    have := ih.acquire hu (UtAcquireMutex_effect Mutex σ.Globals)
    show Scheduler.Accounted _ (World.Waiters _) σ.Exited
    simpa [World.Waiters, MutexListWaiters_append, MutexListWaiters] using this
  | @releaseMutex σ Before After Mutex _ hu hdec _ ih =>
    have e0 : σ.Waiters = MutexListWaiters Before ++
        (MutexWaiters Mutex.WaitListHead ++
          (MutexListWaiters After ++ SemaphoreListWaiters σ.Semaphores)) := by
      simp [World.Waiters, hdec, MutexListWaiters_append, MutexListWaiters]
    rw [e0] at ih
    have := ih.release hu (UtReleaseMutex_effect Mutex σ.Globals)
    show Scheduler.Accounted _ (World.Waiters _) σ.Exited
    simpa [World.Waiters, MutexListWaiters_append, MutexListWaiters] using this
  | @acquireSemaphore σ Before After Semaphore Permits _ hu hdec ih =>
    have e0 : σ.Waiters = (MutexListWaiters σ.Mutexes ++ SemaphoreListWaiters Before) ++
        (WaitingThreads Semaphore.WaitListHead ++ SemaphoreListWaiters After) := by
      simp [World.Waiters, hdec, SemaphoreListWaiters_append, SemaphoreListWaiters]
    rw [e0] at ih
    have := ih.acquire hu (UtAcquireSemaphore_effect Semaphore Permits σ.Globals)
    show Scheduler.Accounted _ (World.Waiters _) σ.Exited
    simpa [World.Waiters, SemaphoreListWaiters_append, SemaphoreListWaiters] using this
  | @releaseSemaphore σ Before After Semaphore Permits _ hu hdec ih =>
    have e0 : σ.Waiters = (MutexListWaiters σ.Mutexes ++ SemaphoreListWaiters Before) ++
        (WaitingThreads Semaphore.WaitListHead ++ SemaphoreListWaiters After) := by
      simp [World.Waiters, hdec, SemaphoreListWaiters_append, SemaphoreListWaiters]
    rw [e0] at ih
    have := ih.release hu (UtReleaseSemaphore_effect Semaphore Permits σ.Globals)
    show Scheduler.Accounted _ (World.Waiters _) σ.Exited
    simpa [World.Waiters, SemaphoreListWaiters_append, SemaphoreListWaiters] using this

/-- In every reachable state of the runtime, an exited thread is neither `NULL` nor the main
thread. -/
theorem World.Reachable.exited_distinct {σ : World} (h : World.Reachable σ) :
    ∀ e ∈ σ.Exited, e ≠ NULL ∧ e ≠ σ.Globals.MainThread := by
  induction h with
  | initial => intro e he; cases he
  | create Function Argument Thread Stack _ _ _ _ _ _ ih =>
    intro e he
    exact ih e (List.mem_of_mem_filter he)
  | @run σ Proxy _ _ _ _ ih =>
    intro e he
    have he' := ih e (List.mem_of_mem_filter he)
    refine ⟨he'.1, ?_⟩
    cases hq : σ.Globals.ReadyQueue with
    | nil =>
      show e ≠ (UtRun Proxy σ.Globals).MainThread
      rw [UtRun_nil hq]; exact he'.2
    | cons a t =>
      show e ≠ (UtRun Proxy σ.Globals).MainThread
      rw [UtRun_cons hq]
      have := (List.mem_filter.mp he).2
      simpa using this
  | finish _ _ ih => exact ih
  | @yield σ _ _ ih =>
    intro e he
    refine ⟨(ih e he).1, ?_⟩
    show e ≠ (UtYield σ.Globals).MainThread
    cases hq : σ.Globals.ReadyQueue with
    | nil => rw [UtYield_nil hq]; exact (ih e he).2
    | cons a t => rw [UtYield_cons hq]; exact (ih e he).2
  | @exit σ _ hu ih =>
    intro e he
    show e ≠ NULL ∧ e ≠ (UtExit σ.Globals).MainThread
    rw [UtExit_eq]
    rcases List.mem_cons.mp he with e' | he
    · rw [e']; exact hu
    · exact ih e he
  | initializeMutex _ _ _ ih => exact ih
  | initializeSemaphore _ _ _ _ ih => exact ih
  | @acquireMutex σ Before After Mutex _ _ _ ih =>
    intro e he
    refine ⟨(ih e he).1, ?_⟩
    show e ≠ (UtAcquireMutex Mutex σ.Globals).2.MainThread
    rcases UtAcquireMutex_effect Mutex σ.Globals with ⟨_, e2⟩ | ⟨_, e2⟩
    · rw [e2]; exact (ih e he).2
    · rw [e2, UtPark_eq]; exact (ih e he).2
  | @releaseMutex σ Before After Mutex _ _ _ _ ih =>
    intro e he
    refine ⟨(ih e he).1, ?_⟩
    show e ≠ (UtReleaseMutex Mutex σ.Globals).2.MainThread
    obtain ⟨Woken, _, e2⟩ := UtReleaseMutex_effect Mutex σ.Globals
    rw [e2]; exact (ih e he).2
  | @acquireSemaphore σ Before After Semaphore Permits _ _ _ ih =>
    intro e he
    refine ⟨(ih e he).1, ?_⟩
    show e ≠ (UtAcquireSemaphore Semaphore Permits σ.Globals).2.MainThread
    rcases UtAcquireSemaphore_effect Semaphore Permits σ.Globals with ⟨_, e2⟩ | ⟨_, e2⟩
    · rw [e2]; exact (ih e he).2
    · rw [e2, UtPark_eq]; exact (ih e he).2
  | @releaseSemaphore σ Before After Semaphore Permits _ _ _ ih =>
    intro e he
    refine ⟨(ih e he).1, ?_⟩
    show e ≠ (UtReleaseSemaphore Semaphore Permits σ.Globals).2.MainThread
    obtain ⟨Woken, _, e2⟩ := UtReleaseSemaphore_effect Semaphore Permits σ.Globals
    rw [e2]; exact (ih e he).2

/-- In every reachable state of the runtime, an exited thread is not the running thread. -/
theorem World.Reachable.exited_not_running {σ : World} (h : World.Reachable σ) :
    ∀ e ∈ σ.Exited, e ≠ σ.Globals.RunningThread := by
  intro e he heq
  obtain ⟨h1, h2⟩ := h.exited_distinct e he
  have h4 := h.accounted.2.2.2.1 e he
  apply h4
  rw [Scheduler.RunningUser_of_user (heq ▸ h1) (heq ▸ h2), ← heq]
  simp

/-! ## Scheduler contracts -/

/-- A run of the runtime used to instantiate the theorems below: a semaphore with 0 permits and
limit 10 is initialised, thread 5 is created, `UtRun` (main thread 1) switches to it, and thread
5 asks the semaphore for one permit. It is queued and parked; the ready queue being empty, the
main thread is switched back in while thread 5 is still blocked. -/
theorem World.Reachable.blocked_example :
    World.Reachable
      { Globals := { NumberOfThreads := 1, ReadyQueue := [], RunningThread := 1, MainThread := 1 }
        Mutexes := []
        Semaphores := [{ WaitListHead := [⟨⟨5⟩, 1⟩], Permits := 0, Limit := 10 }]
        Exited := [] } := by
  have h1 : World.Reachable
      { Globals := { NumberOfThreads := 0, ReadyQueue := [], RunningThread := 0, MainThread := 0 }
        Mutexes := []
        Semaphores := [{ WaitListHead := [], Permits := 0, Limit := 10 }]
        Exited := [] } :=
    World.Reachable.initializeSemaphore 0 10 World.Reachable.initial (by decide)
  have h2 : World.Reachable
      { Globals := { NumberOfThreads := 1, ReadyQueue := [5], RunningThread := 0, MainThread := 0 }
        Mutexes := []
        Semaphores := [{ WaitListHead := [], Permits := 0, Limit := 10 }]
        Exited := [] } :=
    World.Reachable.create 100 0 5 1000 h1 (by decide) (by decide) (by decide) (by decide)
      (by decide)
  have h3 : World.Reachable
      { Globals := { NumberOfThreads := 1, ReadyQueue := [], RunningThread := 5, MainThread := 1 }
        Mutexes := []
        Semaphores := [{ WaitListHead := [], Permits := 0, Limit := 10 }]
        Exited := [] } :=
    World.Reachable.run 1 h2 rfl (by decide) (by decide)
  exact @World.Reachable.acquireSemaphore _ [] [] _ 1 h3 (by decide) rfl

/-- In every reachable state of the runtime in which a user thread runs, that thread is not on
the ready queue. -/
theorem World.Reachable.running_not_ready {σ : World} (h : World.Reachable σ)
    (hu : σ.UserThreadRuns) : σ.Globals.RunningThread ∉ σ.Globals.ReadyQueue := by
  obtain ⟨h1, _⟩ := h.accounted
  rw [Scheduler.RunningUser_of_user hu.1 hu.2, List.append_assoc] at h1
  intro hm
  have := (List.nodup_append.mp h1).2.2 hm
  exact this (by simp)

/-- Claim C13: `UtYield` called by the running thread `r`. When the ready queue is empty the
globals are unchanged: no switch happens. When the ready queue is `h :: t`, the running thread
becomes `h` and the ready queue becomes `t ++ [r]`; the thread switched to is not `r` itself
whenever `r` is not on the ready queue, which is the case in every reachable state of the
runtime in which a user thread runs. -/
theorem UtYield_contract (s : Scheduler) :
    (s.ReadyQueue = [] → UtYield s = s) ∧
    (∀ h t, s.ReadyQueue = h :: t →
      UtYield s = { s with RunningThread := h, ReadyQueue := t ++ [s.RunningThread] } ∧
      (s.RunningThread ∉ s.ReadyQueue → (UtYield s).RunningThread ≠ s.RunningThread)) ∧
    (∀ σ : World, World.Reachable σ → σ.UserThreadRuns → σ.Globals.ReadyQueue ≠ [] →
      (UtYield σ.Globals).RunningThread ≠ σ.Globals.RunningThread) := by
  have key : ∀ (s : Scheduler) h t, s.ReadyQueue = h :: t → s.RunningThread ∉ s.ReadyQueue →
      (UtYield s).RunningThread ≠ s.RunningThread := by
    intro s h t hq hr e
    rw [UtYield_cons hq] at e
    apply hr
    rw [hq]
    have e' : h = s.RunningThread := e
    rw [e']
    exact List.mem_cons_self _ _
  refine ⟨fun hq => UtYield_nil hq, ?_, ?_⟩
  · intro h t hq
    exact ⟨UtYield_cons hq, key s h t hq⟩
  · intro σ hreach hu hne
    cases hq : σ.Globals.ReadyQueue with
    | nil => exact absurd hq hne
    | cons h t => exact key σ.Globals h t hq (hreach.running_not_ready hu)

/-- The switching outcome of C13: thread 5 yields while threads 6 and 7 are ready. -/
theorem UtYield_contract_witness :
    UtYield { NumberOfThreads := 3, ReadyQueue := [6, 7], RunningThread := 5, MainThread := 1 } =
      { NumberOfThreads := 3, ReadyQueue := [7, 5], RunningThread := 6, MainThread := 1 } ∧
    (UtYield { NumberOfThreads := 3, ReadyQueue := [6, 7], RunningThread := 5, MainThread := 1 }
      ).RunningThread ≠ 5 :=
  ⟨((UtYield_contract
      { NumberOfThreads := 3, ReadyQueue := [6, 7], RunningThread := 5, MainThread := 1 }
      ).2.1 6 [7] rfl).1,
    ((UtYield_contract
      { NumberOfThreads := 3, ReadyQueue := [6, 7], RunningThread := 5, MainThread := 1 }
      ).2.1 6 [7] rfl).2 (by decide)⟩

/-- Claim C14: `UtPark` and successor selection. `UtPark` called by the running thread `r`
switches to the successor chosen by `SelectNextReadyThread`: the head of the ready queue when it
is not empty, and the queue loses exactly that head; the main thread when the queue is empty,
and the queue stays empty. Nothing is added to the ready queue, so `r`, not being queued before,
is not placed on it. In every reachable state of the runtime the main thread is not an element
of the ready queue. -/
theorem UtPark_contract (s : Scheduler) :
    (s.ReadyQueue = [] →
      SelectNextReadyThread s = (s.MainThread, s) ∧
      UtPark s = { s with RunningThread := s.MainThread } ∧ (UtPark s).ReadyQueue = []) ∧
    (∀ h t, s.ReadyQueue = h :: t →
      SelectNextReadyThread s = (h, { s with ReadyQueue := t }) ∧
      UtPark s = { s with RunningThread := h, ReadyQueue := t }) ∧
    (UtPark s).ReadyQueue = s.ReadyQueue.tail ∧
    (s.RunningThread ∉ s.ReadyQueue → s.RunningThread ∉ (UtPark s).ReadyQueue) ∧
    (∀ σ : World, World.Reachable σ → σ.Globals.MainThread ∉ σ.Globals.ReadyQueue) := by
  refine ⟨?_, ?_, ?_, ?_, ?_⟩
  · intro hq
    refine ⟨SelectNextReadyThread_nil hq, ?_, ?_⟩
    · rw [UtPark_eq, hq]
      cases s
      simp only at hq
      subst hq
      rfl
    · rw [UtPark_eq, hq]
      rfl
  · intro h t hq
    refine ⟨SelectNextReadyThread_cons hq, ?_⟩
    rw [UtPark_eq, hq]
    rfl
  · rw [UtPark_eq]
  · intro hr hm
    rw [UtPark_eq] at hm
    exact hr (List.mem_of_mem_tail hm)
  · intro σ hreach hm
    obtain ⟨_, h2, _⟩ := hreach.accounted
    exact (h2 _ (by simp [hm])).2.1 rfl

/-- Both outcomes of C14 for thread 5: with threads 6 and 7 ready, thread 6 runs next and
thread 7 stays queued; with nobody ready, the main thread 1 runs next. -/
theorem UtPark_contract_witness :
    UtPark { NumberOfThreads := 3, ReadyQueue := [6, 7], RunningThread := 5, MainThread := 1 } =
      { NumberOfThreads := 3, ReadyQueue := [7], RunningThread := 6, MainThread := 1 } ∧
    UtPark { NumberOfThreads := 1, ReadyQueue := [], RunningThread := 5, MainThread := 1 } =
      { NumberOfThreads := 1, ReadyQueue := [], RunningThread := 1, MainThread := 1 } ∧
    (1 : HANDLE) ∉ ([] : List HANDLE) :=
  ⟨((UtPark_contract
      { NumberOfThreads := 3, ReadyQueue := [6, 7], RunningThread := 5, MainThread := 1 }
      ).2.1 6 [7] rfl).2,
    ((UtPark_contract
      { NumberOfThreads := 1, ReadyQueue := [], RunningThread := 5, MainThread := 1 }
      ).1 rfl).2.1,
    (UtPark_contract
      { NumberOfThreads := 1, ReadyQueue := [], RunningThread := 5, MainThread := 1 }
      ).2.2.2.2 _ World.Reachable.blocked_example⟩

/-- Claim C15: `UtExit` called by the running thread `r`. On the globals, the thread counter
(a 32-bit value, at least 1) decreases by exactly 1, the successor (head of the ready queue,
else the main thread) becomes the running thread, the ready queue loses that head and nothing is
added to it. In every reachable state of the runtime in which a user thread runs, the counter is
such a value and the exiting thread is not on the ready queue afterwards; and in every
reachable state, a thread that has exited (and whose address has not been handed out again
since) is neither the running thread, nor on the ready queue, nor on a wait list. -/
theorem UtExit_contract :
    (∀ s : Scheduler, 1 ≤ s.NumberOfThreads → s.NumberOfThreads < ULONG_MAX1 →
      UtExit s = { s with NumberOfThreads := s.NumberOfThreads - 1
                          RunningThread := s.ReadyQueue.headD s.MainThread
                          ReadyQueue := s.ReadyQueue.tail }) ∧
    (∀ σ : World, World.Reachable σ → σ.UserThreadRuns →
      (UtExit σ.Globals).NumberOfThreads + 1 = σ.Globals.NumberOfThreads ∧
      σ.Globals.RunningThread ∉ (UtExit σ.Globals).ReadyQueue) ∧
    (∀ σ : World, World.Reachable σ → ∀ r ∈ σ.Exited,
      r ≠ σ.Globals.RunningThread ∧ r ∉ σ.Globals.ReadyQueue ∧ r ∉ σ.Waiters) := by
  refine ⟨?_, ?_, ?_⟩
  · intro s h1 h2
    rw [UtExit_eq, ULONG.sub_of_le h1 h2]
  · intro σ hreach hu
    refine ⟨(hreach.accounted.exit hu).2, ?_⟩
    intro hm
    rw [UtExit_eq] at hm
    exact hreach.running_not_ready hu (List.mem_of_mem_tail hm)
  · intro σ hreach r hr
    have h4 := hreach.accounted.2.2.2.1 r hr
    simp only [List.mem_append, not_or] at h4
    exact ⟨hreach.exited_not_running r hr, h4.1.1, h4.1.2⟩

/-- The outcome of C15 when thread 5 exits with threads 6 and 7 ready and three threads
alive. -/
theorem UtExit_contract_witness :
    UtExit { NumberOfThreads := 3, ReadyQueue := [6, 7], RunningThread := 5, MainThread := 1 } =
      { NumberOfThreads := 2, ReadyQueue := [7], RunningThread := 6, MainThread := 1 } :=
  UtExit_contract.1
    { NumberOfThreads := 3, ReadyQueue := [6, 7], RunningThread := 5, MainThread := 1 }
    (by decide) (by decide)

/-- Claim C16: `UtCreate` returns the handle of the new thread, records the function and the
argument in its descriptor, and, the thread counter being below `2 ^ 32 - 1`, increments the
counter by exactly 1 and appends the new thread at the tail of the ready queue; the threads
already queued keep their order and the running thread (none before `UtRun`, a thread inside
the scheduler) and the main thread are unchanged. In every reachable state of the runtime the
counter is below that bound, because the threads are distinct 32-bit addresses. -/
theorem UtCreate_contract (Function Argument : Nat) (Thread Stack : HANDLE) :
    (∀ s : Scheduler, s.NumberOfThreads + 1 < ULONG_MAX1 →
      (UtCreate Function Argument Thread Stack s).1 = Thread ∧
      (UtCreate Function Argument Thread Stack s).2.1.Function = Function ∧
      (UtCreate Function Argument Thread Stack s).2.1.Argument = Argument ∧
      (UtCreate Function Argument Thread Stack s).2.2 =
        { s with NumberOfThreads := s.NumberOfThreads + 1
                 ReadyQueue := s.ReadyQueue ++ [Thread] }) ∧
    (∀ σ : World, World.Reachable σ → ¬ σ.MainThreadResumed → Thread ≠ NULL →
      Thread < ULONG_MAX1 → Thread ≠ σ.Globals.MainThread → Thread ∉ σ.Threads →
      σ.Globals.NumberOfThreads + 1 < ULONG_MAX1) := by
  constructor
  · intro s h
    refine ⟨rfl, rfl, rfl, ?_⟩
    show UtUnpark Thread { s with NumberOfThreads := ULONG.add s.NumberOfThreads 1 } = _
    rw [ULONG.add_of_lt h]
    rfl
  · intro σ hreach hr hn h32 hm hf
    have h := (hreach.accounted.create Function Argument Thread Stack hr hn h32 hm hf).2
    have hlt := ULONG.add_lt σ.Globals.NumberOfThreads 1
    have e : (UtCreate Function Argument Thread Stack σ.Globals).2.2.NumberOfThreads =
        ULONG.add σ.Globals.NumberOfThreads 1 := rfl
    rw [e] at h
    omega

/-- The outcome of C16 when thread 5, running with thread 6 ready, creates thread 7. -/
theorem UtCreate_contract_witness :
    (UtCreate 100 42 7 2000
        { NumberOfThreads := 2, ReadyQueue := [6], RunningThread := 5, MainThread := 1 }).2.2 =
      { NumberOfThreads := 3, ReadyQueue := [6, 7], RunningThread := 5, MainThread := 1 } :=
  ((UtCreate_contract 100 42 7 2000).1
    { NumberOfThreads := 2, ReadyQueue := [6], RunningThread := 5, MainThread := 1 }
    (by decide)).2.2.2

/-- Claim C17: the operations that do not suspend. `UtCreate`, `UtUnpark`, `UtReleaseMutex` and
`UtReleaseSemaphore` leave the running thread unchanged; `UtSelf`, `UtInitializeMutex` and
`UtInitializeSemaphore` only read the globals, and produce the running thread, respectively the
initial mutex and semaphore; `UtUnpark` changes nothing in the globals except that it appends
its argument at the tail of the ready queue. -/
theorem NonSuspending_operations (s : Scheduler) (Function Argument : Nat)
    (Thread Stack h : HANDLE) (Mutex : UTHREAD_MUTEX) (Semaphore : UTHREAD_SEMAPHORE)
    (Owned : Bool) (Permits Limit : Nat) :
    (UtCreate Function Argument Thread Stack s).2.2.RunningThread = s.RunningThread ∧
    (UtUnpark h s).RunningThread = s.RunningThread ∧
    UtUnpark h s = { s with ReadyQueue := s.ReadyQueue ++ [h] } ∧
    UtSelf s = s.RunningThread ∧
    UtInitializeMutex Owned s =
      { WaitListHead := [], Owner := if Owned then s.RunningThread else NULL
        RecursionCounter := if Owned then 1 else 0 } ∧
    UtInitializeSemaphore Permits Limit =
      { WaitListHead := [], Permits := Permits, Limit := Limit } ∧
    (UtReleaseMutex Mutex s).2.RunningThread = s.RunningThread ∧
    (UtReleaseSemaphore Semaphore Permits s).2.RunningThread = s.RunningThread := by
  refine ⟨rfl, rfl, rfl, rfl, rfl, rfl, ?_, ?_⟩
  · obtain ⟨Woken, _, e⟩ := UtReleaseMutex_effect Mutex s
    rw [e]
  · obtain ⟨Woken, _, e⟩ := UtReleaseSemaphore_effect Semaphore Permits s
    rw [e]

/-- Claim C19: `UtRun` called with an empty ready queue while no scheduler is running returns
at once with the globals unchanged: no main thread is installed, no switch happens, the running
thread stays `NULL` and the thread counter is unchanged. -/
theorem UtRun_empty (Proxy : HANDLE) (s : Scheduler) (hq : s.ReadyQueue = [])
    (hpre : UtRun.Precondition s) :
    UtRun Proxy s = s ∧ (UtRun Proxy s).MainThread = s.MainThread ∧
    (UtRun Proxy s).RunningThread = NULL ∧
    (UtRun Proxy s).NumberOfThreads = s.NumberOfThreads := by
  rw [UtRun_nil hq]
  exact ⟨rfl, rfl, hpre, rfl⟩

/-- The outcome of C19 at the start of the program, with main-thread address 1. -/
theorem UtRun_empty_witness :
    UtRun 1 { NumberOfThreads := 0, ReadyQueue := [], RunningThread := NULL, MainThread := NULL } =
      { NumberOfThreads := 0, ReadyQueue := [], RunningThread := NULL, MainThread := NULL } :=
  (UtRun_empty 1
    { NumberOfThreads := 0, ReadyQueue := [], RunningThread := NULL, MainThread := NULL }
    rfl rfl).1

/-- Claim C18, as stated, fails: a thread that blocks on a semaphore nobody releases stays
alive. In this reachable state the main thread 1 has been switched back in, the ready queue is
empty, and thread 5 waits on the semaphore: the thread counter is 1 and the second assertion of
`UtRun` does not hold. -/
theorem UtRun_resumed_with_blocked_thread :
    ∃ σ : World, World.Reachable σ ∧ σ.MainThreadResumed ∧ σ.Globals.ReadyQueue = [] ∧
      σ.Globals.NumberOfThreads = 1 ∧ σ.Waiters = [5] ∧ ¬ UtRun.Asserted σ.Globals :=
  ⟨_, World.Reachable.blocked_example, by decide, rfl, rfl, rfl, by
    intro h
    exact absurd h.2 (by decide)⟩

/-- Claim C18, amended: in every reachable state of the runtime in which the main thread has
been switched back in, the ready queue is empty and the thread counter equals the number of
wait blocks on the wait lists of the mutexes and semaphores; the two assertions after the switch
in `UtRun` hold exactly when no thread is blocked on a synchronizer. -/
theorem UtRun_resumed (σ : World) (hreach : World.Reachable σ) (hr : σ.MainThreadResumed) :
    σ.Globals.ReadyQueue = [] ∧ σ.Globals.NumberOfThreads = σ.Waiters.length ∧
    (UtRun.Asserted σ.Globals ↔ σ.Waiters = []) := by
  obtain ⟨_, _, h3, _, h5⟩ := hreach.accounted
  have hq := h5 hr.1 hr.2
  have hn : σ.Globals.NumberOfThreads = σ.Waiters.length := by
    rw [h3, hq, Scheduler.RunningUser_of_main hr.2]
    simp
  refine ⟨hq, hn, ?_⟩
  unfold UtRun.Asserted
  rw [hq, hn]
  simp [IsListEmpty]

/-- The amended C18 in the state where thread 5 is blocked: the counter is the number of wait
blocks, 1, and the assertions fail. -/
theorem UtRun_resumed_witness :
    ({ NumberOfThreads := 1, ReadyQueue := [], RunningThread := 1, MainThread := 1 } :
        Scheduler).NumberOfThreads = [(5 : HANDLE)].length ∧
    ¬ UtRun.Asserted { NumberOfThreads := 1, ReadyQueue := [], RunningThread := 1, MainThread := 1 } :=
  ⟨(UtRun_resumed _ World.Reachable.blocked_example (by decide)).2.1,
    fun h => absurd ((UtRun_resumed _ World.Reachable.blocked_example (by decide)).2.2.mp h)
      (by decide)⟩

/-- Claim C20: the accounting invariant. In every reachable state of the runtime, the number of
threads on the ready queue, plus the number of wait blocks on all wait lists, plus 1 if a user
thread is running, equals `NumberOfThreads`. The main thread of `UtRun` is not a created thread
and counts for nothing: the only states in which it is the running thread are those inside the
last lines of `UtRun`, after the switch back; in every other reachable state the sum with
"plus 1 if some thread is running" equals `NumberOfThreads` as well. -/
theorem Accounting_invariant (σ : World) (hreach : World.Reachable σ) :
    σ.Globals.ReadyQueue.length + σ.Waiters.length +
        (if σ.Globals.RunningThread ≠ NULL ∧ σ.Globals.RunningThread ≠ σ.Globals.MainThread
          then 1 else 0) = σ.Globals.NumberOfThreads ∧
    (¬ σ.MainThreadResumed →
      σ.Globals.ReadyQueue.length + σ.Waiters.length +
        (if σ.Globals.RunningThread ≠ NULL then 1 else 0) = σ.Globals.NumberOfThreads) := by
  obtain ⟨_, _, h3, _, _⟩ := hreach.accounted
  have key : σ.Globals.ReadyQueue.length + σ.Waiters.length +
        (if σ.Globals.RunningThread ≠ NULL ∧ σ.Globals.RunningThread ≠ σ.Globals.MainThread
          then 1 else 0) = σ.Globals.NumberOfThreads := by
    rw [h3]
    unfold Scheduler.RunningUser
    split
    · simp; omega
    · simp
  refine ⟨key, ?_⟩
  intro hr
  rw [← key]
  congr 1
  by_cases h0 : σ.Globals.RunningThread = NULL
  · simp [h0]
  · have : σ.Globals.RunningThread ≠ σ.Globals.MainThread := fun e => hr ⟨h0, e⟩
    simp [h0, this]

/-- The accounting invariant of C20 in the reachable state where thread 5 is blocked on a
semaphore and the main thread 1 has been switched back in: no ready thread, one wait block, no
user thread running, and a thread counter of 1. -/
theorem Accounting_invariant_witness :
    ([] : List HANDLE).length +
      (World.Waiters
        { Globals := { NumberOfThreads := 1, ReadyQueue := [], RunningThread := 1, MainThread := 1 }
          Mutexes := []
          Semaphores := [{ WaitListHead := [⟨⟨5⟩, 1⟩], Permits := 0, Limit := 10 }]
          Exited := [] }).length +
      (if (1 : HANDLE) ≠ NULL ∧ (1 : HANDLE) ≠ 1 then 1 else 0) = 1 :=
  (Accounting_invariant _ World.Reachable.blocked_example).1

/-! ## Disjointness of the lists -/

/-- Claim C21: in every reachable state of the runtime, no thread occurs twice on the ready
queue; no thread is named by two wait blocks, be they on the same wait list or on the wait lists
of two synchronizers (`Waiters` is the concatenation of all wait lists); no thread of the ready
queue is named by a wait block; and the running thread is neither on the ready queue nor named
by a wait block. In particular the waiters of one mutex, or of one semaphore, are not waiters of
any other synchronizer. -/
theorem Lists_disjoint (σ : World) (hreach : World.Reachable σ) :
    σ.Globals.ReadyQueue.Nodup ∧ σ.Waiters.Nodup ∧
    (∀ t ∈ σ.Globals.ReadyQueue, t ∉ σ.Waiters) ∧
    σ.Globals.RunningThread ∉ σ.Globals.ReadyQueue ∧
    σ.Globals.RunningThread ∉ σ.Waiters ∧
    (∀ Before Mutex After, σ.Mutexes = Before ++ Mutex :: After →
      (MutexWaiters Mutex.WaitListHead).Nodup ∧
      ∀ t ∈ MutexWaiters Mutex.WaitListHead,
        t ∉ MutexListWaiters Before ∧ t ∉ MutexListWaiters After ∧
        t ∉ SemaphoreListWaiters σ.Semaphores) ∧
    (∀ Before Semaphore After, σ.Semaphores = Before ++ Semaphore :: After →
      (WaitingThreads Semaphore.WaitListHead).Nodup ∧
      ∀ t ∈ WaitingThreads Semaphore.WaitListHead,
        t ∉ SemaphoreListWaiters Before ∧ t ∉ SemaphoreListWaiters After ∧
        t ∉ MutexListWaiters σ.Mutexes) := by
  obtain ⟨h1, h2, _, _, _⟩ := hreach.accounted
  have hqw : (σ.Globals.ReadyQueue ++ σ.Waiters).Nodup := (List.nodup_append.mp h1).1
  have hq : σ.Globals.ReadyQueue.Nodup := (List.nodup_append.mp hqw).1
  have hw : σ.Waiters.Nodup := (List.nodup_append.mp hqw).2.1
  have hdis : ∀ t ∈ σ.Globals.ReadyQueue, t ∉ σ.Waiters :=
    fun t ht ht' => (List.nodup_append.mp hqw).2.2 ht ht'
  have hrun : σ.Globals.RunningThread ∉ σ.Globals.ReadyQueue ++ σ.Waiters := by
    intro hm
    by_cases hn : σ.Globals.RunningThread = NULL
    · exact (h2 _ (List.mem_append_left _ hm)).1 hn
    · by_cases hmain : σ.Globals.RunningThread = σ.Globals.MainThread
      · exact (h2 _ (List.mem_append_left _ hm)).2.1 hmain
      · rw [Scheduler.RunningUser_of_user hn hmain] at h1
        exact (List.nodup_append.mp h1).2.2 hm (List.mem_singleton_self _)
  refine ⟨hq, hw, hdis, fun hm => hrun (List.mem_append_left _ hm),
    fun hm => hrun (List.mem_append_right _ hm), ?_, ?_⟩
  · intro Before Mutex After hdec
    have e : σ.Waiters = MutexListWaiters Before ++ (MutexWaiters Mutex.WaitListHead ++
        (MutexListWaiters After ++ SemaphoreListWaiters σ.Semaphores)) := by
      simp [World.Waiters, hdec, MutexListWaiters_append, MutexListWaiters]
    rw [e] at hw
    have hw1 := List.nodup_append.mp hw
    have hw2 := List.nodup_append.mp hw1.2.1
    refine ⟨hw2.1, ?_⟩
    intro t ht
    refine ⟨fun hb => hw1.2.2 hb (List.mem_append_left _ ht),
      fun ha => hw2.2.2 ht (List.mem_append_left _ ha),
      fun hs => hw2.2.2 ht (List.mem_append_right _ hs)⟩
  · intro Before Semaphore After hdec
    have e : σ.Waiters = (MutexListWaiters σ.Mutexes ++ SemaphoreListWaiters Before) ++
        (WaitingThreads Semaphore.WaitListHead ++ SemaphoreListWaiters After) := by
      simp [World.Waiters, hdec, SemaphoreListWaiters_append, SemaphoreListWaiters]
    rw [e] at hw
    have hw1 := List.nodup_append.mp hw
    have hw2 := List.nodup_append.mp hw1.2.1
    refine ⟨hw2.1, ?_⟩
    intro t ht
    refine ⟨fun hb => hw1.2.2 (List.mem_append_right _ hb) (List.mem_append_left _ ht),
      fun ha => hw2.2.2 ht ha,
      fun hm => hw1.2.2 (List.mem_append_left _ hm) (List.mem_append_left _ ht)⟩

/-- The disjointness of C21 in the reachable state where thread 5 is blocked on a semaphore and
the main thread 1 has been switched back in: the running thread is not named by a wait
block. -/
theorem Lists_disjoint_witness :
    (1 : HANDLE) ∉ World.Waiters
      { Globals := { NumberOfThreads := 1, ReadyQueue := [], RunningThread := 1, MainThread := 1 }
        Mutexes := []
        Semaphores := [{ WaitListHead := [⟨⟨5⟩, 1⟩], Permits := 0, Limit := 10 }]
        Exited := [] } :=
  (Lists_disjoint _ World.Reachable.blocked_example).2.2.2.2.1

/-! ## Round trips of the synchronizers -/

/-- Recursive acquisitions by the owner add to the counter, as long as it does not wrap. -/
theorem AcquireMutexTimes_owner (k : Nat) (Mutex : UTHREAD_MUTEX) (s : Scheduler)
    (hO : Mutex.Owner = s.RunningThread) (hk : Mutex.RecursionCounter + k < ULONG_MAX1) :
    AcquireMutexTimes k (Mutex, s) =
      ({ Mutex with RecursionCounter := Mutex.RecursionCounter + k }, s) := by
  induction k generalizing Mutex with
  | zero => rfl
  | succ k ih =>
    show AcquireMutexTimes k (UtAcquireMutex Mutex s) = _
    rw [UtAcquireMutex_owner hO, ULONG.add_of_lt (by omega)]
    rw [ih { Mutex with RecursionCounter := Mutex.RecursionCounter + 1 } hO
      (by show Mutex.RecursionCounter + 1 + k < ULONG_MAX1; omega)]
    show ({ Mutex with RecursionCounter := Mutex.RecursionCounter + 1 + k }, s) = _
    rw [Nat.add_assoc, Nat.add_comm 1 k]

/-- Nested releases by the owner subtract from the counter. -/
theorem ReleaseMutexTimes_nested (k : Nat) (Mutex : UTHREAD_MUTEX) (s : Scheduler)
    (hO : Mutex.Owner = s.RunningThread) (hk : k < Mutex.RecursionCounter)
    (hc : Mutex.RecursionCounter < ULONG_MAX1) :
    ReleaseMutexTimes k (Mutex, s) =
      some ({ Mutex with RecursionCounter := Mutex.RecursionCounter - k }, s) := by
  induction k generalizing Mutex with
  | zero => rfl
  | succ k ih =>
    have hA : UtReleaseMutex.Asserted Mutex s := hO
    have hsub : ULONG.sub Mutex.RecursionCounter 1 = Mutex.RecursionCounter - 1 :=
      ULONG.sub_of_le (by omega) hc
    have hpos : ULONG.sub Mutex.RecursionCounter 1 > 0 := by rw [hsub]; omega
    show (if UtReleaseMutex.Asserted Mutex s then
        ReleaseMutexTimes k (UtReleaseMutex Mutex s) else none) = _
    rw [if_pos hA, UtReleaseMutex_nested hpos, hsub]
    rw [ih { Mutex with RecursionCounter := Mutex.RecursionCounter - 1 } hO
      (by show k < Mutex.RecursionCounter - 1; omega)
      (by show Mutex.RecursionCounter - 1 < ULONG_MAX1; omega)]
    show some ({ Mutex with RecursionCounter := Mutex.RecursionCounter - 1 - k }, s) = _
    rw [Nat.sub_sub, Nat.add_comm 1 k]

/-- Claim C22, as stated, fails when the recursion counter wraps around. Thread 5 owns the
mutex with a counter of `2 ^ 32 - 1` (a reachable state) and acquires it twice more: the counter
is then 1. Its first release frees the mutex, so that its second release is not made by the
owner: the assertion of `UtReleaseMutex` fails, and without the assertion the mutex is left free
with a counter of `2 ^ 32 - 1`. The owner is not restored. -/
theorem Mutex_round_trip_wraps :
    MutexSystem.Reachable
      (MutexSystem.start false
        { NumberOfThreads := 1, ReadyQueue := [], RunningThread := 5, MainThread := 1 })
      { Mutex := { WaitListHead := [], RecursionCounter := 4294967295, Owner := 5 }
        Globals := { NumberOfThreads := 1, ReadyQueue := [], RunningThread := 5, MainThread := 1 }
        Parked := []
        Inside := [5]
        ResumedAsOwner := true } ∧
    AcquireMutexTimes 2
        ({ WaitListHead := [], RecursionCounter := 4294967295, Owner := 5 },
          { NumberOfThreads := 1, ReadyQueue := [], RunningThread := 5, MainThread := 1 }) =
      ({ WaitListHead := [], RecursionCounter := 1, Owner := 5 },
        { NumberOfThreads := 1, ReadyQueue := [], RunningThread := 5, MainThread := 1 }) ∧
    UtReleaseMutex { WaitListHead := [], RecursionCounter := 1, Owner := 5 }
        { NumberOfThreads := 1, ReadyQueue := [], RunningThread := 5, MainThread := 1 } =
      ({ WaitListHead := [], RecursionCounter := 0, Owner := NULL },
        { NumberOfThreads := 1, ReadyQueue := [], RunningThread := 5, MainThread := 1 }) ∧
    ReleaseMutexTimes 2
        ({ WaitListHead := [], RecursionCounter := 1, Owner := 5 },
          { NumberOfThreads := 1, ReadyQueue := [], RunningThread := 5, MainThread := 1 }) =
      none ∧
    UtReleaseMutex { WaitListHead := [], RecursionCounter := 0, Owner := NULL }
        { NumberOfThreads := 1, ReadyQueue := [], RunningThread := 5, MainThread := 1 } =
      ({ WaitListHead := [], RecursionCounter := 4294967295, Owner := NULL },
        { NumberOfThreads := 1, ReadyQueue := [], RunningThread := 5, MainThread := 1 }) := by
  refine ⟨?_, by decide⟩
  have h := MutexSystem.Reachable.recursive_acquires 4294967294
  have e : (1 + 4294967294) % ULONG_MAX1 = 4294967295 := by norm_num [ULONG_MAX1]
  rw [e] at h
  exact h

/-- Claim C22, amended: let `f` be the running thread and let the mutex be free (no owner,
counter 0, empty wait list) or owned by `f` with a counter `c ≥ 1` (write `c = 0` when it is
free). For every `k ≥ 1` with `c + k < 2 ^ 32`, `k` calls of `UtAcquireMutex` by `f` leave the
mutex owned by `f` with counter `c + k`, and `k` calls of `UtReleaseMutex` by `f` that follow,
each of them made by the owner, restore the mutex (owner, counter and wait list) and leave the
scheduler globals as they were. -/
theorem Mutex_round_trip (k : Nat) (Mutex : UTHREAD_MUTEX) (s : Scheduler)
    (hf : s.RunningThread ≠ NULL) (hk : 1 ≤ k)
    (hm : (Mutex.Owner = NULL ∧ Mutex.RecursionCounter = 0 ∧ Mutex.WaitListHead = []) ∨
      (Mutex.Owner = s.RunningThread ∧ 1 ≤ Mutex.RecursionCounter))
    (hc : Mutex.RecursionCounter + k < ULONG_MAX1) :
    AcquireMutexTimes k (Mutex, s) =
      ({ Mutex with Owner := s.RunningThread
                    RecursionCounter := Mutex.RecursionCounter + k }, s) ∧
    ReleaseMutexTimes k (AcquireMutexTimes k (Mutex, s)) = some (Mutex, s) := by
  rcases hm with ⟨hO, hz, hw⟩ | ⟨hO, h1⟩
  · obtain ⟨j, rfl⟩ : ∃ j, k = j + 1 := ⟨k - 1, by omega⟩
    have hne : Mutex.Owner ≠ s.RunningThread := fun e => hf (e.symm.trans hO)
    have hacq : AcquireMutexTimes (j + 1) (Mutex, s) =
        ({ Mutex with Owner := s.RunningThread, RecursionCounter := j + 1 }, s) := by
      show AcquireMutexTimes j (UtAcquireMutex Mutex s) = _
      rw [UtAcquireMutex_free hne hO]
      rw [AcquireMutexTimes_owner j { Mutex with Owner := s.RunningThread, RecursionCounter := 1 }
        s rfl (by show 1 + j < ULONG_MAX1; omega)]
      show ({ Mutex with Owner := s.RunningThread, RecursionCounter := 1 + j }, s) = _
      rw [Nat.add_comm 1 j]
    refine ⟨by rw [hacq, hz, Nat.zero_add], ?_⟩
    rw [hacq]
    have hnest := ReleaseMutexTimes_nested j
      { Mutex with Owner := s.RunningThread, RecursionCounter := j + 1 } s rfl
      (by show j < j + 1; omega) (by show j + 1 < ULONG_MAX1; omega)
    have hsplit : ∀ (a : Nat) (τ : UTHREAD_MUTEX × Scheduler) (τ' : UTHREAD_MUTEX × Scheduler),
        ReleaseMutexTimes a τ = some τ' →
        ReleaseMutexTimes (a + 1) τ = ReleaseMutexTimes 1 τ' := by
      intro a
      induction a with
      | zero =>
        intro τ τ' h
        have e : τ = τ' := Option.some.inj h
        rw [e]
      | succ a ih =>
        intro τ τ' h
        by_cases hA : UtReleaseMutex.Asserted τ.1 τ.2
        · have h' : ReleaseMutexTimes (a + 1) τ =
              ReleaseMutexTimes a (UtReleaseMutex τ.1 τ.2) := by
            show (if UtReleaseMutex.Asserted τ.1 τ.2 then _ else none) = _
            rw [if_pos hA]
          rw [h'] at h
          show (if UtReleaseMutex.Asserted τ.1 τ.2 then
            ReleaseMutexTimes (a + 1) (UtReleaseMutex τ.1 τ.2) else none) = _
          rw [if_pos hA]
          exact ih _ _ h
        · have h' : ReleaseMutexTimes (a + 1) τ = none := by
            show (if UtReleaseMutex.Asserted τ.1 τ.2 then _ else none) = _
            rw [if_neg hA]
          rw [h'] at h
          cases h
    rw [hsplit j _ _ hnest]
    have hlast : ¬ ULONG.sub 1 1 > 0 := by decide
    have e1 : j + 1 - j = 1 := by omega
    have e2 : ULONG.sub 1 1 = 0 := by decide
    have hA : UtReleaseMutex.Asserted
        { Mutex with Owner := s.RunningThread, RecursionCounter := j + 1 - j } s :=
      Eq.refl s.RunningThread
    show (if UtReleaseMutex.Asserted
        { Mutex with Owner := s.RunningThread, RecursionCounter := j + 1 - j } s then
      ReleaseMutexTimes 0 (UtReleaseMutex
        { Mutex with Owner := s.RunningThread, RecursionCounter := j + 1 - j } s) else none) = _
    rw [if_pos hA, e1]
    rw [@UtReleaseMutex_free { Mutex with Owner := s.RunningThread, RecursionCounter := 1 } s
      hlast hw]
    show some (_, s) = some (Mutex, s)
    cases Mutex
    simp only at hO hz
    subst hO hz
    simp only [e2]
  · have hacq := AcquireMutexTimes_owner k Mutex s hO hc
    have hshape : ({ Mutex with Owner := s.RunningThread
                                RecursionCounter := Mutex.RecursionCounter + k } :
        UTHREAD_MUTEX) = { Mutex with RecursionCounter := Mutex.RecursionCounter + k } := by
      cases Mutex
      simp only at hO
      subst hO
      rfl
    refine ⟨by rw [hacq, hshape], ?_⟩
    rw [hacq]
    rw [ReleaseMutexTimes_nested k { Mutex with RecursionCounter := Mutex.RecursionCounter + k }
      s hO (by show k < Mutex.RecursionCounter + k; omega) hc]
    show some ({ Mutex with RecursionCounter := Mutex.RecursionCounter + k - k }, s) = _
    rw [Nat.add_sub_cancel]

/-- The round trip of C22 as in `Test2_Thread1`: thread 5 takes a free mutex twice and
releases it twice. -/
theorem Mutex_round_trip_witness :
    ReleaseMutexTimes 2 (AcquireMutexTimes 2
        ({ WaitListHead := [], RecursionCounter := 0, Owner := NULL },
          { NumberOfThreads := 1, ReadyQueue := [], RunningThread := 5, MainThread := 1 })) =
      some ({ WaitListHead := [], RecursionCounter := 0, Owner := NULL },
        { NumberOfThreads := 1, ReadyQueue := [], RunningThread := 5, MainThread := 1 }) :=
  (Mutex_round_trip 2 { WaitListHead := [], RecursionCounter := 0, Owner := NULL }
    { NumberOfThreads := 1, ReadyQueue := [], RunningThread := 5, MainThread := 1 }
    (by decide) (by decide) (Or.inl ⟨rfl, rfl, rfl⟩) (by decide)).2

/-- Claim C23, as stated, fails: `UtReleaseSemaphore` clamps the permits to the limit. With 10
permits out of 10, releasing 5 leaves 10 and acquiring 5 leaves 5. With 0 permits out of 10,
releasing 20 leaves 10, and the caller that then asks for 20 is queued and parked. -/
theorem Semaphore_round_trip_clamped :
    (ReleaseThenAcquire { WaitListHead := [], Permits := 10, Limit := 10 } 5
        { NumberOfThreads := 1, ReadyQueue := [], RunningThread := 5, MainThread := 1 }
      ).1.Permits = 5 ∧
    ReleaseThenAcquire { WaitListHead := [], Permits := 0, Limit := 10 } 20
        { NumberOfThreads := 1, ReadyQueue := [], RunningThread := 5, MainThread := 1 } =
      ({ WaitListHead := [⟨⟨5⟩, 20⟩], Permits := 10, Limit := 10 },
        { NumberOfThreads := 1, ReadyQueue := [], RunningThread := 1, MainThread := 1 }) := by
  decide

/-- Claim C23, amended: for a semaphore with an empty wait list and a 32-bit limit, and every
`n`: when `Permits + n ≤ Limit`, `UtReleaseSemaphore(n)` immediately followed by
`UtAcquireSemaphore(n)` returns without blocking and leaves the semaphore and the scheduler
globals as they were before the release. When `Permits + n > Limit` (and the sum fits in 32
bits) the release leaves `Limit` permits; the acquire then leaves `Limit - n` permits, fewer
than before the release, when `n ≤ Limit`, and blocks its caller when `n > Limit`. -/
theorem Semaphore_round_trip (Semaphore : UTHREAD_SEMAPHORE) (n : Nat) (s : Scheduler)
    (hw : Semaphore.WaitListHead = []) (hL : Semaphore.Limit < ULONG_MAX1) :
    (Semaphore.Permits + n ≤ Semaphore.Limit →
      ReleaseThenAcquire Semaphore n s = (Semaphore, s)) ∧
    (Semaphore.Permits + n > Semaphore.Limit → Semaphore.Permits + n < ULONG_MAX1 →
      UtReleaseSemaphore Semaphore n s = ({ Semaphore with Permits := Semaphore.Limit }, s) ∧
      (n ≤ Semaphore.Limit →
        ReleaseThenAcquire Semaphore n s =
          ({ Semaphore with Permits := Semaphore.Limit - n }, s) ∧
        Semaphore.Limit - n < Semaphore.Permits) ∧
      (n > Semaphore.Limit →
        ReleaseThenAcquire Semaphore n s =
          ({ Semaphore with
             Permits := Semaphore.Limit
             WaitListHead := [{ Header := { Thread := s.RunningThread }
                                RequestedPermits := n }] },
            UtPark s))) := by
  constructor
  · intro hle
    unfold ReleaseThenAcquire
    rw [UtReleaseSemaphore_clamps Semaphore n s hw (by omega), Nat.min_eq_left hle]
    unfold UtAcquireSemaphore
    dsimp only
    rw [if_pos (by omega), ULONG.sub_of_le (by omega) (by omega), Nat.add_sub_cancel]
  · intro hgt hsum
    have hrel : UtReleaseSemaphore Semaphore n s =
        ({ Semaphore with Permits := Semaphore.Limit }, s) := by
      rw [UtReleaseSemaphore_clamps Semaphore n s hw hsum, Nat.min_eq_right (by omega)]
    refine ⟨hrel, ?_, ?_⟩
    · intro hn
      refine ⟨?_, by omega⟩
      unfold ReleaseThenAcquire
      rw [hrel]
      unfold UtAcquireSemaphore
      dsimp only
      rw [if_pos hn, ULONG.sub_of_le hn hL]
    · intro hn
      unfold ReleaseThenAcquire
      rw [hrel]
      unfold UtAcquireSemaphore
      dsimp only
      rw [if_neg (by omega), hw]
      rfl

/-- The round trip of C23 on a semaphore with 3 permits out of 10: releasing 5 and acquiring 5
leaves 3 permits. -/
theorem Semaphore_round_trip_witness :
    ReleaseThenAcquire { WaitListHead := [], Permits := 3, Limit := 10 } 5
        { NumberOfThreads := 1, ReadyQueue := [], RunningThread := 5, MainThread := 1 } =
      ({ WaitListHead := [], Permits := 3, Limit := 10 },
        { NumberOfThreads := 1, ReadyQueue := [], RunningThread := 5, MainThread := 1 }) :=
  (Semaphore_round_trip { WaitListHead := [], Permits := 3, Limit := 10 } 5
    { NumberOfThreads := 1, ReadyQueue := [], RunningThread := 5, MainThread := 1 }
    rfl (by decide)).1 (by decide)

/-! ## The test `Test1` runs to completion -/

theorem Test1.Create_eq (Function : Nat) (Stack : HANDLE → HANDLE) (Threads : List HANDLE)
    (Index : Nat) (s : Scheduler) (h : s.NumberOfThreads + Threads.length < ULONG_MAX1) :
    Test1.Create Function Stack Threads Index s =
      { s with NumberOfThreads := s.NumberOfThreads + Threads.length
               ReadyQueue := s.ReadyQueue ++ Threads } := by
  induction Threads generalizing Index s with
  | nil => cases s; simp [Test1.Create]
  | cons t rest ih =>
    have hlen : (t :: rest).length = rest.length + 1 := rfl
    rw [hlen] at h
    have e : (UtCreate Function (48 + Index) t (Stack t) s).2.2 =
        { s with NumberOfThreads := s.NumberOfThreads + 1
                 ReadyQueue := s.ReadyQueue ++ [t] } := by
      show UtUnpark t { s with NumberOfThreads := ULONG.add s.NumberOfThreads 1 } = _
      rw [ULONG.add_of_lt (by omega)]
      rfl
    show Test1.Create Function Stack rest (Index + 1)
      (UtCreate Function (48 + Index) t (Stack t) s).2.2 = _
    rw [e, ih]
    · cases s
      simp only [hlen, List.append_assoc, List.singleton_append, Scheduler.mk.injEq, and_true,
        true_and]
      omega
    · show s.NumberOfThreads + 1 + rest.length < ULONG_MAX1
      omega

theorem Test1_Thread.step_exit {σ : Test1State} (h : σ.Yields σ.Globals.RunningThread = []) :
    Test1_Thread.step σ =
      { σ with
        Test1_Count := ULONG.add σ.Test1_Count 1
        Completed := σ.Globals.RunningThread :: σ.Completed
        Globals := UtExit σ.Globals } := by
  unfold Test1_Thread.step
  rw [h]

theorem Test1_Thread.step_loop {σ : Test1State} {Yield : Bool} {Rest : List Bool}
    (h : σ.Yields σ.Globals.RunningThread = Yield :: Rest) :
    Test1_Thread.step σ =
      { σ with
        Written := fun t => if t = σ.Globals.RunningThread then σ.Written t + 1 else σ.Written t
        Yields := fun t => if t = σ.Globals.RunningThread then Rest else σ.Yields t
        Globals := if Yield then UtYield σ.Globals else σ.Globals } := by
  unfold Test1_Thread.step
  rw [h]

theorem Test1.run_finished (n : Nat) {σ : Test1State}
    (h : σ.Globals.RunningThread = σ.Globals.MainThread) : Test1.run n σ = σ := by
  cases n with
  | zero => rfl
  | succ n =>
    show (if σ.Globals.RunningThread = σ.Globals.MainThread then σ else _) = σ
    rw [if_pos h]

theorem Test1.run_step (n : Nat) {σ : Test1State}
    (h : σ.Globals.RunningThread ≠ σ.Globals.MainThread) :
    Test1.run (n + 1) σ = Test1.run n (Test1_Thread.step σ) := by
  show (if σ.Globals.RunningThread = σ.Globals.MainThread then σ else _) = _
  rw [if_neg h]

/-- The number of steps left changes only through the thread whose iterations change. -/
theorem Test1.Steps_congr {L : List HANDLE} {f g : HANDLE → List Bool}
    (h : ∀ t ∈ L, f t = g t) : Test1.Steps L f = Test1.Steps L g := by
  unfold Test1.Steps
  congr 1
  apply List.map_congr_left
  intro t ht
  rw [h t ht]

theorem Test1.Steps_perm {L L' : List HANDLE} (f : HANDLE → List Bool) (h : L.Perm L') :
    Test1.Steps L f = Test1.Steps L' f := by
  unfold Test1.Steps
  exact (h.map _).sum_eq

theorem Test1.Steps_cons (r : HANDLE) (L : List HANDLE) (f : HANDLE → List Bool) :
    Test1.Steps (r :: L) f = (f r).length + 1 + Test1.Steps L f := by
  simp [Test1.Steps]

/-- One step of the running thread keeps the invariant and uses up one of the steps left, or
it is the exit of the last thread and the test has finished. -/
theorem Test1.Invariant.step {Proxy : HANDLE} {Threads : List HANDLE}
    {Yields : HANDLE → List Bool} {σ : Test1State}
    (h : Test1.Invariant Proxy Threads Yields σ) (hnd : Threads.Nodup)
    (hlen : Threads.length < ULONG_MAX1) :
    (Test1.Invariant Proxy Threads Yields (Test1_Thread.step σ) ∧
      Test1.Steps ((Test1_Thread.step σ).Globals.RunningThread ::
          (Test1_Thread.step σ).Globals.ReadyQueue) (Test1_Thread.step σ).Yields + 1 =
        Test1.Steps (σ.Globals.RunningThread :: σ.Globals.ReadyQueue) σ.Yields) ∨
    Test1.Finished Proxy Threads Yields (Test1_Thread.step σ) := by
  obtain ⟨hM, hR, hQ, hP, hN, hC, hW, hD⟩ := h
  have hnd' : (σ.Completed ++ σ.Globals.RunningThread :: σ.Globals.ReadyQueue).Nodup :=
    hP.nodup_iff.mpr hnd
  have hlen' : σ.Completed.length + (σ.Globals.ReadyQueue.length + 1) = Threads.length := by
    have := hP.length_eq
    simpa using this
  have hrq : σ.Globals.RunningThread ∉ σ.Globals.ReadyQueue :=
    (List.nodup_cons.mp (List.nodup_append.mp hnd').2.1).1
  have hrc : σ.Globals.RunningThread ∉ σ.Completed := fun hm =>
    (List.nodup_append.mp hnd').2.2 hm (List.mem_cons_self _ _)
  cases hy : σ.Yields σ.Globals.RunningThread with
  | nil =>
    rw [Test1_Thread.step_exit hy]
    have hsub : ULONG.sub σ.Globals.NumberOfThreads 1 = σ.Globals.ReadyQueue.length := by
      rw [ULONG.sub_of_le (by omega) (by omega), hN]
      omega
    have hadd : ULONG.add σ.Test1_Count 1 = σ.Completed.length + 1 := by
      rw [ULONG.add_of_lt (by omega), hC]
    cases hq : σ.Globals.ReadyQueue with
    | nil =>
      right
      rw [hq] at hP hlen' hsub
      have hP' : (σ.Globals.RunningThread :: σ.Completed).Perm Threads := by
        refine List.Perm.trans ?_ hP
        rw [List.perm_iff_count]
        intro x
        simp only [List.count_append, List.count_cons, List.count_nil]
        omega
      have hG : UtExit σ.Globals =
          { σ.Globals with NumberOfThreads := 0, RunningThread := σ.Globals.MainThread
                           ReadyQueue := [] } := by
        rw [UtExit_eq, hsub, hq]
        rfl
      refine ⟨?_, ?_, ?_, ?_, ?_, ?_, hP', ?_⟩
      · show (UtExit σ.Globals).MainThread = Proxy
        rw [hG]; exact hM
      · show (UtExit σ.Globals).RunningThread = Proxy
        rw [hG]; exact hM
      · show (UtExit σ.Globals).ReadyQueue = []
        rw [hG]
      · show (UtExit σ.Globals).NumberOfThreads = 0
        rw [hG]
      · show UtRun.Asserted (UtExit σ.Globals)
        rw [hG]
        exact ⟨rfl, rfl⟩
      · show ULONG.add σ.Test1_Count 1 = Threads.length
        rw [hadd]
        simpa using hlen'
      · intro t ht
        have hy' : σ.Yields t = [] := by
          rcases List.mem_cons.mp (hP'.mem_iff.mpr ht) with e | e
          · rw [e]; exact hy
          · exact hD t e
        refine ⟨?_, hy'⟩
        have := hW t
        rw [hy'] at this
        simpa using this
    | cons a rest =>
      left
      rw [hq] at hP hlen' hsub hrq hQ
      have hG : UtExit σ.Globals =
          { σ.Globals with NumberOfThreads := rest.length + 1, RunningThread := a
                           ReadyQueue := rest } := by
        rw [UtExit_eq, hsub, hq]
        rfl
      refine ⟨⟨?_, ?_, ?_, ?_, ?_, ?_, hW, ?_⟩, ?_⟩
      · show (UtExit σ.Globals).MainThread = Proxy
        rw [hG]; exact hM
      · show (UtExit σ.Globals).RunningThread ≠ Proxy
        rw [hG]; exact hQ a (List.mem_cons_self _ _)
      · show ∀ t ∈ (UtExit σ.Globals).ReadyQueue, t ≠ Proxy
        rw [hG]
        exact fun t ht => hQ t (List.mem_cons_of_mem _ ht)
      · show ((σ.Globals.RunningThread :: σ.Completed) ++
          (UtExit σ.Globals).RunningThread :: (UtExit σ.Globals).ReadyQueue).Perm Threads
        rw [hG]
        refine List.Perm.trans ?_ hP
        rw [List.perm_iff_count]
        intro x
        simp only [List.count_append, List.count_cons, List.count_nil]
        omega
      · show (UtExit σ.Globals).NumberOfThreads = (UtExit σ.Globals).ReadyQueue.length + 1
        rw [hG]
      · show ULONG.add σ.Test1_Count 1 = (σ.Globals.RunningThread :: σ.Completed).length
        rw [hadd]
        rfl
      · intro t ht
        rcases List.mem_cons.mp ht with e | e
        · rw [e]; exact hy
        · exact hD t e
      · show Test1.Steps ((UtExit σ.Globals).RunningThread :: (UtExit σ.Globals).ReadyQueue)
          σ.Yields + 1 = _
        rw [hG, Test1.Steps_cons σ.Globals.RunningThread, hy]
        show Test1.Steps (a :: rest) σ.Yields + 1 = _
        simp only [List.length_nil]
        omega
  | cons d Rest =>
    left
    rw [Test1_Thread.step_loop hy]
    have hW' : ∀ t, (if t = σ.Globals.RunningThread then σ.Written t + 1 else σ.Written t) +
        (if t = σ.Globals.RunningThread then Rest else σ.Yields t).length =
          (Yields t).length := by
      intro t
      by_cases e : t = σ.Globals.RunningThread
      · rw [if_pos e, if_pos e]
        have := hW t
        rw [e] at this ⊢
        rw [hy] at this
        simp only [List.length_cons] at this
        omega
      · rw [if_neg e, if_neg e]
        exact hW t
    have hD' : ∀ t ∈ σ.Completed,
        (if t = σ.Globals.RunningThread then Rest else σ.Yields t) = [] := by
      intro t ht
      have e : t ≠ σ.Globals.RunningThread := fun e => hrc (e ▸ ht)
      rw [if_neg e]
      exact hD t ht
    have hS : ∀ L : List HANDLE, L.Perm (σ.Globals.RunningThread :: σ.Globals.ReadyQueue) →
        Test1.Steps L (fun t => if t = σ.Globals.RunningThread then Rest else σ.Yields t) + 1 =
          Test1.Steps (σ.Globals.RunningThread :: σ.Globals.ReadyQueue) σ.Yields := by
      intro L hL
      rw [Test1.Steps_perm _ hL, Test1.Steps_cons, Test1.Steps_cons, if_pos rfl, hy]
      rw [Test1.Steps_congr (L := σ.Globals.ReadyQueue) (g := σ.Yields)]
      · simp only [List.length_cons]
        omega
      · intro t ht
        have e : t ≠ σ.Globals.RunningThread := fun e => hrq (e ▸ ht)
        rw [if_neg e]
    by_cases hsw : d = true ∧ σ.Globals.ReadyQueue ≠ []
    · obtain ⟨hd, hne⟩ := hsw
      cases hq : σ.Globals.ReadyQueue with
      | nil => exact absurd hq hne
      | cons a rest =>
        have hG : (if d = true then UtYield σ.Globals else σ.Globals) =
            { σ.Globals with RunningThread := a
                             ReadyQueue := rest ++ [σ.Globals.RunningThread] } := by
          rw [if_pos hd, UtYield_cons hq]
        rw [hG]
        have hperm : (a :: (rest ++ [σ.Globals.RunningThread])).Perm
            (σ.Globals.RunningThread :: σ.Globals.ReadyQueue) := by
          rw [hq, List.perm_iff_count]
          intro x
          simp only [List.count_append, List.count_cons, List.count_nil]
          omega
        have hS' := hS _ hperm
        rw [hq] at hS'
        refine ⟨⟨hM, ?_, ?_, ?_, ?_, hC, hW', hD'⟩, hS'⟩
        · exact hQ a (by rw [hq]; exact List.mem_cons_self _ _)
        · intro t ht
          have ht' : t ∈ rest ++ [σ.Globals.RunningThread] := ht
          rcases List.mem_append.mp ht' with e | e
          · exact hQ t (by rw [hq]; exact List.mem_cons_of_mem _ e)
          · rw [List.mem_singleton.mp e]; exact hR
        · show (σ.Completed ++ a :: (rest ++ [σ.Globals.RunningThread])).Perm Threads
          refine List.Perm.trans ?_ hP
          rw [hq, List.perm_iff_count]
          intro x
          simp only [List.count_append, List.count_cons, List.count_nil]
          omega
        · show σ.Globals.NumberOfThreads = (rest ++ [σ.Globals.RunningThread]).length + 1
          rw [hN, hq]
          simp
    · have hG : (if d = true then UtYield σ.Globals else σ.Globals) = σ.Globals := by
        by_cases hd : d = true
        · rw [if_pos hd]
          have hq : σ.Globals.ReadyQueue = [] := by
            by_contra hne
            exact hsw ⟨hd, hne⟩
          exact UtYield_nil hq
        · rw [if_neg hd]
      rw [hG]
      exact ⟨⟨hM, hR, hQ, hP, hN, hC, hW', hD'⟩, hS _ (List.Perm.refl _)⟩

/-- With at least as many steps as are left, the threads run until the test has finished. -/
theorem Test1.Invariant.run_finishes {Proxy : HANDLE} {Threads : List HANDLE}
    {Yields : HANDLE → List Bool} (hnd : Threads.Nodup) (hlen : Threads.length < ULONG_MAX1)
    (n : Nat) (σ : Test1State) (h : Test1.Invariant Proxy Threads Yields σ)
    (hn : Test1.Steps (σ.Globals.RunningThread :: σ.Globals.ReadyQueue) σ.Yields ≤ n) :
    Test1.Finished Proxy Threads Yields (Test1.run n σ) := by
  induction n generalizing σ with
  | zero =>
    rw [Test1.Steps_cons] at hn
    omega
  | succ n ih =>
    have hne : σ.Globals.RunningThread ≠ σ.Globals.MainThread := by
      rw [h.1]; exact h.2.1
    rw [Test1.run_step n hne]
    rcases h.step hnd hlen with ⟨hinv, hsteps⟩ | hfin
    · exact ih _ hinv (by omega)
    · rw [Test1.run_finished n (hfin.2.1.trans hfin.1.symm)]
      exact hfin

/-- When `UtRun` has switched to the first thread the invariant holds, and the steps left are
the steps of all the threads. -/
theorem Test1.start_holds (Function : Nat) (Stack : HANDLE → HANDLE) (Proxy : HANDLE)
    (Threads : List HANDLE) (Yields : HANDLE → List Bool) (hne : Threads ≠ [])
    (hlen : Threads.length < ULONG_MAX1) (hP : ∀ t ∈ Threads, t ≠ Proxy) :
    Test1.Invariant Proxy Threads Yields (Test1.start Function Stack Proxy Threads Yields) ∧
    Test1.Steps
      ((Test1.start Function Stack Proxy Threads Yields).Globals.RunningThread ::
        (Test1.start Function Stack Proxy Threads Yields).Globals.ReadyQueue)
      (Test1.start Function Stack Proxy Threads Yields).Yields = Test1.Steps Threads Yields := by
  cases Threads with
  | nil => exact absurd rfl hne
  | cons a rest =>
    have hG : (Test1.start Function Stack Proxy (a :: rest) Yields).Globals =
        { NumberOfThreads := rest.length + 1, ReadyQueue := rest, RunningThread := a
          MainThread := Proxy } := by
      show UtRun Proxy (Test1.Create Function Stack (a :: rest) 0 _) = _
      rw [Test1.Create_eq _ _ _ _ _ (by simpa using hlen)]
      rw [UtRun_cons (h := a) (t := rest) (by simp)]
      simp
    refine ⟨⟨?_, ?_, ?_, ?_, ?_, rfl, fun t => by simp [Test1.start], ?_⟩, ?_⟩
    · rw [hG]
    · rw [hG]; exact hP a (List.mem_cons_self _ _)
    · rw [hG]; exact fun t ht => hP t (List.mem_cons_of_mem _ ht)
    · rw [hG]; exact List.Perm.refl _
    · rw [hG]
    · intro t ht
      cases ht
    · rw [hG]
      rfl

/-- Claim C24: the test `Test1` with any number `N ≥ 1` of threads, created before `UtRun` at
pairwise distinct addresses, each running a loop of finitely many iterations (thread `t` runs
`(Yields t).length` iterations, writes one character in each and calls `UtYield` in those where
`Yields t` says so) and then incrementing `Test1_Count` and calling `UtExit`. For every choice
of `Yields`, after `Test1.Steps Threads Yields` steps of the threads (and for every larger
bound) the main thread has been switched back in with an empty ready queue and
`NumberOfThreads = 0`, so that the assertions of `UtRun` hold and `UtRun` returns with
`RunningThread = NULL`; `Test1_Count` is `N`; the threads that completed are the threads
created, each of them once; and every thread has written exactly as many characters as its loop
has iterations. -/
theorem Test1_runs_to_completion (Function : Nat) (Stack : HANDLE → HANDLE) (Proxy : HANDLE)
    (Threads : List HANDLE) (Yields : HANDLE → List Bool) (n : Nat) (σ : Test1State)
    (hne : Threads ≠ []) (hnd : Threads.Nodup)
    (hT : ∀ t ∈ Threads, t ≠ NULL ∧ t ≠ Proxy ∧ t < ULONG_MAX1)
    (hn : Test1.Steps Threads Yields ≤ n)
    (hσ : σ = Test1.run n (Test1.start Function Stack Proxy Threads Yields)) :
    σ.Globals = { NumberOfThreads := 0, ReadyQueue := [], RunningThread := Proxy
                  MainThread := Proxy } ∧
    UtRun.Asserted σ.Globals ∧
    UtRun.Resumed σ.Globals = { NumberOfThreads := 0, ReadyQueue := [], RunningThread := NULL
                                MainThread := Proxy } ∧
    σ.Test1_Count = Threads.length ∧
    σ.Completed.Perm Threads ∧ σ.Completed.Nodup ∧
    (∀ t ∈ Threads, σ.Written t = (Yields t).length ∧ σ.Yields t = []) := by
  have hlen : Threads.length < ULONG_MAX1 :=
    length_lt_of_addresses hnd (fun t ht => ⟨(hT t ht).1, (hT t ht).2.2⟩)
  obtain ⟨hinv, hsteps⟩ := Test1.start_holds Function Stack Proxy Threads Yields hne hlen
    (fun t ht => (hT t ht).2.1)
  have hfin := Test1.Invariant.run_finishes hnd hlen n _ hinv (by rw [hsteps]; exact hn)
  rw [← hσ] at hfin
  obtain ⟨h1, h2, h3, h4, h5, h6, h7, h8⟩ := hfin
  have hG : σ.Globals = { NumberOfThreads := 0, ReadyQueue := [], RunningThread := Proxy
                          MainThread := Proxy } := by
    cases hg : σ.Globals with
    | mk c q r m =>
      rw [hg] at h1 h2 h3 h4
      simp only at h1 h2 h3 h4
      rw [h1, h2, h3, h4]
  refine ⟨hG, h5, ?_, h6, h7, h7.nodup_iff.mpr hnd, h8⟩
  rw [hG]
  rfl

/-- The test of C24 with two threads: thread 5 runs two iterations and yields in the first,
thread 6 runs one iteration without yielding. After 5 steps both have completed, thread 6
first. -/
theorem Test1_runs_to_completion_witness :
    (Test1.run 5 (Test1.start 100 (fun t => t + 1000) 1 [5, 6]
        (fun t => if t = 5 then [true, false] else [false]))).Globals =
      { NumberOfThreads := 0, ReadyQueue := [], RunningThread := 1, MainThread := 1 } ∧
    (Test1.run 5 (Test1.start 100 (fun t => t + 1000) 1 [5, 6]
        (fun t => if t = 5 then [true, false] else [false]))).Test1_Count = 2 ∧
    (Test1.run 5 (Test1.start 100 (fun t => t + 1000) 1 [5, 6]
        (fun t => if t = 5 then [true, false] else [false]))).Written 5 = 2 :=
  ⟨(Test1_runs_to_completion 100 (fun t => t + 1000) 1 [5, 6]
      (fun t => if t = 5 then [true, false] else [false]) 5 _
      (by decide) (by decide) (by decide) (by decide) rfl).1,
    (Test1_runs_to_completion 100 (fun t => t + 1000) 1 [5, 6]
      (fun t => if t = 5 then [true, false] else [false]) 5 _
      (by decide) (by decide) (by decide) (by decide) rfl).2.2.2.1,
    ((Test1_runs_to_completion 100 (fun t => t + 1000) 1 [5, 6]
      (fun t => if t = 5 then [true, false] else [false]) 5 _
      (by decide) (by decide) (by decide) (by decide) rfl).2.2.2.2.2.2 5 (by decide)).1⟩

/-! ## Layout of the saved context -/

/-- Going down by one word in 32 bits. -/
theorem ULONG.sub_four {x : Nat} (hx : x < ULONG_MAX1) :
    ULONG.sub x 4 < ULONG_MAX1 ∧
    ((4 ≤ x ∧ ULONG.sub x 4 + 4 = x) ∨ (x < 4 ∧ ULONG.sub x 4 = x + 4294967292)) := by
  simp only [ULONG.sub, ULONG_MAX1] at *
  split <;> omega

/-- Going up by one word in 32 bits. -/
theorem ULONG.add_four {x : Nat} (hx : x < ULONG_MAX1) :
    (x + 4 < ULONG_MAX1 ∧ ULONG.add x 4 = x + 4) ∨
    (ULONG_MAX1 ≤ x + 4 ∧ ULONG.add x 4 + 4294967292 = x) := by
  simp only [ULONG.add, ULONG_MAX1] at *
  omega

theorem StoreWord_same (Memory : Nat → Nat) (a v : Nat) : StoreWord Memory a v a = v := by
  simp [StoreWord]

theorem StoreWord_other (Memory : Nat → Nat) {a b : Nat} (v : Nat) (h : b ≠ a) :
    StoreWord Memory a v b = Memory b := by
  simp [StoreWord, h]

theorem ULONG.add_sub_four {x : Nat} (hx : x < ULONG_MAX1) :
    ULONG.add (ULONG.sub x 4) 4 = x := by
  obtain ⟨l1, s1⟩ := ULONG.sub_four hx
  have u1 := ULONG.add_four l1
  simp only [ULONG_MAX1] at *
  omega

theorem ULONG.sub_four_ne {x : Nat} (hx : x < ULONG_MAX1) :
    x ≠ ULONG.sub x 4 ∧ x ≠ ULONG.sub (ULONG.sub x 4) 4 ∧
    x ≠ ULONG.sub (ULONG.sub (ULONG.sub x 4) 4) 4 ∧
    x ≠ ULONG.sub (ULONG.sub (ULONG.sub (ULONG.sub x 4) 4) 4) 4 := by
  obtain ⟨l1, s1⟩ := ULONG.sub_four hx
  obtain ⟨l2, s2⟩ := ULONG.sub_four l1
  obtain ⟨l3, s3⟩ := ULONG.sub_four l2
  obtain ⟨l4, s4⟩ := ULONG.sub_four l3
  simp only [ULONG_MAX1] at *
  omega

/-- The frame pushed by the switch-out half is popped back by the switch-in half. -/
theorem ContextSwitch.round_trip (RetAddr : Nat) (r : Registers) (Memory : Nat → Nat)
    (hE : r.ESP < ULONG_MAX1) :
    ContextSwitch.SwitchIn (ContextSwitch.SwitchOut RetAddr r Memory).1
        (ContextSwitch.SwitchOut RetAddr r Memory).2 =
      { r with EIP := RetAddr } := by
  have l1 := ULONG.sub_lt r.ESP 4
  have l2 := ULONG.sub_lt (ULONG.sub r.ESP 4) 4
  have l3 := ULONG.sub_lt (ULONG.sub (ULONG.sub r.ESP 4) 4) 4
  have l4 := ULONG.sub_lt (ULONG.sub (ULONG.sub (ULONG.sub r.ESP 4) 4) 4) 4
  have e1 := ULONG.add_sub_four hE
  have e2 := ULONG.add_sub_four l1
  have e3 := ULONG.add_sub_four l2
  have e4 := ULONG.add_sub_four l3
  have e5 := ULONG.add_sub_four l4
  have n1 := ULONG.sub_four_ne l1
  have n2 := ULONG.sub_four_ne l2
  have n3 := ULONG.sub_four_ne l3
  have n4 := ULONG.sub_four_ne l4
  unfold ContextSwitch.SwitchIn ContextSwitch.SwitchOut Push Pop
  dsimp only
  generalize ULONG.sub r.ESP 4 = a1 at *
  generalize ULONG.sub a1 4 = a2 at *
  generalize ULONG.sub a2 4 = a3 at *
  generalize ULONG.sub a3 4 = a4 at *
  generalize ULONG.sub a4 4 = a5 at *
  rw [e5, e4, e3, e2, e1]
  rw [StoreWord_same, StoreWord_other _ _ n4.1, StoreWord_same, StoreWord_other _ _ n3.2.1,
    StoreWord_other _ _ n3.1, StoreWord_same, StoreWord_other _ _ n2.2.2.1,
    StoreWord_other _ _ n2.2.1, StoreWord_other _ _ n2.1, StoreWord_same,
    StoreWord_other _ _ n1.2.2.2, StoreWord_other _ _ n1.2.2.1, StoreWord_other _ _ n1.2.1,
    StoreWord_other _ _ n1.1, StoreWord_same]

/-- The switch-in half reads nothing but the five words of the frame. -/
theorem ContextSwitch.SwitchIn_congr (ThreadContext : Nat) (m m' : Nat → Nat)
    (h : ∀ a ∈ ContextSwitch.Frame ThreadContext, m' a = m a) :
    ContextSwitch.SwitchIn ThreadContext m' = ContextSwitch.SwitchIn ThreadContext m := by
  have h0 := h ThreadContext (by simp [ContextSwitch.Frame, List.iterate])
  have h1 := h (ULONG.add ThreadContext 4) (by simp [ContextSwitch.Frame, List.iterate])
  have h2 := h (ULONG.add (ULONG.add ThreadContext 4) 4)
    (by simp [ContextSwitch.Frame, List.iterate])
  have h3 := h (ULONG.add (ULONG.add (ULONG.add ThreadContext 4) 4) 4)
    (by simp [ContextSwitch.Frame, List.iterate])
  have h4 := h (ULONG.add (ULONG.add (ULONG.add (ULONG.add ThreadContext 4) 4) 4) 4)
    (by simp [ContextSwitch.Frame, List.iterate])
  unfold ContextSwitch.SwitchIn Pop
  dsimp only
  rw [h0, h1, h2, h3, h4]

/-- The first switch into a thread pops the frame that `UtCreate` has written. -/
theorem UtCreate.first_switch (Stack InternalStart : Nat) (Memory : Nat → Nat)
    (hS : Stack + STACK_SIZE ≤ ULONG_MAX1) :
    ContextSwitch.SwitchIn (Stack + STACK_SIZE - 4 - UTHREAD_CONTEXT_SIZE)
        (UtCreate.InitialStack Stack InternalStart Memory) =
      { EDI := 0x33333333, ESI := 0x22222222, EBX := 0x11111111, EBP := 0
        ESP := Stack + STACK_SIZE - 4, EIP := InternalStart } ∧
    UtCreate.InitialStack Stack InternalStart Memory (Stack + STACK_SIZE - 4) = 0 := by
  have htc : Stack + STACK_SIZE - 4 - UTHREAD_CONTEXT_SIZE = Stack + 65512 := by
    simp only [STACK_SIZE, UTHREAD_CONTEXT_SIZE]
    omega
  have htop : Stack + STACK_SIZE - 4 = Stack + 65532 := by
    simp only [STACK_SIZE]
    omega
  have hS' : Stack + 65536 ≤ 4294967296 := by
    simpa only [STACK_SIZE, ULONG_MAX1] using hS
  have p1 : ULONG.add (Stack + 65512) 4 = Stack + 65516 :=
    ULONG.add_of_lt (by simp only [ULONG_MAX1]; omega)
  have p2 : ULONG.add (Stack + 65516) 4 = Stack + 65520 :=
    ULONG.add_of_lt (by simp only [ULONG_MAX1]; omega)
  have p3 : ULONG.add (Stack + 65520) 4 = Stack + 65524 :=
    ULONG.add_of_lt (by simp only [ULONG_MAX1]; omega)
  have p4 : ULONG.add (Stack + 65524) 4 = Stack + 65528 :=
    ULONG.add_of_lt (by simp only [ULONG_MAX1]; omega)
  have p5 : ULONG.add (Stack + 65528) 4 = Stack + 65532 :=
    ULONG.add_of_lt (by simp only [ULONG_MAX1]; omega)
  unfold ContextSwitch.SwitchIn Pop UtCreate.InitialStack
  dsimp only
  rw [htc, htop, p1, p2, p3, p4, p5]
  have q0 : Stack + 65512 + 8 = Stack + 65520 := by omega
  have q1 : Stack + 65512 + 4 = Stack + 65516 := by omega
  have q2 : Stack + 65512 + 12 = Stack + 65524 := by omega
  have q3 : Stack + 65512 + 16 = Stack + 65528 := by omega
  rw [q0, q1, q2, q3]
  have n (a b : Nat) (h : a ≠ b) : Stack + a ≠ Stack + b := by omega
  refine ⟨?_, ?_⟩
  · rw [StoreWord_other _ _ (n 65512 65528 (by omega)),
      StoreWord_other _ _ (n 65512 65524 (by omega)), StoreWord_same,
      StoreWord_other _ _ (n 65516 65528 (by omega)),
      StoreWord_other _ _ (n 65516 65524 (by omega)),
      StoreWord_other _ _ (n 65516 65512 (by omega)), StoreWord_same,
      StoreWord_other _ _ (n 65520 65528 (by omega)),
      StoreWord_other _ _ (n 65520 65524 (by omega)),
      StoreWord_other _ _ (n 65520 65512 (by omega)),
      StoreWord_other _ _ (n 65520 65516 (by omega)), StoreWord_same,
      StoreWord_other _ _ (n 65524 65528 (by omega)), StoreWord_same, StoreWord_same]
  · rw [StoreWord_other _ _ (n 65532 65528 (by omega)),
      StoreWord_other _ _ (n 65532 65524 (by omega)),
      StoreWord_other _ _ (n 65532 65512 (by omega)),
      StoreWord_other _ _ (n 65532 65516 (by omega)),
      StoreWord_other _ _ (n 65532 65520 (by omega))]
    have hz : Stack ≤ Stack + 65532 ∧ Stack + 65532 + 4 ≤ Stack + STACK_SIZE := by
      simp only [STACK_SIZE]
      omega
    rw [if_pos hz]

/-- Claim C25: the layout of the saved context, with the stack modelled as an array of words.
For every state of the registers (the stack pointer a 32-bit value) and every return address,
the frame that the `call` and the switch-out half of `ContextSwitch` push (return address, then
`ebp`, `ebx`, `esi`, `edi`) is popped by the switch-in half (`edi`, `esi`, `ebx`, `ebp`, `ret`)
from the saved stack pointer, whatever has happened to the rest of the memory in between: the
thread resumes with the same `EDI`, `ESI`, `EBX`, `EBP` and stack pointer, at the return
address. The context that `UtCreate` prepares lies at
`Stack + STACK_SIZE - 4 - sizeof(UTHREAD_CONTEXT)`, inside the stack with one word above it;
the first switch into the thread pops `EBP = 0` and continues at `InternalStart`, with the
stack pointer at the highest word of the stack, which is 0. -/
theorem ContextSwitch_layout (RetAddr : Nat) (r : Registers) (Memory : Nat → Nat)
    (Function Argument InternalStart : Nat) (Thread Stack : HANDLE) (s : Scheduler)
    (hE : r.ESP < ULONG_MAX1) (hS : Stack + STACK_SIZE ≤ ULONG_MAX1) :
    (∀ Later : Nat → Nat,
      (∀ a ∈ ContextSwitch.Frame (ContextSwitch.SwitchOut RetAddr r Memory).1,
        Later a = (ContextSwitch.SwitchOut RetAddr r Memory).2 a) →
      ContextSwitch.SwitchIn (ContextSwitch.SwitchOut RetAddr r Memory).1 Later =
        { EDI := r.EDI, ESI := r.ESI, EBX := r.EBX, EBP := r.EBP, ESP := r.ESP
          EIP := RetAddr }) ∧
    (UtCreate Function Argument Thread Stack s).2.1.ThreadContext =
      Stack + STACK_SIZE - 4 - UTHREAD_CONTEXT_SIZE ∧
    Stack ≤ (UtCreate Function Argument Thread Stack s).2.1.ThreadContext ∧
    (UtCreate Function Argument Thread Stack s).2.1.ThreadContext + UTHREAD_CONTEXT_SIZE + 4 =
      Stack + STACK_SIZE ∧
    STACK_SIZE = 65536 ∧
    (∀ Later : Nat → Nat,
      (∀ a ∈ ContextSwitch.Frame (UtCreate Function Argument Thread Stack s).2.1.ThreadContext,
        Later a = UtCreate.InitialStack Stack InternalStart Memory a) →
      ContextSwitch.SwitchIn (UtCreate Function Argument Thread Stack s).2.1.ThreadContext
          Later =
        { EDI := 0x33333333, ESI := 0x22222222, EBX := 0x11111111, EBP := 0
          ESP := Stack + STACK_SIZE - 4, EIP := InternalStart }) ∧
    UtCreate.InitialStack Stack InternalStart Memory (Stack + STACK_SIZE - 4) = 0 := by
  have htc : (UtCreate Function Argument Thread Stack s).2.1.ThreadContext =
      Stack + STACK_SIZE - 4 - UTHREAD_CONTEXT_SIZE := rfl
  have hfirst := UtCreate.first_switch Stack InternalStart Memory hS
  refine ⟨?_, htc, ?_, ?_, rfl, ?_, hfirst.2⟩
  · intro Later hL
    rw [ContextSwitch.SwitchIn_congr _ _ _ hL, ContextSwitch.round_trip RetAddr r Memory hE]
  · have h : ∀ S : Nat, S ≤ S + 16 * 4096 - 4 - 20 := fun S => by omega
    exact h Stack
  · have h : ∀ S : Nat, S + 16 * 4096 - 4 - 20 + 20 + 4 = S + 16 * 4096 := fun S => by omega
    exact h Stack
  · intro Later hL
    rw [ContextSwitch.SwitchIn_congr _ _ _ hL, htc, hfirst.1]

/-- The layout of C25 on an example: a thread with `EDI = 1`, `ESI = 2`, `EBX = 3`, `EBP = 4`
and stack pointer 1000 is switched out at return address 4096 and switched in again. -/
theorem ContextSwitch_layout_witness :
    ContextSwitch.SwitchIn
        (ContextSwitch.SwitchOut 4096
          { EDI := 1, ESI := 2, EBX := 3, EBP := 4, ESP := 1000, EIP := 0 } (fun _ => 0)).1
        (ContextSwitch.SwitchOut 4096
          { EDI := 1, ESI := 2, EBX := 3, EBP := 4, ESP := 1000, EIP := 0 } (fun _ => 0)).2 =
      { EDI := 1, ESI := 2, EBX := 3, EBP := 4, ESP := 1000, EIP := 4096 } :=
  (ContextSwitch_layout 4096 { EDI := 1, ESI := 2, EBX := 3, EBP := 4, ESP := 1000, EIP := 0 }
    (fun _ => 0) 100 0 200 5 70000
    { NumberOfThreads := 0, ReadyQueue := [], RunningThread := NULL, MainThread := NULL }
    (by decide) (by decide)).1 _ (fun _ _ => rfl)

/-! ## Waiters and the owner of a mutex -/

theorem MutexSystem.ReachableHeld.to_reachable {σ0 σ : MutexSystem}
    (h : MutexSystem.ReachableHeld σ0 σ) : MutexSystem.Reachable σ0 σ := by
  induction h with
  | start => exact .start
  | acquire _ hu ih => exact .acquire ih hu
  | release _ hu hA ih => exact .release ih hu hA
  | yield _ hu ih => exact .yield ih hu
  | exit _ hu _ ih => exact .exit ih hu

theorem MutexSystem.Resume_Globals (τ : MutexSystem) : τ.Resume.Globals = τ.Globals := by
  unfold MutexSystem.Resume
  split <;> rfl

theorem MutexSystem.AcquireMutex_Globals (σ : MutexSystem) :
    σ.AcquireMutex.Globals = (UtAcquireMutex σ.Mutex σ.Globals).2 := by
  unfold MutexSystem.AcquireMutex
  split
  · rfl
  · rw [MutexSystem.Resume_Globals]

theorem MutexSystem.Yield_Globals (σ : MutexSystem) :
    σ.Yield.Globals = UtYield σ.Globals := by
  unfold MutexSystem.Yield
  cases hq : σ.Globals.ReadyQueue with
  | nil =>
    rw [UtYield_nil hq]
    simp [IsListEmpty]
  | cons a t =>
    rw [if_neg (by simp [IsListEmpty]), MutexSystem.Resume_Globals]

theorem MutexSystem.Exit_Globals (σ : MutexSystem) :
    σ.Exit.Globals = UtExit σ.Globals := by
  unfold MutexSystem.Exit
  rw [MutexSystem.Resume_Globals]

/-- In every reachable state the owner of the mutex is not named by a wait block of its wait
list. -/
theorem MutexSystem.Reachable.owner_not_waiter {Owned : Bool} {s : Scheduler} {σ : MutexSystem}
    (hwf : s.WellFormed) (hOwned : Owned = true → s.RunningThread ≠ NULL)
    (h : MutexSystem.Reachable (MutexSystem.start Owned s) σ) :
    σ.Mutex.Owner ∉ MutexWaiters σ.Mutex.WaitListHead := by
  induction h with
  | start =>
    intro hm
    cases Owned <;> cases hm
  | @acquire σ hr hu ih =>
    have hinv := hr.invariant (MutexSystem.start_invariant Owned s hwf hOwned)
    rw [MutexSystem.AcquireMutex_Mutex]
    by_cases hO : σ.Mutex.Owner = σ.Globals.RunningThread
    · rw [UtAcquireMutex_owner hO]
      exact ih
    · by_cases hN : σ.Mutex.Owner = NULL
      · rw [UtAcquireMutex_free hO hN]
        exact hinv.1.running_not_waiter
      · rw [UtAcquireMutex_held hO hN]
        show σ.Mutex.Owner ∉
          MutexWaiters (σ.Mutex.WaitListHead ++ [{ Thread := σ.Globals.RunningThread }])
        rw [MutexWaiters_append]
        intro hm
        rcases List.mem_append.mp hm with hm | hm
        · exact ih hm
        · exact hO (List.mem_singleton.mp hm)
  | @release σ hr hu hA ih =>
    have hinv := hr.invariant (MutexSystem.start_invariant Owned s hwf hOwned)
    rw [MutexSystem.ReleaseMutex_Mutex]
    by_cases hc : ULONG.sub σ.Mutex.RecursionCounter 1 > 0
    · rw [UtReleaseMutex_nested hc]
      exact ih
    · cases hw : σ.Mutex.WaitListHead with
      | nil =>
        rw [UtReleaseMutex_free hc hw]
        show NULL ∉ MutexWaiters σ.Mutex.WaitListHead
        rw [hw]
        intro hm
        cases hm
      | cons w rest =>
        rw [UtReleaseMutex_transfer hc hw]
        show w.Thread ∉ MutexWaiters rest
        have hnd := hinv.1.waiters_nodup
        rw [hw] at hnd
        exact (List.nodup_cons.mp hnd).1
  | yield _ _ ih => rw [MutexSystem.Yield_Mutex]; exact ih
  | exit _ _ ih => rw [MutexSystem.Exit_Mutex]; exact ih

/-- As long as no thread exits while it owns the mutex, the owner of the mutex is the running
thread or is on the ready queue. -/
theorem MutexSystem.ReachableHeld.owner_live {Owned : Bool} {s : Scheduler} {σ : MutexSystem}
    (h : MutexSystem.ReachableHeld (MutexSystem.start Owned s) σ) :
    σ.Mutex.Owner ≠ NULL →
      σ.Mutex.Owner = σ.Globals.RunningThread ∨ σ.Mutex.Owner ∈ σ.Globals.ReadyQueue := by
  have hsucc : ∀ (g : Scheduler) (o : HANDLE), o ∈ g.ReadyQueue →
      o = g.ReadyQueue.headD g.MainThread ∨ o ∈ g.ReadyQueue.tail := by
    intro g o ho
    cases hq : g.ReadyQueue with
    | nil => rw [hq] at ho; cases ho
    | cons a t =>
      rw [hq] at ho
      rcases List.mem_cons.mp ho with e | e
      · exact Or.inl e
      · exact Or.inr e
  induction h with
  | start =>
    intro hO
    cases Owned with
    | false => exact absurd rfl hO
    | true => exact Or.inl rfl
  | @acquire σ hr hu ih =>
    rw [MutexSystem.AcquireMutex_Mutex, MutexSystem.AcquireMutex_Globals]
    by_cases hO : σ.Mutex.Owner = σ.Globals.RunningThread
    · rw [UtAcquireMutex_owner hO]
      intro _
      exact Or.inl hO
    · by_cases hN : σ.Mutex.Owner = NULL
      · rw [UtAcquireMutex_free hO hN]
        intro _
        exact Or.inl rfl
      · rw [UtAcquireMutex_held hO hN, UtPark_eq]
        intro _
        rcases ih hN with e | e
        · exact absurd e hO
        · exact hsucc σ.Globals σ.Mutex.Owner e
  | @release σ hr hu hA ih =>
    have hO : σ.Mutex.Owner = σ.Globals.RunningThread := hA
    rw [MutexSystem.ReleaseMutex_Mutex]
    show _ → _ = (UtReleaseMutex σ.Mutex σ.Globals).2.RunningThread ∨
      _ ∈ (UtReleaseMutex σ.Mutex σ.Globals).2.ReadyQueue
    by_cases hc : ULONG.sub σ.Mutex.RecursionCounter 1 > 0
    · rw [UtReleaseMutex_nested hc]
      intro _
      exact Or.inl hO
    · cases hw : σ.Mutex.WaitListHead with
      | nil =>
        rw [UtReleaseMutex_free hc hw]
        intro e
        exact absurd rfl e
      | cons w rest =>
        rw [UtReleaseMutex_transfer hc hw]
        intro _
        exact Or.inr (List.mem_append_right _ (List.mem_singleton_self _))
  | @yield σ hr hu ih =>
    rw [MutexSystem.Yield_Mutex, MutexSystem.Yield_Globals]
    intro hN
    cases hq : σ.Globals.ReadyQueue with
    | nil =>
      rw [UtYield_nil hq]
      exact ih hN
    | cons a t =>
      rw [UtYield_cons hq]
      rcases ih hN with e | e
      · exact Or.inr (List.mem_append_right _ (List.mem_singleton.mpr e))
      · rw [hq] at e
        rcases List.mem_cons.mp e with e | e
        · exact Or.inl e
        · exact Or.inr (List.mem_append_left _ e)
  | @exit σ hr hu hne ih =>
    rw [MutexSystem.Exit_Mutex, MutexSystem.Exit_Globals, UtExit_eq]
    intro hN
    rcases ih hN with e | e
    · exact absurd e hne
    · exact hsucc σ.Globals σ.Mutex.Owner e

/-- Claim C26: for a mutex initialised by `UtInitializeMutex` (as owned only by a running
thread) and then used by user threads through `UtAcquireMutex` and `UtReleaseMutex` (release
only by the owner), in every reachable state: if the wait list is not empty then the mutex has
an owner, and the owner is not named by a wait block of that wait list; a free mutex has an
empty wait list; the release by the owner that brings the counter from 1 to 0 makes the first
waiter the owner and puts it on the ready queue; and, as long as no thread exits while it owns
the mutex, the owner is alive: it is the running thread or it is on the ready queue. -/
theorem Mutex_no_stranded_waiter (Owned : Bool) (s : Scheduler) (σ : MutexSystem)
    (hwf : s.WellFormed) (hOwned : Owned = true → s.RunningThread ≠ NULL) :
    (MutexSystem.Reachable (MutexSystem.start Owned s) σ →
      (σ.Mutex.WaitListHead ≠ [] →
        σ.Mutex.Owner ≠ NULL ∧ σ.Mutex.Owner ∉ MutexWaiters σ.Mutex.WaitListHead) ∧
      (σ.Mutex.Owner = NULL → σ.Mutex.WaitListHead = []) ∧
      (∀ w rest, σ.Mutex.WaitListHead = w :: rest → σ.Mutex.RecursionCounter = 1 →
        (UtReleaseMutex σ.Mutex σ.Globals).1.Owner = w.Thread ∧
        (UtReleaseMutex σ.Mutex σ.Globals).1.WaitListHead = rest ∧
        w.Thread ∈ (UtReleaseMutex σ.Mutex σ.Globals).2.ReadyQueue)) ∧
    (MutexSystem.ReachableHeld (MutexSystem.start Owned s) σ →
      σ.Mutex.WaitListHead ≠ [] →
        σ.Mutex.Owner = σ.Globals.RunningThread ∨ σ.Mutex.Owner ∈ σ.Globals.ReadyQueue) := by
  have hfree : MutexSystem.Reachable (MutexSystem.start Owned s) σ →
      σ.Mutex.WaitListHead ≠ [] → σ.Mutex.Owner ≠ NULL :=
    fun h hw hO => hw (h.free_mutex hwf hOwned hO).2
  constructor
  · intro h
    refine ⟨fun hw => ⟨hfree h hw, h.owner_not_waiter hwf hOwned⟩,
      fun hO => (h.free_mutex hwf hOwned hO).2, ?_⟩
    intro w rest hw hr
    rw [UtReleaseMutex_handoff σ.Mutex σ.Globals w rest hr hw]
    exact ⟨rfl, rfl, List.mem_append_right _ (List.mem_singleton_self _)⟩
  · intro h hw
    exact h.owner_live (hfree h.to_reachable hw)

/-- The statement of C26 in the state where thread 5 has taken the mutex and yielded, and
thread 6 has then asked for the mutex and is queued: the mutex has an owner, which is not on the
wait list. -/
theorem Mutex_no_stranded_waiter_witness :
    (MutexSystem.start false
        { NumberOfThreads := 2, ReadyQueue := [6], RunningThread := 5, MainThread := 1 }
      ).AcquireMutex.Yield.AcquireMutex.Mutex =
      { WaitListHead := [{ Thread := 6 }], RecursionCounter := 1, Owner := 5 } ∧
    (5 : HANDLE) ≠ NULL ∧ (5 : HANDLE) ∉ MutexWaiters [{ Thread := 6 }] :=
  ⟨by decide,
    ((Mutex_no_stranded_waiter false
      { NumberOfThreads := 2, ReadyQueue := [6], RunningThread := 5, MainThread := 1 }
      (MutexSystem.start false
        { NumberOfThreads := 2, ReadyQueue := [6], RunningThread := 5, MainThread := 1 }
        ).AcquireMutex.Yield.AcquireMutex
      (by unfold Scheduler.WellFormed; decide) (by decide)).1
      (MutexSystem.Reachable.acquire
        (MutexSystem.Reachable.yield
          (MutexSystem.Reachable.acquire MutexSystem.Reachable.start
            (by unfold MutexSystem.UserThreadRuns; decide))
          (by unfold MutexSystem.UserThreadRuns; decide))
        (by unfold MutexSystem.UserThreadRuns; decide))).1 (by decide)⟩

/-! ## Acquisitions not yet released -/

theorem MutexRegion.Reachable.system {ρ0 ρ : MutexRegion} (h : MutexRegion.Reachable ρ0 ρ) :
    MutexSystem.Reachable ρ0.System ρ.System := by
  induction h with
  | start => exact .start
  | acquire _ hu ih => exact .acquire ih hu
  | release _ hu hA ih => exact .release ih hu hA
  | yield _ hu ih => exact .yield ih hu
  | exit _ hu ih => exact .exit ih hu

theorem MutexSystem.Resume_Parked (τ : MutexSystem) :
    τ.Resume.Parked =
      if τ.Globals.RunningThread ∈ τ.Parked then
        τ.Parked.filter (fun t => t ≠ τ.Globals.RunningThread)
      else τ.Parked := by
  unfold MutexSystem.Resume
  split <;> rfl

/-- A thread that continues from the `UtPark` of `UtAcquireMutex` and finds the assertion true
is the owner, with recursion 1. -/
theorem MutexSystem.Resume_owner {τ : MutexSystem} (h : τ.Resume.ResumedAsOwner = true)
    (hp : τ.Globals.RunningThread ∈ τ.Parked) :
    τ.Mutex.Owner = τ.Globals.RunningThread ∧ τ.Mutex.RecursionCounter = 1 := by
  unfold MutexSystem.Resume at h
  rw [if_pos hp] at h
  simp only [Bool.and_eq_true, decide_eq_true_eq] at h
  exact ⟨h.1.2, h.2⟩

theorem MutexSystem.AcquireMutex_now {σ : MutexSystem}
    (h : σ.Mutex.Owner = UtSelf σ.Globals ∨ σ.Mutex.Owner = NULL) :
    σ.AcquireMutex =
      { σ with
        Mutex := (UtAcquireMutex σ.Mutex σ.Globals).1
        Globals := (UtAcquireMutex σ.Mutex σ.Globals).2
        Inside :=
          if UtSelf σ.Globals ∈ σ.Inside then σ.Inside else UtSelf σ.Globals :: σ.Inside } := by
  unfold MutexSystem.AcquireMutex
  rw [if_pos h]

theorem MutexSystem.AcquireMutex_blocked {σ : MutexSystem}
    (h : ¬ (σ.Mutex.Owner = UtSelf σ.Globals ∨ σ.Mutex.Owner = NULL)) :
    σ.AcquireMutex =
      MutexSystem.Resume
        { σ with
          Mutex := (UtAcquireMutex σ.Mutex σ.Globals).1
          Globals := (UtAcquireMutex σ.Mutex σ.Globals).2
          Parked := UtSelf σ.Globals :: σ.Parked } := by
  unfold MutexSystem.AcquireMutex
  rw [if_neg h]

theorem MutexSystem.Yield_switch {σ : MutexSystem} (h : σ.Globals.ReadyQueue ≠ []) :
    σ.Yield = MutexSystem.Resume { σ with Globals := UtYield σ.Globals } := by
  unfold MutexSystem.Yield
  rw [if_neg (by cases hq : σ.Globals.ReadyQueue <;> simp_all [IsListEmpty])]

theorem MutexSystem.Yield_stay {σ : MutexSystem} (h : σ.Globals.ReadyQueue = []) :
    σ.Yield = σ := by
  unfold MutexSystem.Yield
  rw [if_pos (by rw [h]; rfl)]

/-- The wait list of a thread switched to, seen from the state in which it continues. -/
theorem MutexSystem.Resume_waiters_parked {τ : MutexSystem}
    (hK : ∀ t ∈ MutexWaiters τ.Mutex.WaitListHead, t ∈ τ.Parked)
    (hrw : τ.Globals.RunningThread ∉ MutexWaiters τ.Mutex.WaitListHead) :
    ∀ t ∈ MutexWaiters τ.Resume.Mutex.WaitListHead, t ∈ τ.Resume.Parked := by
  rw [MutexSystem.Resume_Mutex, MutexSystem.Resume_Parked]
  by_cases hp : τ.Globals.RunningThread ∈ τ.Parked
  · rw [if_pos hp]
    intro t ht
    refine List.mem_filter.mpr ⟨hK t ht, ?_⟩
    have : t ≠ τ.Globals.RunningThread := fun e => hrw (e ▸ ht)
    simpa using this
  · rw [if_neg hp]
    exact hK

/-- In every reachable state, the threads named by the wait blocks of the mutex are suspended in
`UtAcquireMutex`. -/
theorem MutexSystem.Reachable.waiters_parked {Owned : Bool} {s : Scheduler} {σ : MutexSystem}
    (hwf : s.WellFormed) (hOwned : Owned = true → s.RunningThread ≠ NULL)
    (h : MutexSystem.Reachable (MutexSystem.start Owned s) σ) :
    ∀ t ∈ MutexWaiters σ.Mutex.WaitListHead, t ∈ σ.Parked := by
  induction h with
  | start =>
    intro t ht
    cases Owned <;> cases ht
  | @acquire σ hr hu ih =>
    have hinv' := (MutexSystem.Reachable.acquire hr hu).invariant
      (MutexSystem.start_invariant Owned s hwf hOwned)
    by_cases hnow : σ.Mutex.Owner = UtSelf σ.Globals ∨ σ.Mutex.Owner = NULL
    · rw [MutexSystem.AcquireMutex_now hnow]
      show ∀ t ∈ MutexWaiters (UtAcquireMutex σ.Mutex σ.Globals).1.WaitListHead, t ∈ σ.Parked
      by_cases hO : σ.Mutex.Owner = σ.Globals.RunningThread
      · rw [UtAcquireMutex_owner hO]; exact ih
      · have hN : σ.Mutex.Owner = NULL := hnow.resolve_left hO
        rw [UtAcquireMutex_free hO hN]; exact ih
    · have hO : σ.Mutex.Owner ≠ σ.Globals.RunningThread := fun e => hnow (Or.inl e)
      have hN : σ.Mutex.Owner ≠ NULL := fun e => hnow (Or.inr e)
      rw [MutexSystem.AcquireMutex_blocked hnow] at hinv' ⊢
      apply MutexSystem.Resume_waiters_parked
      · show ∀ t ∈ MutexWaiters (UtAcquireMutex σ.Mutex σ.Globals).1.WaitListHead,
          t ∈ σ.Globals.RunningThread :: σ.Parked
        rw [UtAcquireMutex_held hO hN]
        show ∀ t ∈ MutexWaiters (σ.Mutex.WaitListHead ++ [{ Thread := σ.Globals.RunningThread }]),
          t ∈ σ.Globals.RunningThread :: σ.Parked
        rw [MutexWaiters_append]
        intro t ht
        rcases List.mem_append.mp ht with ht | ht
        · exact List.mem_cons_of_mem _ (ih t ht)
        · rw [List.mem_singleton.mp ht]; exact List.mem_cons_self _ _
      · have := hinv'.1.running_not_waiter
        rw [MutexSystem.Resume_Globals, MutexSystem.Resume_Mutex] at this
        exact this
  | @release σ hr hu hA ih =>
    have hinv := hr.invariant (MutexSystem.start_invariant Owned s hwf hOwned)
    have hO : σ.Mutex.Owner = σ.Globals.RunningThread := hA
    by_cases hc : ULONG.sub σ.Mutex.RecursionCounter 1 > 0
    · rw [MutexSystem.ReleaseMutex_nested_eq hc hO]
      exact ih
    · cases hw : σ.Mutex.WaitListHead with
      | nil =>
        rw [MutexSystem.ReleaseMutex_free_eq hc hw hu.1]
        show ∀ t ∈ MutexWaiters σ.Mutex.WaitListHead, t ∈ σ.Parked
        exact ih
      | cons w rest =>
        have hwr : w.Thread ≠ σ.Globals.RunningThread := by
          intro e
          apply hinv.1.running_not_waiter
          rw [hw, ← e]
          exact List.mem_cons_self _ _
        rw [MutexSystem.ReleaseMutex_transfer_eq hc hw hwr]
        show ∀ t ∈ MutexWaiters rest, t ∈ σ.Parked
        intro t ht
        apply ih
        rw [hw]
        exact List.mem_cons_of_mem _ ht
  | @yield σ hr hu ih =>
    have hinv' := (MutexSystem.Reachable.yield hr hu).invariant
      (MutexSystem.start_invariant Owned s hwf hOwned)
    by_cases hq : σ.Globals.ReadyQueue = []
    · rw [MutexSystem.Yield_stay hq]; exact ih
    · rw [MutexSystem.Yield_switch hq] at hinv' ⊢
      apply MutexSystem.Resume_waiters_parked
      · exact ih
      · have := hinv'.1.running_not_waiter
        rw [MutexSystem.Resume_Globals, MutexSystem.Resume_Mutex] at this
        exact this
  | @exit σ hr hu ih =>
    have hinv' := (MutexSystem.Reachable.exit hr hu).invariant
      (MutexSystem.start_invariant Owned s hwf hOwned)
    unfold MutexSystem.Exit at hinv' ⊢
    apply MutexSystem.Resume_waiters_parked
    · exact ih
    · have := hinv'.1.running_not_waiter
      rw [MutexSystem.Resume_Globals, MutexSystem.Resume_Mutex] at this
      exact this

/-- The invariant `Counted` when the thread switched to continues. -/
theorem MutexRegion.Counted.resume {τ : MutexSystem} {A : HANDLE → Nat}
    (hC : MutexRegion.Counted τ.Mutex τ.Parked A)
    (hnp : NULL ∉ τ.Parked) (hres : τ.Resume.ResumedAsOwner = true) :
    MutexRegion.Counted τ.Resume.Mutex τ.Resume.Parked
        (MutexRegion.Resume τ.Parked τ.Globals.RunningThread A) := by
  rw [MutexSystem.Resume_Mutex, MutexSystem.Resume_Parked]
  unfold MutexRegion.Resume
  by_cases hp : τ.Globals.RunningThread ∈ τ.Parked
  · rw [if_pos hp, if_pos hp]
    obtain ⟨hO, hc⟩ := MutexSystem.Resume_owner hres hp
    obtain ⟨ha, hb, _, hd, he, hf⟩ := hC
    have hn : τ.Globals.RunningThread ≠ NULL := fun e => hnp (e ▸ hp)
    refine ⟨?_, ?_, ?_, hd, he, ?_⟩
    · intro t ht
      have ht' : t ≠ τ.Globals.RunningThread := hO ▸ ht
      unfold MutexRegion.Enter
      rw [if_neg ht']
      exact ha t ht
    · intro hm
      have := (List.mem_filter.mp hm).2
      rw [hO] at this
      simp at this
    · intro _ _
      unfold MutexRegion.Enter
      rw [if_pos hO, hb (hO ▸ hp), hc]
    · unfold MutexRegion.Enter
      rw [if_neg (fun e => hn e.symm)]
      exact hf
  · rw [if_neg hp, if_neg hp]
    exact hC

/-- As long as the recursion counter has not wrapped around, the acquisitions are tied to the
mutex in every reachable state. -/
theorem MutexRegion.Reachable.counted {Owned : Bool} {s : Scheduler} {ρ : MutexRegion}
    (hwf : s.WellFormed) (hOwned : Owned = true → s.RunningThread ≠ NULL)
    (h : MutexRegion.Reachable (MutexRegion.start Owned s) ρ) :
    ρ.Wrapped = false → MutexRegion.Counted ρ.System.Mutex ρ.System.Parked ρ.Acquired := by
  have h0 := MutexSystem.start_invariant Owned s hwf hOwned
  induction h with
  | start =>
    intro _
    cases Owned with
    | false =>
      exact ⟨fun _ _ => rfl, fun _ => rfl, fun _ hn => absurd rfl hn, fun hn => absurd rfl hn,
        (by decide : (0 : Nat) < ULONG_MAX1), rfl⟩
    | true =>
      have hr := hOwned rfl
      refine ⟨?_, ?_, ?_, ?_, (by decide : (1 : Nat) < ULONG_MAX1), ?_⟩
      · intro t ht
        show (if true = true ∧ t = UtSelf s then 1 else 0) = 0
        rw [if_neg (fun e => ht e.2)]
      · intro hm
        cases hm
      · intro _ _
        show (if true = true ∧ UtSelf s = UtSelf s then 1 else 0) = 1
        rw [if_pos ⟨rfl, rfl⟩]
      · intro _
        exact Nat.le_refl 1
      · show (if true = true ∧ NULL = UtSelf s then 1 else 0) = 0
        rw [if_neg (fun e => hr e.2.symm)]
  | @acquire ρ hr hu ih =>
    have hinv := hr.system.invariant h0
    have hinv' : ρ.System.AcquireMutex.Invariant :=
      (MutexRegion.Reachable.acquire hr hu).system.invariant h0
    intro hW
    have hW' : ρ.Wrapped = false ∧
        ¬ (ρ.System.Mutex.Owner = UtSelf ρ.System.Globals ∧
          ULONG_MAX1 ≤ ρ.System.Mutex.RecursionCounter + 1) := by
      have : (ρ.Wrapped || decide (ρ.System.Mutex.Owner = UtSelf ρ.System.Globals ∧
          ULONG_MAX1 ≤ ρ.System.Mutex.RecursionCounter + 1)) = false := hW
      simpa using this
    obtain ⟨ha, hb, hc, hd, he, hf⟩ := ih hW'.1
    have hrp : ρ.System.Globals.RunningThread ∉ ρ.System.Parked := hinv.2
    by_cases hnow : ρ.System.Mutex.Owner = UtSelf ρ.System.Globals ∨ ρ.System.Mutex.Owner = NULL
    · show MutexRegion.Counted ρ.System.AcquireMutex.Mutex ρ.System.AcquireMutex.Parked
        (if ρ.System.Mutex.Owner = UtSelf ρ.System.Globals ∨ ρ.System.Mutex.Owner = NULL then
          MutexRegion.Enter ρ.Acquired (UtSelf ρ.System.Globals)
        else _)
      rw [if_pos hnow, MutexSystem.AcquireMutex_now hnow]
      show MutexRegion.Counted (UtAcquireMutex ρ.System.Mutex ρ.System.Globals).1 ρ.System.Parked
        (MutexRegion.Enter ρ.Acquired ρ.System.Globals.RunningThread)
      by_cases hO : ρ.System.Mutex.Owner = ρ.System.Globals.RunningThread
      · rw [UtAcquireMutex_owner hO]
        have hlt : ρ.System.Mutex.RecursionCounter + 1 < ULONG_MAX1 := by
          have := hW'.2
          simp only [not_and, not_le] at this
          exact this hO
        have hAc := hc (hO ▸ hrp) (hO ▸ hu.1)
        refine ⟨?_, ?_, ?_, ?_, ?_, ?_⟩
        · intro t ht
          have ht' : t ≠ ρ.System.Globals.RunningThread := hO ▸ ht
          unfold MutexRegion.Enter
          rw [if_neg ht']
          exact ha t ht
        · intro hm
          exact absurd hm (hO ▸ hrp)
        · intro _ _
          show MutexRegion.Enter ρ.Acquired ρ.System.Globals.RunningThread ρ.System.Mutex.Owner =
            ULONG.add ρ.System.Mutex.RecursionCounter 1
          unfold MutexRegion.Enter
          rw [if_pos hO, hAc, ULONG.add_of_lt hlt]
        · intro _
          show 1 ≤ ULONG.add ρ.System.Mutex.RecursionCounter 1
          rw [ULONG.add_of_lt hlt]
          omega
        · exact ULONG.add_lt _ _
        · unfold MutexRegion.Enter
          rw [if_neg (fun e => hu.1 e.symm)]
          exact hf
      · have hN : ρ.System.Mutex.Owner = NULL := hnow.resolve_left hO
        rw [UtAcquireMutex_free hO hN]
        refine ⟨?_, ?_, ?_, ?_, (by decide : (1 : Nat) < ULONG_MAX1), ?_⟩
        · intro t ht
          have ht' : t ≠ ρ.System.Globals.RunningThread := ht
          unfold MutexRegion.Enter
          rw [if_neg ht']
          by_cases hn : t = NULL
          · rw [hn]; exact hf
          · exact ha t (hN ▸ hn)
        · intro hm
          exact absurd hm hrp
        · intro _ _
          show MutexRegion.Enter ρ.Acquired ρ.System.Globals.RunningThread
            ρ.System.Globals.RunningThread = 1
          unfold MutexRegion.Enter
          rw [if_pos rfl, ha _ (fun e => hO e.symm)]
        · intro _
          exact Nat.le_refl 1
        · unfold MutexRegion.Enter
          rw [if_neg (fun e => hu.1 e.symm)]
          exact hf
    · have hO : ρ.System.Mutex.Owner ≠ ρ.System.Globals.RunningThread :=
        fun e => hnow (Or.inl e)
      have hN : ρ.System.Mutex.Owner ≠ NULL := fun e => hnow (Or.inr e)
      show MutexRegion.Counted ρ.System.AcquireMutex.Mutex ρ.System.AcquireMutex.Parked
        (if ρ.System.Mutex.Owner = UtSelf ρ.System.Globals ∨ ρ.System.Mutex.Owner = NULL then _
        else MutexRegion.Resume (UtSelf ρ.System.Globals :: ρ.System.Parked)
          (UtAcquireMutex ρ.System.Mutex ρ.System.Globals).2.RunningThread ρ.Acquired)
      rw [if_neg hnow]
      rw [MutexSystem.AcquireMutex_blocked hnow] at hinv' ⊢
      refine MutexRegion.Counted.resume ?_ ?_ hinv'.1.resumed
      · show MutexRegion.Counted (UtAcquireMutex ρ.System.Mutex ρ.System.Globals).1
          (ρ.System.Globals.RunningThread :: ρ.System.Parked) ρ.Acquired
        rw [UtAcquireMutex_held hO hN]
        refine ⟨ha, ?_, ?_, hd, he, hf⟩
        · intro hm
          rcases List.mem_cons.mp hm with e | e
          · exact absurd e hO
          · exact hb e
        · intro hm
          exact hc (fun e => hm (List.mem_cons_of_mem _ e))
      · show NULL ∉ ρ.System.Globals.RunningThread :: ρ.System.Parked
        intro hm
        rcases List.mem_cons.mp hm with e | e
        · exact hu.1 e.symm
        · exact hinv.1.null_not_parked e
  | @release ρ hr hu hA ih =>
    have hinv := hr.system.invariant h0
    have hK := hr.system.waiters_parked hwf hOwned
    intro hW
    obtain ⟨ha, hb, hc, hd, he, hf⟩ := ih hW
    have hO : ρ.System.Mutex.Owner = ρ.System.Globals.RunningThread := hA
    have hrp : ρ.System.Globals.RunningThread ∉ ρ.System.Parked := hinv.2
    have hAc : ρ.Acquired ρ.System.Globals.RunningThread = ρ.System.Mutex.RecursionCounter := by
      have := hc (hO ▸ hrp) (hO ▸ hu.1)
      rw [hO] at this
      exact this
    have h1 : 1 ≤ ρ.System.Mutex.RecursionCounter := hd (hO ▸ hu.1)
    have hsub : ULONG.sub ρ.System.Mutex.RecursionCounter 1 =
        ρ.System.Mutex.RecursionCounter - 1 := ULONG.sub_of_le h1 he
    show MutexRegion.Counted ρ.System.ReleaseMutex.Mutex ρ.System.ReleaseMutex.Parked
      (fun u => if u = ρ.System.Globals.RunningThread then ρ.Acquired u - 1 else ρ.Acquired u)
    by_cases hcnt : ULONG.sub ρ.System.Mutex.RecursionCounter 1 > 0
    · rw [MutexSystem.ReleaseMutex_nested_eq hcnt hO]
      refine ⟨?_, ?_, ?_, ?_, ULONG.sub_lt _ _, ?_⟩
      · intro t ht
        have ht' : t ≠ ρ.System.Globals.RunningThread := hO ▸ ht
        show (if t = ρ.System.Globals.RunningThread then _ else ρ.Acquired t) = 0
        rw [if_neg ht']
        exact ha t ht
      · intro hm
        exact absurd hm (hO ▸ hrp)
      · intro _ _
        show (if ρ.System.Mutex.Owner = ρ.System.Globals.RunningThread then
          ρ.Acquired ρ.System.Mutex.Owner - 1 else _) = ULONG.sub ρ.System.Mutex.RecursionCounter 1
        rw [if_pos hO, hO, hAc, hsub]
      · intro _
        exact hcnt
      · show (if NULL = ρ.System.Globals.RunningThread then _ else ρ.Acquired NULL) = 0
        rw [if_neg (fun e => hu.1 e.symm)]
        exact hf
    · have hzero : ρ.System.Mutex.RecursionCounter - 1 = 0 := by omega
      cases hw : ρ.System.Mutex.WaitListHead with
      | nil =>
        rw [MutexSystem.ReleaseMutex_free_eq hcnt hw hu.1]
        refine ⟨?_, ?_, ?_, ?_, ULONG.sub_lt _ _, ?_⟩
        · intro t ht
          show (if t = ρ.System.Globals.RunningThread then ρ.Acquired t - 1 else ρ.Acquired t) = 0
          by_cases e : t = ρ.System.Globals.RunningThread
          · rw [if_pos e, e, hAc, hzero]
          · rw [if_neg e]
            exact ha t (fun e' => e (e'.trans hO))
        · intro _
          show (if NULL = ρ.System.Globals.RunningThread then _ else ρ.Acquired NULL) = 0
          rw [if_neg (fun e => hu.1 e.symm)]
          exact hf
        · intro _ hn
          exact absurd rfl hn
        · intro hn
          exact absurd rfl hn
        · show (if NULL = ρ.System.Globals.RunningThread then _ else ρ.Acquired NULL) = 0
          rw [if_neg (fun e => hu.1 e.symm)]
          exact hf
      | cons w rest =>
        have hwr : w.Thread ≠ ρ.System.Globals.RunningThread := by
          intro e
          apply hinv.1.running_not_waiter
          rw [hw, ← e]
          exact List.mem_cons_self _ _
        have hwp : w.Thread ∈ ρ.System.Parked := by
          apply hK
          rw [hw]
          exact List.mem_cons_self _ _
        rw [MutexSystem.ReleaseMutex_transfer_eq hcnt hw hwr]
        refine ⟨?_, ?_, ?_, ?_, (by decide : (1 : Nat) < ULONG_MAX1), ?_⟩
        · intro t ht
          show (if t = ρ.System.Globals.RunningThread then ρ.Acquired t - 1 else ρ.Acquired t) = 0
          by_cases e : t = ρ.System.Globals.RunningThread
          · rw [if_pos e, e, hAc, hzero]
          · rw [if_neg e]
            exact ha t (fun e' => e (e'.trans hO))
        · intro _
          show (if w.Thread = ρ.System.Globals.RunningThread then _ else ρ.Acquired w.Thread) = 0
          rw [if_neg hwr]
          exact ha _ (fun e => hwr (e.trans hO))
        · intro hm
          exact absurd hwp hm
        · intro _
          exact Nat.le_refl 1
        · show (if NULL = ρ.System.Globals.RunningThread then _ else ρ.Acquired NULL) = 0
          rw [if_neg (fun e => hu.1 e.symm)]
          exact hf
  | @yield ρ hr hu ih =>
    have hinv := hr.system.invariant h0
    have hinv' : ρ.System.Yield.Invariant :=
      (MutexRegion.Reachable.yield hr hu).system.invariant h0
    intro hW
    have hC := ih hW
    show MutexRegion.Counted ρ.System.Yield.Mutex ρ.System.Yield.Parked
      (if IsListEmpty ρ.System.Globals.ReadyQueue then ρ.Acquired
        else MutexRegion.Resume ρ.System.Parked (UtYield ρ.System.Globals).RunningThread
          ρ.Acquired)
    by_cases hq : ρ.System.Globals.ReadyQueue = []
    · rw [MutexSystem.Yield_stay hq, if_pos (by rw [hq]; rfl)]
      exact hC
    · rw [if_neg (by cases hq' : ρ.System.Globals.ReadyQueue <;> simp_all [IsListEmpty])]
      rw [MutexSystem.Yield_switch hq] at hinv' ⊢
      exact MutexRegion.Counted.resume hC hinv.1.null_not_parked hinv'.1.resumed
  | @exit ρ hr hu ih =>
    have hinv := hr.system.invariant h0
    have hinv' : ρ.System.Exit.Invariant :=
      (MutexRegion.Reachable.exit hr hu).system.invariant h0
    intro hW
    have hC := ih hW
    show MutexRegion.Counted ρ.System.Exit.Mutex ρ.System.Exit.Parked
      (MutexRegion.Resume ρ.System.Parked (UtExit ρ.System.Globals).RunningThread ρ.Acquired)
    unfold MutexSystem.Exit at hinv' ⊢
    exact MutexRegion.Counted.resume hC hinv.1.null_not_parked hinv'.1.resumed

/-- Thread 5, running with thread 6 ready, takes a free mutex and then takes it again `k`
times: the state is reachable, the recursion counter is `1 + k` modulo `2 ^ 32` and thread 5
holds `k + 1` acquisitions. -/
theorem MutexRegion.Reachable.recursive_acquisitions (k : Nat) :
    ∃ ρ : MutexRegion,
      MutexRegion.Reachable
        (MutexRegion.start false
          { NumberOfThreads := 2, ReadyQueue := [6], RunningThread := 5, MainThread := 1 }) ρ ∧
      ρ.System =
        { Mutex := { WaitListHead := [], RecursionCounter := (1 + k) % ULONG_MAX1, Owner := 5 }
          Globals :=
            { NumberOfThreads := 2, ReadyQueue := [6], RunningThread := 5, MainThread := 1 }
          Parked := []
          Inside := [5]
          ResumedAsOwner := true } ∧
      (ρ.Acquired = fun t => if t = 5 then k + 1 else 0) ∧
      ρ.Wrapped = decide (ULONG_MAX1 ≤ 1 + k) := by
  induction k with
  | zero =>
    refine ⟨_, MutexRegion.Reachable.acquire MutexRegion.Reachable.start
      ⟨by show (5 : HANDLE) ≠ NULL; decide, by show (5 : HANDLE) ≠ 1; decide⟩, rfl, ?_, rfl⟩
    funext t
    show MutexRegion.Enter (fun t => if false = true ∧ t = 5 then 1 else 0) 5 t = _
    unfold MutexRegion.Enter
    by_cases e : t = 5
    · simp [e]
    · simp [e]
  | succ k ih =>
    obtain ⟨ρ, hr, hS, hA, hWr⟩ := ih
    have hu : ρ.System.UserThreadRuns := by
      rw [hS]
      exact ⟨by show (5 : HANDLE) ≠ NULL; decide, by show (5 : HANDLE) ≠ 1; decide⟩
    refine ⟨_, MutexRegion.Reachable.acquire hr hu, ?_, ?_, ?_⟩
    · show ρ.System.AcquireMutex = _
      rw [hS]
      have hc : ULONG.add ((1 + k) % ULONG_MAX1) 1 = (1 + (k + 1)) % ULONG_MAX1 := by
        simp only [ULONG.add, ULONG_MAX1]
        omega
      rw [← hc]
      rfl
    · show (if ρ.System.Mutex.Owner = UtSelf ρ.System.Globals ∨ ρ.System.Mutex.Owner = NULL then
          MutexRegion.Enter ρ.Acquired (UtSelf ρ.System.Globals) else _) = _
      have hcond : ρ.System.Mutex.Owner = UtSelf ρ.System.Globals ∨
          ρ.System.Mutex.Owner = NULL := by
        rw [hS]
        exact Or.inl rfl
      rw [if_pos hcond, hS, hA]
      funext t
      show MutexRegion.Enter (fun t => if t = 5 then k + 1 else 0) 5 t = _
      unfold MutexRegion.Enter
      by_cases e : t = 5
      · simp [e]
      · simp [e]
    · show (ρ.Wrapped || decide (ρ.System.Mutex.Owner = UtSelf ρ.System.Globals ∧
        ULONG_MAX1 ≤ ρ.System.Mutex.RecursionCounter + 1)) = _
      rw [hWr, hS]
      show (decide (ULONG_MAX1 ≤ 1 + k) ||
        decide ((5 : HANDLE) = 5 ∧ ULONG_MAX1 ≤ (1 + k) % ULONG_MAX1 + 1)) =
          decide (ULONG_MAX1 ≤ 1 + (k + 1))
      rw [Bool.eq_iff_iff]
      simp only [Bool.or_eq_true, decide_eq_true_eq, true_and, ULONG_MAX1]
      omega

/-- Claim C3, as stated, fails when the recursion counter wraps around. Thread 5 takes the free
mutex and takes it again `2 ^ 32` times, so that the counter is back at 1; thread 6 asks for the
mutex and is queued; thread 5 releases once, which brings the counter to 0 and hands the mutex
to thread 6, and yields; thread 6 is resumed as the owner. Thread 5 still holds `2 ^ 32`
acquisitions that it has not released and thread 6 holds one: two threads are inside the
acquired region. -/
theorem Mutex_wrap_two_inside :
    ∃ ρ : MutexRegion,
      MutexRegion.Reachable
        (MutexRegion.start false
          { NumberOfThreads := 2, ReadyQueue := [6], RunningThread := 5, MainThread := 1 }) ρ ∧
      ρ.System.Mutex = { WaitListHead := [], RecursionCounter := 1, Owner := 6 } ∧
      ρ.System.Globals.RunningThread = 6 ∧
      ρ.Acquired 5 = 4294967296 ∧ ρ.Acquired 6 = 1 ∧ ρ.Wrapped = true := by
  obtain ⟨ρ, hr, hS, hA, hW⟩ := MutexRegion.Reachable.recursive_acquisitions 4294967296
  have hd : decide (ULONG_MAX1 ≤ 1 + 4294967296) = true := by decide
  rw [hd] at hW
  cases ρ with
  | mk sys acq w =>
    simp only at hS hA hW
    subst hS hA hW
    refine ⟨_, MutexRegion.Reachable.yield
      (MutexRegion.Reachable.release
        (MutexRegion.Reachable.acquire
          (MutexRegion.Reachable.yield hr (by unfold MutexSystem.UserThreadRuns; decide))
          (by unfold MutexSystem.UserThreadRuns; decide))
        (by unfold MutexSystem.UserThreadRuns; decide) (by decide))
      (by unfold MutexSystem.UserThreadRuns; decide), by decide, by decide, by decide,
      by decide, rfl⟩

/-- Claim C3, amended: mutual exclusion by hand-off. Start from a mutex just initialised by
`UtInitializeMutex` (as owned only by a running thread) in well-formed scheduler globals, and
let user threads call `UtAcquireMutex`, `UtReleaseMutex` (only as owner), `UtYield` and `UtExit`
in any order. In every reachable state: (1) every thread resumed so far from the `UtPark` of
`UtAcquireMutex` found `Owner == Self` (the assertion) and `RecursionCounter == 1`; (2) a thread
suspended in `UtAcquireMutex` that has left the wait list (it was designated by a release and is
not yet resumed) is the owner, with recursion 1, so no call of another thread has changed
`Owner` in between, and it is not the running thread. As long as the recursion counter has not
wrapped around: (3) a thread that holds acquisitions it has not released is the owner, and it
holds as many as the recursion counter says; hence (4) at most one thread is inside the acquired
region; and (5) an owner that runs holds as many acquisitions as the recursion counter says, at
least 1. -/
theorem Mutex_handoff_exclusion (Owned : Bool) (s : Scheduler) (ρ : MutexRegion)
    (hwf : s.WellFormed) (hOwned : Owned = true → s.RunningThread ≠ NULL)
    (h : MutexRegion.Reachable (MutexRegion.start Owned s) ρ) :
    ρ.System.ResumedAsOwner = true ∧
    (∀ t ∈ ρ.System.Parked, t ∉ MutexWaiters ρ.System.Mutex.WaitListHead →
      ρ.System.Mutex.Owner = t ∧ ρ.System.Mutex.RecursionCounter = 1 ∧
      t ≠ ρ.System.Globals.RunningThread) ∧
    (ρ.Wrapped = false →
      (∀ t, ρ.Acquired t > 0 →
        ρ.System.Mutex.Owner = t ∧ t ≠ NULL ∧
        ρ.Acquired t = ρ.System.Mutex.RecursionCounter) ∧
      (∀ t u, ρ.Acquired t > 0 → ρ.Acquired u > 0 → t = u) ∧
      (ρ.System.Mutex.Owner = ρ.System.Globals.RunningThread → ρ.System.Mutex.Owner ≠ NULL →
        ρ.Acquired ρ.System.Mutex.Owner = ρ.System.Mutex.RecursionCounter ∧
        1 ≤ ρ.System.Mutex.RecursionCounter)) := by
  obtain ⟨hs, hrp⟩ := h.system.invariant (MutexSystem.start_invariant Owned s hwf hOwned)
  refine ⟨hs.resumed, ?_, ?_⟩
  · intro t ht hw
    obtain ⟨h1, h2⟩ := hs.parked_owner t ht hw
    exact ⟨h1, h2, fun e => hrp (e ▸ ht)⟩
  · intro hW
    obtain ⟨ha, hb, hc, hd, _, hf⟩ := h.counted hwf hOwned hW
    have key : ∀ t, ρ.Acquired t > 0 →
        ρ.System.Mutex.Owner = t ∧ t ≠ NULL ∧
        ρ.Acquired t = ρ.System.Mutex.RecursionCounter := by
      intro t ht
      have hO : ρ.System.Mutex.Owner = t := by
        by_contra hne
        have := ha t (fun e => hne e.symm)
        omega
      have hn : t ≠ NULL := by
        intro e
        rw [e, hf] at ht
        omega
      have hp : ρ.System.Mutex.Owner ∉ ρ.System.Parked := by
        intro hm
        have := hb hm
        rw [hO] at this
        omega
      refine ⟨hO, hn, ?_⟩
      have := hc hp (hO ▸ hn)
      rw [hO] at this
      exact this
    refine ⟨key, fun t u ht hu => (key t ht).1.symm.trans (key u hu).1, ?_⟩
    intro hO hn
    exact ⟨hc (hO ▸ hrp) hn, hd hn⟩

/-- The hand-off of C3 on two threads: thread 5 acquires the free mutex and yields; thread 6
blocks in `UtAcquireMutex`; thread 5 releases, which designates thread 6, and yields; thread 6
is resumed as owner with recursion 1 and is the only thread that holds an acquisition. -/
theorem Mutex_handoff_exclusion_witness :
    (MutexRegion.start false
        { NumberOfThreads := 2, ReadyQueue := [6], RunningThread := 5, MainThread := 1 }
      ).AcquireMutex.Yield.AcquireMutex.ReleaseMutex.Yield.System =
      { Mutex := { WaitListHead := [], RecursionCounter := 1, Owner := 6 }
        Globals := { NumberOfThreads := 2, ReadyQueue := [5], RunningThread := 6, MainThread := 1 }
        Parked := []
        Inside := [6]
        ResumedAsOwner := true } ∧
    (MutexRegion.start false
        { NumberOfThreads := 2, ReadyQueue := [6], RunningThread := 5, MainThread := 1 }
      ).AcquireMutex.Yield.AcquireMutex.ReleaseMutex.Yield.Acquired 6 = 1 ∧
    (MutexRegion.start false
        { NumberOfThreads := 2, ReadyQueue := [6], RunningThread := 5, MainThread := 1 }
      ).AcquireMutex.Yield.AcquireMutex.ReleaseMutex.Yield.Acquired 5 = 0 ∧
    (MutexRegion.start false
        { NumberOfThreads := 2, ReadyQueue := [6], RunningThread := 5, MainThread := 1 }
      ).AcquireMutex.Yield.AcquireMutex.ReleaseMutex.Yield.Acquired 6 =
      (MutexRegion.start false
        { NumberOfThreads := 2, ReadyQueue := [6], RunningThread := 5, MainThread := 1 }
      ).AcquireMutex.Yield.AcquireMutex.ReleaseMutex.Yield.System.Mutex.RecursionCounter :=
  ⟨by decide, by decide, by decide,
    (((Mutex_handoff_exclusion false
      { NumberOfThreads := 2, ReadyQueue := [6], RunningThread := 5, MainThread := 1 }
      _ (by unfold Scheduler.WellFormed; decide) (fun h => by cases h)
      (.yield
        (.release
          (.acquire
            (.yield
              (.acquire .start (by unfold MutexSystem.UserThreadRuns; decide))
              (by unfold MutexSystem.UserThreadRuns; decide))
            (by unfold MutexSystem.UserThreadRuns; decide))
          (by unfold MutexSystem.UserThreadRuns; decide) (by decide))
        (by unfold MutexSystem.UserThreadRuns; decide))).2.2 (by decide)).1 6 (by decide)).2.2⟩

end UThread
